import Mathlib

/-!
# Hash-timelock chaincode: a shallow embedding

The development follows `hash-timelock.go` and `hash-timelock-constants.go`.

* Go strings are Lean `String`s (text that is valid UTF-8).
* The three digest functions of `crypto/sha256` and `crypto/sha512`, and the table behind
  `unicode.ToLower` for runes outside ASCII, are library code and are taken as parameters
  (`Runtime`).
* `encoding/hex`, `strings.ToLower`, `strings.Join` and the part of `encoding/json` the contract
  uses are written out: the scanner for the whole JSON grammar, the decoding into the two
  records with the case folding of field names, and the encoder with HTML escaping.
* The chaincode stub is state passing: every operation maps a `Stub` and its arguments to the
  next `Stub` and a `Response`. The stub carries the keyed store, the events handed to
  `SetEvent` in call order, and for every kind of call the error the collaborator may report;
  a refused write or delete changes nothing.
-/

namespace HashTimeLock

/-! ## encoding/hex and strings -/

/-- The table of `encoding/hex`: `const hextable = "0123456789abcdef"`. -/
def hextable : List Char := "0123456789abcdef".data

/-- The digit `hextable[n]`. -/
def hexDigit (n : Nat) : Char := hextable.getD n '0'

/-- One byte `v` of `hex.Encode`: `hextable[v>>4]` then `hextable[v&0x0f]`. -/
def encodeByte (v : Nat) : List Char := [hexDigit (v % 256 / 16), hexDigit (v % 16)]

/-- The function `hex.EncodeToString` on a slice of bytes. -/
def EncodeToString (src : List Nat) : String := String.mk (src.flatMap encodeByte)

/-- The ASCII branch of `unicode.ToLower`: `A`..`Z` are moved by `'a' - 'A'`. -/
def asciiLower (c : Char) : Char :=
  if 65 ≤ c.toNat ∧ c.toNat ≤ 90 then Char.ofNat (c.toNat + 32) else c

/-- The three digests and the Unicode lower-case table are library code. -/
structure Runtime where
  /-- The digest `sha256.New()` computes over the bytes written to it. -/
  sha256 : String → List Nat
  /-- The digest of `sha512.New384()`. -/
  sha384 : String → List Nat
  /-- The digest of `sha512.New()`. -/
  sha512 : String → List Nat
  /-- The answer of `unicode.ToLower` on a rune above `unicode.MaxASCII`. -/
  lowerTable : Char → Char

/-- The function `unicode.ToLower`: ASCII is handled inline, the rest by table. -/
def toLowerRune (rt : Runtime) (c : Char) : Char :=
  if c.toNat < 128 then asciiLower c else rt.lowerTable c

/-- The function `strings.ToLower`: every rune is mapped by `unicode.ToLower`. -/
def ToLower (rt : Runtime) (s : String) : String := String.mk (s.data.map (toLowerRune rt))

/-! ## encoding/json: reading -/

/-- A parsed JSON text. The value of a number is never used by the contract. -/
inductive JValue where
  | null : JValue
  | bool : Bool → JValue
  | number : JValue
  | str : List Char → JValue
  | arr : List JValue → JValue
  | obj : List (List Char × JValue) → JValue

/-- The white space of the JSON scanner. -/
def isSpace (c : Char) : Bool := c = ' ' || c = '\t' || c = '\r' || c = '\n'

/-- Drops leading white space. -/
def skipWs : List Char → List Char
  | [] => []
  | c :: cs => if isSpace c then skipWs cs else c :: cs

/-- The value of one hexadecimal digit, in either case. -/
def hexVal (c : Char) : Option Nat :=
  if 48 ≤ c.toNat ∧ c.toNat ≤ 57 then some (c.toNat - 48)
  else if 97 ≤ c.toNat ∧ c.toNat ≤ 102 then some (c.toNat - 87)
  else if 65 ≤ c.toNat ∧ c.toNat ≤ 70 then some (c.toNat - 55)
  else none

/-- One element of a string literal: a character, or the code unit of a `\uXXXX` escape. -/
inductive StrItem where
  | lit : Char → StrItem
  | unit : Nat → StrItem

/-- The single-character escapes the scanner accepts after a backslash. -/
def simpleEscape (e : Char) : Option Char :=
  if e = '"' then some '"'
  else if e = '\\' then some '\\'
  else if e = '/' then some '/'
  else if e = 'b' then some (Char.ofNat 8)
  else if e = 'f' then some (Char.ofNat 12)
  else if e = 'n' then some '\n'
  else if e = 'r' then some '\r'
  else if e = 't' then some '\t'
  else none

/-- Scans a string literal after its opening quote, up to and including the closing quote. -/
def scanString : List Char → Option (List StrItem × List Char)
  | [] => none
  | c :: rest =>
    if c = '"' then some ([], rest)
    else if c = '\\' then
      match rest with
      | [] => none
      | e :: rest1 =>
        if e = 'u' then
          match rest1 with
          | a :: b :: c1 :: d :: rest2 =>
            match hexVal a, hexVal b, hexVal c1, hexVal d with
            | some x, some y, some z, some w =>
              match scanString rest2 with
              | some (items, out) => some (StrItem.unit (((x * 16 + y) * 16 + z) * 16 + w) :: items, out)
              | none => none
            | _, _, _, _ => none
          | _ => none
        else
          match simpleEscape e with
          | some x =>
            match scanString rest1 with
            | some (items, out) => some (StrItem.lit x :: items, out)
            | none => none
          | none => none
    else if c.toNat < 32 then none
    else
      match scanString rest with
      | some (items, out) => some (StrItem.lit c :: items, out)
      | none => none

/-- The replacement rune `unicode.ReplacementChar`. -/
def replacementChar : Char := Char.ofNat 0xFFFD

/-- The runes of a scanned literal, as `unquote` builds them: a high surrogate directly followed
by a low surrogate escape is one rune, any other surrogate is the replacement rune. -/
def decodeItems : List StrItem → List Char
  | [] => []
  | StrItem.lit c :: rest => c :: decodeItems rest
  | [StrItem.unit hi] => [if 0xD800 ≤ hi ∧ hi < 0xE000 then replacementChar else Char.ofNat hi]
  | StrItem.unit hi :: StrItem.lit c :: rest =>
    (if 0xD800 ≤ hi ∧ hi < 0xE000 then replacementChar else Char.ofNat hi) :: c :: decodeItems rest
  | StrItem.unit hi :: StrItem.unit lo :: rest =>
    if 0xD800 ≤ hi ∧ hi < 0xE000 then
      if hi < 0xDC00 ∧ 0xDC00 ≤ lo ∧ lo < 0xE000 then
        Char.ofNat ((hi - 0xD800) * 1024 + (lo - 0xDC00) + 0x10000) :: decodeItems rest
      else replacementChar :: decodeItems (StrItem.unit lo :: rest)
    else Char.ofNat hi :: decodeItems (StrItem.unit lo :: rest)

/-- A string literal after its opening quote: the text it denotes and the rest of the input. -/
def unquote (cs : List Char) : Option (List Char × List Char) :=
  match scanString cs with
  | some (items, out) => some (decodeItems items, out)
  | none => none

/-- A decimal digit. -/
def isDigit (c : Char) : Bool := decide (48 ≤ c.toNat ∧ c.toNat ≤ 57)

/-- Drops leading decimal digits. -/
def skipDigits : List Char → List Char
  | [] => []
  | c :: cs => if isDigit c then skipDigits cs else c :: cs

/-- Requires one digit, then drops the digits that follow it. -/
def digits1 : List Char → Option (List Char)
  | [] => none
  | c :: cs => if isDigit c then some (skipDigits cs) else none

/-- The exponent of a number, when there is one. -/
def scanExponent : List Char → Option (List Char)
  | [] => some []
  | c :: cs =>
    if c = 'e' ∨ c = 'E' then
      match cs with
      | [] => none
      | s :: cs1 => if s = '+' ∨ s = '-' then digits1 cs1 else digits1 (s :: cs1)
    else some (c :: cs)

/-- The fraction and exponent of a number, when there are any. -/
def scanFraction : List Char → Option (List Char)
  | [] => some []
  | c :: cs =>
    if c = '.' then
      match digits1 cs with
      | some out => scanExponent out
      | none => none
    else scanExponent (c :: cs)

/-- The integer part of a number after its sign: a lone `0`, or a digit `1`..`9` and digits. -/
def scanInteger : List Char → Option (List Char)
  | [] => none
  | c :: cs =>
    if c = '0' then scanFraction cs
    else if isDigit c then scanFraction (skipDigits cs)
    else none

/-- A JSON number: the input that follows it. -/
def scanNumber : List Char → Option (List Char)
  | [] => none
  | c :: cs => if c = '-' then scanInteger cs else scanInteger (c :: cs)

/-- Requires the characters of `word` at the head of the input. -/
def expectWord : List Char → List Char → Option (List Char)
  | [], cs => some cs
  | _ :: _, [] => none
  | w :: ws, c :: cs => if c = w then expectWord ws cs else none

mutual
/-- One JSON value at the head of the input (leading white space already dropped). -/
def parseValue : Nat → List Char → Option (JValue × List Char)
  | 0, _ => none
  | _ + 1, [] => none
  | fuel + 1, c :: rest =>
    if c = '{' then
      match skipWs rest with
      | [] => none
      | d :: rest1 =>
        if d = '}' then some (JValue.obj [], rest1)
        else
          match parseMembers fuel (d :: rest1) with
          | some (ms, out) => some (JValue.obj ms, out)
          | none => none
    else if c = '[' then
      match skipWs rest with
      | [] => none
      | d :: rest1 =>
        if d = ']' then some (JValue.arr [], rest1)
        else
          match parseElements fuel (d :: rest1) with
          | some (vs, out) => some (JValue.arr vs, out)
          | none => none
    else if c = '"' then
      match unquote rest with
      | some (s, out) => some (JValue.str s, out)
      | none => none
    else if c = 't' then
      match expectWord ['r', 'u', 'e'] rest with
      | some out => some (JValue.bool true, out)
      | none => none
    else if c = 'f' then
      match expectWord ['a', 'l', 's', 'e'] rest with
      | some out => some (JValue.bool false, out)
      | none => none
    else if c = 'n' then
      match expectWord ['u', 'l', 'l'] rest with
      | some out => some (JValue.null, out)
      | none => none
    else
      match scanNumber (c :: rest) with
      | some out => some (JValue.number, out)
      | none => none
/-- The members of an object from its first key to the closing brace. -/
def parseMembers : Nat → List Char → Option (List (List Char × JValue) × List Char)
  | 0, _ => none
  | _ + 1, [] => none
  | fuel + 1, c :: rest =>
    if c = '"' then
      match unquote rest with
      | none => none
      | some (key, afterKey) =>
        match skipWs afterKey with
        | [] => none
        | colon :: afterColon =>
          if colon = ':' then
            match parseValue fuel (skipWs afterColon) with
            | none => none
            | some (v, afterValue) =>
              match skipWs afterValue with
              | [] => none
              | sep :: afterSep =>
                if sep = ',' then
                  match parseMembers fuel (skipWs afterSep) with
                  | some (ms, out) => some ((key, v) :: ms, out)
                  | none => none
                else if sep = '}' then some ([(key, v)], afterSep)
                else none
          else none
    else none
/-- The elements of an array from its first value to the closing bracket. -/
def parseElements : Nat → List Char → Option (List JValue × List Char)
  | 0, _ => none
  | fuel + 1, cs =>
    match parseValue fuel cs with
    | none => none
    | some (v, afterValue) =>
      match skipWs afterValue with
      | [] => none
      | sep :: afterSep =>
        if sep = ',' then
          match parseElements fuel (skipWs afterSep) with
          | some (vs, out) => some (v :: vs, out)
          | none => none
        else if sep = ']' then some ([v], afterSep)
        else none
end

/-- The syntax check and scan of `json.Unmarshal`: exactly one value, white space around it.
Every step of the scan consumes input, so the length of the text is fuel enough. -/
def parseJSON (data : List Char) : Option JValue :=
  match parseValue (data.length + 1) (skipWs data) with
  | some (v, out) => if skipWs out = [] then some v else none
  | none => none

/-! ## encoding/json: the records of the contract -/

/-- The record `abstractProposal`, a placeholder for a real proposal. -/
structure abstractProposal where
  /-- JSON name `proposalId`. -/
  ProposalID : String
  /-- JSON name `proposalHandler`. -/
  Handler : String
deriving DecidableEq, Repr

/-- The record `proposalEntry`, the object which is stored in the state. -/
structure proposalEntry where
  /-- JSON name `proposal`. -/
  Proposal : abstractProposal
  /-- JSON name `status`. -/
  Status : String
  /-- JSON name `hash`. -/
  Hash : String
  /-- JSON name `hashAlgorithm`. -/
  HashAlgorithm : String
deriving DecidableEq, Repr

/-- The record `ProposalCreatedEventObject`. -/
structure ProposalCreatedEventObject where
  /-- JSON name `proposalId`. -/
  ProposalID : String
deriving DecidableEq, Repr

/-- The record `ProposalConfirmedEventObject`. -/
structure ProposalConfirmedEventObject where
  /-- JSON name `proposalId`. -/
  ProposalID : String
  /-- JSON name `preImage`. -/
  PreImage : String
deriving DecidableEq, Repr

/-- The case folding under which the decoder matches an object key with a field name: ASCII
letters without regard to case, the Kelvin sign as `k`, the long s as `s`. -/
def foldRune (c : Char) : Char :=
  if c.toNat = 0x212A then 'k' else if c.toNat = 0x17F then 's' else asciiLower c

/-- Whether the object key `key` selects the field whose JSON name is `name`. -/
def fieldMatches (name : String) (key : List Char) : Bool :=
  decide (key.map foldRune = name.data.map foldRune)

/-- Decoding a JSON value into a Go `string` that holds `cur`: a string is stored, `null` leaves
the field as it is, any other value is an `UnmarshalTypeError` (`none`). -/
def setString (cur : String) : JValue → Option String
  | JValue.str s => some (String.mk s)
  | JValue.null => some cur
  | _ => none

/-- The members of an object decoded into an `abstractProposal`, in the order of the text: a
later member overwrites an earlier one, unknown keys are skipped. -/
def decodeProposalMembers : List (List Char × JValue) → abstractProposal → Option abstractProposal
  | [], p => some p
  | (key, v) :: ms, p =>
    if fieldMatches "proposalId" key then
      match setString p.ProposalID v with
      | some x => decodeProposalMembers ms { p with ProposalID := x }
      | none => none
    else if fieldMatches "proposalHandler" key then
      match setString p.Handler v with
      | some x => decodeProposalMembers ms { p with Handler := x }
      | none => none
    else decodeProposalMembers ms p

/-- Decoding a JSON value into an `abstractProposal` that holds `p`. -/
def decodeProposal (p : abstractProposal) : JValue → Option abstractProposal
  | JValue.obj ms => decodeProposalMembers ms p
  | JValue.null => some p
  | _ => none

/-- The members of an object decoded into a `proposalEntry`. -/
def decodeEntryMembers : List (List Char × JValue) → proposalEntry → Option proposalEntry
  | [], e => some e
  | (key, v) :: ms, e =>
    if fieldMatches "proposal" key then
      match decodeProposal e.Proposal v with
      | some x => decodeEntryMembers ms { e with Proposal := x }
      | none => none
    else if fieldMatches "status" key then
      match setString e.Status v with
      | some x => decodeEntryMembers ms { e with Status := x }
      | none => none
    else if fieldMatches "hash" key then
      match setString e.Hash v with
      | some x => decodeEntryMembers ms { e with Hash := x }
      | none => none
    else if fieldMatches "hashAlgorithm" key then
      match setString e.HashAlgorithm v with
      | some x => decodeEntryMembers ms { e with HashAlgorithm := x }
      | none => none
    else decodeEntryMembers ms e

/-- Decoding a JSON value into a `proposalEntry` that holds `e`. -/
def decodeEntry (e : proposalEntry) : JValue → Option proposalEntry
  | JValue.obj ms => decodeEntryMembers ms e
  | JValue.null => some e
  | _ => none

/-- The text of the error of `json.Unmarshal` on a text that is not one JSON value. The wording
of the library is not modelled. -/
def jsonSyntaxError : String := "invalid JSON text"

/-- The text of the error of `json.Unmarshal` on a value of the wrong JSON type. The wording of
the library is not modelled. -/
def jsonTypeError : String := "json: cannot unmarshal value into Go struct field"

/-- The call `json.Unmarshal(data, &p)` on a zero `abstractProposal`. When the library reports
an error the caller drops the record, so only the error is kept. -/
def unmarshalProposal (data : String) : Except String abstractProposal :=
  match parseJSON data.data with
  | none => Except.error jsonSyntaxError
  | some v =>
    match decodeProposal { ProposalID := "", Handler := "" } v with
    | some p => Except.ok p
    | none => Except.error jsonTypeError

/-- The call `json.Unmarshal(data, &e)` on a zero `proposalEntry`. -/
def unmarshalEntry (data : String) : Except String proposalEntry :=
  match parseJSON data.data with
  | none => Except.error jsonSyntaxError
  | some v =>
    match decodeEntry
        { Proposal := { ProposalID := "", Handler := "" }, Status := "", Hash := "",
          HashAlgorithm := "" } v with
    | some e => Except.ok e
    | none => Except.error jsonTypeError

/-! ## encoding/json: writing -/

/-- One rune of a string as `json.Marshal` writes it (HTML escaping is on): the quote and the
backslash get a backslash, line feed, carriage return and tab their short form, the other
control characters and `<`, `>`, `&` the form `\u00XX`, U+2028 and U+2029 the form `\u202X`. -/
def escapeRune (c : Char) : List Char :=
  if c = '"' ∨ c = '\\' then ['\\', c]
  else if c = '\n' then ['\\', 'n']
  else if c = '\r' then ['\\', 'r']
  else if c = '\t' then ['\\', 't']
  else if c.toNat < 32 ∨ c = '<' ∨ c = '>' ∨ c = '&' then
    ['\\', 'u', '0', '0', hexDigit (c.toNat / 16), hexDigit (c.toNat % 16)]
  else if c.toNat = 0x2028 ∨ c.toNat = 0x2029 then
    ['\\', 'u', '2', '0', '2', hexDigit (c.toNat % 16)]
  else [c]

/-- A Go string as a JSON string literal. -/
def quote (s : String) : List Char := '"' :: (s.data.flatMap escapeRune ++ ['"'])

/-- The characters of `json.Marshal` of an `abstractProposal`: each field is its quoted JSON
name, a colon and its value, the fields in the order of the declaration, no white space. -/
def marshalProposalChars (p : abstractProposal) : List Char :=
  ['{'] ++ quote "proposalId" ++ [':'] ++ quote p.ProposalID ++ [',']
    ++ quote "proposalHandler" ++ [':'] ++ quote p.Handler ++ ['}']

/-- The characters of `json.Marshal` of a `proposalEntry`. -/
def marshalEntryChars (e : proposalEntry) : List Char :=
  ['{'] ++ quote "proposal" ++ [':'] ++ marshalProposalChars e.Proposal ++ [',']
    ++ quote "status" ++ [':'] ++ quote e.Status ++ [',']
    ++ quote "hash" ++ [':'] ++ quote e.Hash ++ [',']
    ++ quote "hashAlgorithm" ++ [':'] ++ quote e.HashAlgorithm ++ ['}']

/-- The call `json.Marshal(e)` for a `proposalEntry`; it has no error for this type. -/
def marshalEntry (e : proposalEntry) : String := String.mk (marshalEntryChars e)

/-- The call `json.Marshal(ev)` for a `ProposalCreatedEventObject`. -/
def marshalCreatedEvent (ev : ProposalCreatedEventObject) : String :=
  String.mk (['{'] ++ quote "proposalId" ++ [':'] ++ quote ev.ProposalID ++ ['}'])

/-- The call `json.Marshal(ev)` for a `ProposalConfirmedEventObject`. -/
def marshalConfirmedEvent (ev : ProposalConfirmedEventObject) : String :=
  String.mk (['{'] ++ quote "proposalId" ++ [':'] ++ quote ev.ProposalID ++ [',']
    ++ quote "preImage" ++ [':'] ++ quote ev.PreImage ++ ['}'])

/-- The item a rune is scanned back to after `escapeRune`. -/
def itemOf (c : Char) : StrItem :=
  if c = '"' ∨ c = '\\' then StrItem.lit c
  else if c = '\n' then StrItem.lit c
  else if c = '\r' then StrItem.lit c
  else if c = '\t' then StrItem.lit c
  else if c.toNat < 32 ∨ c = '<' ∨ c = '>' ∨ c = '&' then StrItem.unit c.toNat
  else if c.toNat = 0x2028 ∨ c.toNat = 0x2029 then StrItem.unit c.toNat
  else StrItem.lit c

/-! ## The chaincode stub and the response -/

/-- The message `peer.Response`. -/
structure Response where
  /-- The status code: `shim.OK` or `shim.ERROR`. -/
  Status : Nat
  /-- The message of a failure. -/
  Message : String
  /-- The payload of a success; `none` is the nil slice. -/
  Payload : Option String
deriving DecidableEq, Repr

/-- The call `shim.Success(payload)`: status `OK = 200`. -/
def Success (payload : Option String) : Response :=
  { Status := 200, Message := "", Payload := payload }

/-- The call `shim.Error(msg)`: status `ERROR = 500`. -/
def Error (msg : String) : Response := { Status := 500, Message := msg, Payload := none }

/-- A chaincode event: what `SetEvent` is handed. -/
structure ChaincodeEvent where
  /-- The name of the event. -/
  EventName : String
  /-- The bytes of the payload. -/
  Payload : String
deriving DecidableEq, Repr

/-- What the contract sees of `shim.ChaincodeStubInterface`: the keyed store, the events set so
far, and for each kind of call whether the collaborator reports an error. -/
structure Stub where
  /-- What a read of a key answers: an error, no value (`nil`), or the bytes stored. -/
  State : String → Except String (Option String)
  /-- The events handed to `SetEvent`, oldest first. -/
  Events : List ChaincodeEvent
  /-- The error, if any, with which the store refuses to write a value under a key. -/
  putErr : String → String → Option String
  /-- The error, if any, with which the store refuses to delete a key. -/
  delErr : String → Option String
  /-- The error, if any, that the event transport reports for an event. -/
  eventErr : String → String → Option String

/-- The call `stub.GetState(key)`. -/
def Stub.GetState (stub : Stub) (key : String) : Except String (Option String) := stub.State key

/-- The call `stub.PutState(key, value)`: a refused write changes nothing, an accepted one is
what later reads of the key answer. -/
def Stub.PutState (stub : Stub) (key value : String) : Except String Stub :=
  match stub.putErr key value with
  | some err => Except.error err
  | none =>
    Except.ok { stub with State := fun k => if k = key then Except.ok (some value) else stub.State k }

/-- The call `stub.DelState(key)`: a refused delete changes nothing, after an accepted one the
key has no value. -/
def Stub.DelState (stub : Stub) (key : String) : Except String Stub :=
  match stub.delErr key with
  | some err => Except.error err
  | none =>
    Except.ok { stub with State := fun k => if k = key then Except.ok none else stub.State k }

/-- The call `stub.SetEvent(name, payload)`: the event is handed over, and the transport may
report an error for it. -/
def Stub.SetEvent (stub : Stub) (name payload : String) : Stub × Option String :=
  ({ stub with Events := stub.Events ++ [{ EventName := name, Payload := payload }] },
    stub.eventErr name payload)

/-! ## hash-timelock-constants.go -/

/-- Prefix for keys. -/
def proposalPrefix : String := "_proposal_"

/-- PendingStatus is the default state in which new proposals are placed. -/
def PendingStatus : String := "PENDING"

/-- ConfirmStatus is used after the preimage is supplied. -/
def ConfirmStatus : String := "CONFIRMED"

/-- Valid hashing algorithms. -/
def validHashingAlgorithms : List String := ["SHA256", "SHA384", "SHA512"]

/-- ProposalCreatedHandlerEvent is fired when an initial proposal is added, prefixed by the
intended handler organisation. -/
def ProposalCreatedHandlerEvent : String := "_PROPOSAL_CREATED"

/-- ProposalCreateTimeoutEvent is fired when an initial proposal is added, for the client which
makes the invalidate call. -/
def ProposalCreateTimeoutEvent : String := "PROPOSAL_CREATED"

/-- ProposalConfirmedHandlerEvent is fired when a proposal is confirmed. -/
def ProposalConfirmedHandlerEvent : String := "PROPOSAL_CONFIRMED"

/-! ## hash-timelock.go -/

/-- The loop of `createProposal` over `validHashingAlgorithms`: `validAlg` starts `false` and is
set when an element equals the argument. -/
def validAlg (alg : String) : Bool :=
  validHashingAlgorithms.foldl (fun found a => if a = alg then true else found) false

/-- The function `createProposal`. The two calls of `json.Marshal` cannot fail on these records,
so their error branches are not there; the errors of the two `SetEvent` calls are assigned and
never read. -/
def createProposal (stub : Stub) (args : List String) : Stub × Response :=
  match args with
  | [a0, a1, a2] =>
    if validAlg a2 = false then
      (stub, Error ("Only these hashing algorithms are supported: "
        ++ String.intercalate ", " validHashingAlgorithms))
    else
      match unmarshalProposal a0 with
      | Except.error err => (stub, Error ("Error parsing provided proposal definition - " ++ err))
      | Except.ok parsed =>
        let proposal : proposalEntry :=
          { Proposal := parsed, Status := PendingStatus, Hash := a1, HashAlgorithm := a2 }
        if proposal.Proposal.ProposalID = "" then
          (stub, Error "No proposalId provided as part of proposal.")
        else if proposal.Proposal.Handler = "" then
          (stub, Error "No proposalHandler provided as part of proposal.")
        else
          match stub.PutState (proposalPrefix ++ proposal.Proposal.ProposalID)
              (marshalEntry proposal) with
          | Except.error err => (stub, Error ("Error writing proposal to state - " ++ err))
          | Except.ok stub1 =>
            let proposalEventAsBytes :=
              marshalCreatedEvent { ProposalID := proposal.Proposal.ProposalID }
            let stub2 :=
              (stub1.SetEvent (proposal.Proposal.Handler ++ ProposalCreatedHandlerEvent)
                proposalEventAsBytes).1
            let stub3 := (stub2.SetEvent ProposalCreateTimeoutEvent proposalEventAsBytes).1
            (stub3, Success none)
  | _ => (stub, Error "Invalid arguments to createProposal, expected proposal, hash, hashingAlg.")

/-- The switch of `confirmProposal` on the recorded algorithm: the digest of the pre-image, or
`none` in the default case. -/
def hasherSum (rt : Runtime) (alg preImage : String) : Option (List Nat) :=
  if alg = "SHA256" then some (rt.sha256 preImage)
  else if alg = "SHA384" then some (rt.sha384 preImage)
  else if alg = "SHA512" then some (rt.sha512 preImage)
  else none

/-- The function `confirmProposal`. The error of `PutState` is assigned and overwritten by the
next assignment without being read; the stub moves on only when the write was accepted. -/
def confirmProposal (rt : Runtime) (stub : Stub) (args : List String) : Stub × Response :=
  match args with
  | [a0, a1] =>
    match stub.GetState (proposalPrefix ++ a0) with
    | Except.error err =>
      (stub, Error ("Error while retreiving the stored proposal from state - " ++ err))
    | Except.ok none => (stub, Error "No such proposal. It may have expired and been invalidated.")
    | Except.ok (some proposalAsBytes) =>
      match unmarshalEntry proposalAsBytes with
      | Except.error err =>
        (stub, Error ("Error while parsing the proposal stored in state - " ++ err))
      | Except.ok proposal =>
        match hasherSum rt proposal.HashAlgorithm a1 with
        | none =>
          (stub, Error "The hash algorithm which was recorded in the proposal is not supported.")
        | some sum =>
          if EncodeToString sum ≠ ToLower rt proposal.Hash then
            (stub, Error "Invalid Pre-image supplied.")
          else
            let confirmed : proposalEntry := { proposal with Status := ConfirmStatus }
            let stub1 :=
              match stub.PutState (proposalPrefix ++ a0) (marshalEntry confirmed) with
              | Except.error _ => stub
              | Except.ok written => written
            let proposalEventAsBytes :=
              marshalConfirmedEvent { ProposalID := a0, PreImage := a1 }
            let stub2 := (stub1.SetEvent ProposalConfirmedHandlerEvent proposalEventAsBytes).1
            (stub2, Success none)
  | _ => (stub, Error "Invalid arguments to confirmProposal, expected proposalId, pre-image.")

/-- The bytes handed to `json.Unmarshal`: a nil slice is the empty text. -/
def bytesOrNil : Option String → String
  | some bytes => bytes
  | none => ""

/-- The function `invalidateProposal`. -/
def invalidateProposal (stub : Stub) (args : List String) : Stub × Response :=
  match args with
  | [a0] =>
    match stub.GetState (proposalPrefix ++ a0) with
    | Except.error _ => (stub, Error "Error retreiving stored proposal from state")
    | Except.ok proposalBytes =>
      match unmarshalEntry (bytesOrNil proposalBytes) with
      | Except.error err =>
        (stub, Error ("Error while parsing the proposal stored in state - " ++ err))
      | Except.ok proposal =>
        if proposal.Status ≠ PendingStatus then
          (stub, Error "Only pending proposals can be timed out.")
        else
          match stub.DelState (proposalPrefix ++ a0) with
          | Except.error _ => (stub, Error "Error while deleting proposal from state.")
          | Except.ok stub1 => (stub1, Success none)
  | _ => (stub, Error "Invalid arguments to invalidateProposal, expected proposalId")

/-- The router `Invoke`. -/
def Invoke (rt : Runtime) (stub : Stub) (function : String) (args : List String) :
    Stub × Response :=
  if function = "createProposal" then createProposal stub args
  else if function = "confirmProposal" then confirmProposal rt stub args
  else if function = "invalidateProposal" then invalidateProposal stub args
  else (stub, Error "Invalid Smart Contract function name.")

/-! ## Vocabulary of the statements -/

/-- The entry a store holds under a key: a read of the key answers bytes, and the bytes decode
to the entry. -/
def Stub.entryAt (stub : Stub) (key : String) : Option proposalEntry :=
  match stub.GetState key with
  | Except.ok (some bytes) =>
    match unmarshalEntry bytes with
    | Except.ok e => some e
    | Except.error _ => none
  | _ => none

/-- The digest that an algorithm token names: `SHA256` is SHA-256, `SHA384` is SHA-384 and
`SHA512` is SHA-512. -/
def digestOf (rt : Runtime) (alg preImage : String) : List Nat :=
  if alg = "SHA256" then rt.sha256 preImage
  else if alg = "SHA384" then rt.sha384 preImage
  else rt.sha512 preImage

/-- A store that accepts writes: no write is refused. -/
def Stub.AcceptsWrites (stub : Stub) : Prop := ∀ key value, stub.putErr key value = none

/-- A string that `json.Marshal` writes between quotes as it is. -/
def NoEscape (s : String) : Prop := ∀ c ∈ s.data, escapeRune c = [c]

/-- A response is an error result when its status is `shim.ERROR`. -/
def Response.isError (r : Response) : Prop := r.Status = 500

instance (r : Response) : Decidable r.isError := inferInstanceAs (Decidable (r.Status = 500))

deriving instance DecidableEq for Except

/-- A store with no key and no event, on which every call is accepted. -/
def emptyStub : Stub :=
  { State := fun _ => Except.ok none
    Events := []
    putErr := fun _ _ => none
    delErr := fun _ => none
    eventErr := fun _ _ => none }

/-- A store on which every write is refused. -/
def readOnlyStub (stub : Stub) : Stub := { stub with putErr := fun _ _ => some "write refused" }

/-- The library on the pre-image of the tests: the three digests of `test_hash` are the ones the
tests record; on any other text the stand-in for a digest is the list of its code points. The
table leaves every rune above ASCII as it is. -/
def testRuntime : Runtime :=
  { sha256 := fun s =>
      if s = "test_hash" then
        [107, 112, 168, 32, 235, 151, 136, 130, 250, 73, 177, 153, 200, 83, 165, 103, 110, 94,
          26, 71, 68, 55, 27, 229, 175, 253, 75, 58, 241, 245, 221, 230]
      else s.data.map Char.toNat
    sha384 := fun s =>
      if s = "test_hash" then
        [112, 138, 248, 239, 187, 136, 43, 182, 98, 165, 165, 241, 157, 49, 100, 19, 54, 33, 38,
          105, 3, 206, 199, 238, 12, 233, 236, 169, 80, 167, 183, 248, 208, 157, 239, 237, 180,
          71, 77, 164, 37, 114, 116, 116, 31, 42, 7, 168]
      else s.data.map Char.toNat
    sha512 := fun s =>
      if s = "test_hash" then
        [90, 50, 240, 150, 118, 35, 1, 44, 221, 76, 41, 37, 127, 128, 143, 63, 32, 145, 132, 233,
          146, 195, 157, 198, 217, 49, 248, 152, 49, 231, 177, 235, 147, 121, 249, 227, 162, 13,
          160, 158, 176, 109, 12, 165, 59, 217, 192, 132, 93, 218, 145, 186, 237, 23, 167, 19,
          192, 202, 200, 162, 66, 89, 192, 185]
      else s.data.map Char.toNat
    lowerTable := fun c => c }

/-- The stub after the write of the confirmed entry as `confirmProposal` carries it on: the
written stub when the write was accepted, the stub as it was when it was refused. -/
def afterConfirmWrite (stub : Stub) (key : String) (e : proposalEntry) : Stub :=
  match stub.PutState key (marshalEntry { e with Status := ConfirmStatus }) with
  | Except.error _ => stub
  | Except.ok written => written

/-- The proposal payload of the tests. -/
def testProposal : String := "\x7b\"proposalId\": \"prop1234\",\"proposalHandler\": \"Bob\"\x7d"

/-- An entry for `prop1234` in state `PENDING`; its hash is the SHA-256 digest of `test_hash`
written in upper case, as in the test of the upper-case hash string. -/
def pendingEntry : proposalEntry :=
  { Proposal := { ProposalID := "prop1234", Handler := "Bob" }, Status := "PENDING",
    Hash := "6B70A820EB978882FA49B199C853A5676E5E1A4744371BE5AFFD4B3AF1F5DDE6",
    HashAlgorithm := "SHA256" }

/-- A store that holds `pendingEntry` and nothing else. -/
def pendingStub : Stub :=
  { emptyStub with
    State := fun k =>
      if k = "_proposal_prop1234" then Except.ok (some (marshalEntry pendingEntry))
      else Except.ok none }

/-- A store that accepts deletes: no delete is refused. -/
def Stub.AcceptsDeletes (stub : Stub) : Prop := ∀ key, stub.delErr key = none

/-- A store on which every delete is refused. -/
def keepAllStub (stub : Stub) : Stub := { stub with delErr := fun _ => some "delete refused" }

/-- The members of an object decoded into a `ProposalConfirmedEventObject`, as the relay of the
tests decodes the payload of the confirmation event. -/
def decodeConfirmedEventMembers :
    List (List Char × JValue) → ProposalConfirmedEventObject → Option ProposalConfirmedEventObject
  | [], ev => some ev
  | (key, v) :: ms, ev =>
    if fieldMatches "proposalId" key then
      match setString ev.ProposalID v with
      | some x => decodeConfirmedEventMembers ms { ev with ProposalID := x }
      | none => none
    else if fieldMatches "preImage" key then
      match setString ev.PreImage v with
      | some x => decodeConfirmedEventMembers ms { ev with PreImage := x }
      | none => none
    else decodeConfirmedEventMembers ms ev

/-- The call `json.Unmarshal(payload, &ev)` on a zero `ProposalConfirmedEventObject`. -/
def unmarshalConfirmedEvent (data : String) : Except String ProposalConfirmedEventObject :=
  match parseJSON data.data with
  | none => Except.error jsonSyntaxError
  | some (JValue.obj ms) =>
    match decodeConfirmedEventMembers ms { ProposalID := "", PreImage := "" } with
    | some ev => Except.ok ev
    | none => Except.error jsonTypeError
  | some JValue.null => Except.ok { ProposalID := "", PreImage := "" }
  | some _ => Except.error jsonTypeError

/-- The text of a persisted record whose strings are written as they are: the fields in the
order of the declaration, no white space. -/
def entryText (e : proposalEntry) : String :=
  "\x7b\"proposal\":\x7b\"proposalId\":\"" ++ e.Proposal.ProposalID ++ "\",\"proposalHandler\":\""
    ++ e.Proposal.Handler ++ "\"\x7d,\"status\":\"" ++ e.Status ++ "\",\"hash\":\"" ++ e.Hash
    ++ "\",\"hashAlgorithm\":\"" ++ e.HashAlgorithm ++ "\"\x7d"

/-- The entry `pendingEntry` once confirmed. -/
def confirmedEntry : proposalEntry := { pendingEntry with Status := "CONFIRMED" }

/-- A store that holds `confirmedEntry` and nothing else. -/
def confirmedStub : Stub :=
  { emptyStub with
    State := fun k =>
      if k = "_proposal_prop1234" then Except.ok (some (marshalEntry confirmedEntry))
      else Except.ok none }

/-- The proposal payload of the second channel of the cross-channel test. -/
def testProposalCharlie : String :=
  "\x7b\"proposalId\": \"prop1234\",\"proposalHandler\": \"Charlie\"\x7d"

instance (s : String) : Decidable (NoEscape s) :=
  inferInstanceAs (Decidable (∀ c ∈ s.data, escapeRune c = [c]))

/-- The entry of the second channel of the cross-channel test: the same id, hash and algorithm
as `pendingEntry`, with handler `Charlie`. -/
def charlieEntry : proposalEntry :=
  { pendingEntry with Proposal := { ProposalID := "prop1234", Handler := "Charlie" } }

/-- A store that holds `charlieEntry` and nothing else. -/
def charlieStub : Stub :=
  { emptyStub with
    State := fun k =>
      if k = "_proposal_prop1234" then Except.ok (some (marshalEntry charlieEntry))
      else Except.ok none }

/-- The SHA-512 digest of `test_hash` in hexadecimal, the hash of the cross-channel test. -/
def testHash512 : String :=
  "5a32f0967623012cdd4c29257f808f3f209184e992c39dc6d931f89831e7b1eb9379f9e3a20da09eb06d0ca53bd9c0845dda91baed17a713c0cac8a24259c0b9"

/-! ## Sequences of invocations -/

/-- A store without any key: every read answers no value. Its events, and the errors that its
calls may report, are left open. -/
def Stub.IsEmpty (stub : Stub) : Prop := ∀ key, stub.State key = Except.ok none

/-- The stub after a sequence of invocations, each one a function name with its arguments,
routed one after the other through `Invoke`. -/
def run (rt : Runtime) (stub : Stub) : List (String × List String) → Stub
  | [] => stub
  | call :: rest => run rt (Invoke rt stub call.1 call.2).1 rest

/-- The shape that the three operations keep in a store: a key either has no value, or it is
the prefix followed by an id and its value is the encoding of an entry with that id, a non-empty
id and handler, the status `PENDING` or `CONFIRMED`, and one of the three algorithms. -/
def Stub.WellFormed (stub : Stub) : Prop :=
  ∀ key, stub.State key = Except.ok none ∨
    ∃ id e, key = proposalPrefix ++ id ∧ stub.State key = Except.ok (some (marshalEntry e)) ∧
      e.Proposal.ProposalID = id ∧ id ≠ "" ∧ e.Proposal.Handler ≠ "" ∧
      (e.Status = PendingStatus ∨ e.Status = ConfirmStatus) ∧
      e.HashAlgorithm ∈ validHashingAlgorithms

/-- An entry for `prop1234` whose recorded algorithm is none of the three. -/
def md5Entry : proposalEntry := { pendingEntry with HashAlgorithm := "MD5" }

/-- A store that holds `md5Entry` and nothing else. -/
def md5Stub : Stub :=
  { emptyStub with
    State := fun k =>
      if k = "_proposal_prop1234" then Except.ok (some (marshalEntry md5Entry))
      else Except.ok none }

/-- A store whose event transport reports an error for every event. -/
def muteStub (stub : Stub) : Stub := { stub with eventErr := fun _ _ => some "event refused" }

/-- A store on which every read is answered by an error. -/
def unreadableStub (stub : Stub) : Stub :=
  { stub with State := fun _ => Except.error "read refused" }

/-- A store whose value for `prop1234` is not the encoding of anything. -/
def garbledStub : Stub :=
  { emptyStub with
    State := fun k =>
      if k = "_proposal_prop1234" then Except.ok (some "PENDING") else Except.ok none }

/-- A create of the proposal of the tests followed by its confirmation with the pre-image of
the tests, as invocations. -/
def testCalls : List (String × List String) :=
  [("createProposal", [testProposal, pendingEntry.Hash, "SHA256"]),
    ("confirmProposal", ["prop1234", "test_hash"])]

/-! ## What `json.Marshal` writes as it is -/

/-- A string that needs no escaping in a JSON string literal: by the grammar of JSON the
characters that must be escaped are the quote, the backslash and the control characters below
U+0020. -/
def NeedsNoEscape (s : String) : Prop := ∀ c ∈ s.data, c ≠ '"' ∧ c ≠ '\\' ∧ 32 ≤ c.toNat

/-- The characters that `json.Marshal` escapes although JSON does not require it: `<`, `>`,
`&`, U+2028 and U+2029. -/
def EscapedBeyondNeed (c : Char) : Prop :=
  c = '<' ∨ c = '>' ∨ c = '&' ∨ c.toNat = 0x2028 ∨ c.toNat = 0x2029

/-- A string that `json.Marshal` writes between the quotes as it is: it needs no escaping and
has none of the characters that are escaped beyond need. -/
def WrittenAsIs (s : String) : Prop := NeedsNoEscape s ∧ ∀ c ∈ s.data, ¬ EscapedBeyondNeed c

instance (s : String) : Decidable (NeedsNoEscape s) :=
  inferInstanceAs (Decidable (∀ c ∈ s.data, c ≠ '"' ∧ c ≠ '\\' ∧ 32 ≤ c.toNat))

instance (c : Char) : Decidable (EscapedBeyondNeed c) :=
  inferInstanceAs (Decidable (c = '<' ∨ c = '>' ∨ c = '&' ∨ c.toNat = 0x2028 ∨ c.toNat = 0x2029))

instance (s : String) : Decidable (WrittenAsIs s) :=
  inferInstanceAs (Decidable (NeedsNoEscape s ∧ ∀ c ∈ s.data, ¬ EscapedBeyondNeed c))

/-- A proposal payload whose handler has the character `&`. -/
def testProposalAmp : String := "\x7b\"proposalId\": \"prop1234\",\"proposalHandler\": \"B&b\"\x7d"

/-! ## Go strings as bytes

A Go string is a sequence of bytes, and the arguments of an invocation are Go strings: they
need not be the UTF-8 of any text. The definitions above take the strings of the contract as
text; the ones below take them as bytes, each byte a number below 256, and follow what
`encoding/json` does to a byte that is part of no valid encoding. -/

/-- The bytes of one rune in UTF-8, as Go holds it in a string. -/
def encodeRune (c : Char) : List Nat :=
  if c.toNat < 0x80 then [c.toNat]
  else if c.toNat < 0x800 then [0xC0 + c.toNat / 0x40, 0x80 + c.toNat % 0x40]
  else if c.toNat < 0x10000 then
    [0xE0 + c.toNat / 0x1000, 0x80 + c.toNat / 0x40 % 0x40, 0x80 + c.toNat % 0x40]
  else
    [0xF0 + c.toNat / 0x40000, 0x80 + c.toNat / 0x1000 % 0x40, 0x80 + c.toNat / 0x40 % 0x40,
      0x80 + c.toNat % 0x40]

/-- The bytes of a text: the Go string that holds it. -/
def utf8 (s : String) : List Nat := s.data.flatMap encodeRune

/-- The size that the first byte of an encoding announces. -/
def runeSize (s0 : Nat) : Nat := if s0 < 0xE0 then 2 else if s0 < 0xF0 then 3 else 4

/-- The least second byte that `utf8.acceptRanges` accepts after a first byte. -/
def acceptLo (s0 : Nat) : Nat := if s0 = 0xE0 then 0xA0 else if s0 = 0xF0 then 0x90 else 0x80

/-- The greatest second byte that `utf8.acceptRanges` accepts after a first byte. -/
def acceptHi (s0 : Nat) : Nat := if s0 = 0xED then 0x9F else if s0 = 0xF4 then 0x8F else 0xBF

/-- The function `utf8.DecodeRuneInString`: the first rune of a byte string and its width.
The rune `none` of width 1 is `RuneError` of width 1, a byte that starts no valid encoding. -/
def decodeRune : List Nat → Option Char × Nat
  | [] => (none, 0)
  | s0 :: rest =>
    if s0 < 0x80 then (some (Char.ofNat s0), 1)
    else if s0 < 0xC2 ∨ 0xF4 < s0 then (none, 1)
    else if rest.length + 1 < runeSize s0 then (none, 1)
    else
      match rest with
      | [] => (none, 1)
      | s1 :: r1 =>
        if s1 < acceptLo s0 ∨ acceptHi s0 < s1 then (none, 1)
        else if runeSize s0 ≤ 2 then (some (Char.ofNat (s0 % 0x20 * 0x40 + s1 % 0x40)), 2)
        else
          match r1 with
          | [] => (none, 1)
          | s2 :: r2 =>
            if s2 < 0x80 ∨ 0xBF < s2 then (none, 1)
            else if runeSize s0 ≤ 3 then
              (some (Char.ofNat (s0 % 0x10 * 0x1000 + s1 % 0x40 * 0x40 + s2 % 0x40)), 3)
            else
              match r2 with
              | [] => (none, 1)
              | s3 :: _ =>
                if s3 < 0x80 ∨ 0xBF < s3 then (none, 1)
                else
                  (some (Char.ofNat
                    (s0 % 0x08 * 0x40000 + s1 % 0x40 * 0x1000 + s2 % 0x40 * 0x40 + s3 % 0x40)), 4)

/-- The runes of a byte string as a loop over `utf8.DecodeRuneInString` reads them, `none` for
each byte that starts no valid encoding; the fuel bounds the number of runes. -/
def runesAux : Nat → List Nat → List (Option Char)
  | 0, _ => []
  | _ + 1, [] => []
  | fuel + 1, s0 :: rest =>
    (decodeRune (s0 :: rest)).1 :: runesAux fuel ((s0 :: rest).drop (decodeRune (s0 :: rest)).2)

/-- The runes of a byte string. -/
def runes (s : List Nat) : List (Option Char) := runesAux s.length s

/-- The text that a byte string is read as, rune by rune, with U+FFFD for each byte that starts
no valid encoding: the conversion `string([]rune(s))`, which is how `json.Unmarshal` reads the
bytes of a string literal and how `strings.Map` reads its argument. -/
def coerceUTF8 (s : List Nat) : String :=
  String.mk ((runes s).map (fun r => r.getD replacementChar))

/-- One rune of a Go string as `json.Marshal` writes it: a rune as `escapeRune` has it, a byte
that starts no valid encoding as the six characters `\ufffd`. -/
def escapeItem : Option Char → List Char
  | some c => escapeRune c
  | none => ['\\', 'u', 'f', 'f', 'f', 'd']

/-- A Go string as a JSON string literal. -/
def quoteBytes (s : List Nat) : List Char := '"' :: ((runes s).flatMap escapeItem ++ ['"'])


/-! ### hash-timelock-constants.go, on bytes -/

/-- The record `abstractProposal` with its strings as bytes. -/
structure abstractProposalBytes where
  /-- JSON name `proposalId`. -/
  ProposalID : List Nat
  /-- JSON name `proposalHandler`. -/
  Handler : List Nat
deriving DecidableEq, Repr

/-- The record `proposalEntry` with its strings as bytes. -/
structure proposalEntryBytes where
  /-- JSON name `proposal`. -/
  Proposal : abstractProposalBytes
  /-- JSON name `status`. -/
  Status : List Nat
  /-- JSON name `hash`. -/
  Hash : List Nat
  /-- JSON name `hashAlgorithm`. -/
  HashAlgorithm : List Nat
deriving DecidableEq, Repr

/-- The record `ProposalCreatedEventObject` with its string as bytes. -/
structure ProposalCreatedEventObjectBytes where
  /-- JSON name `proposalId`. -/
  ProposalID : List Nat
deriving DecidableEq, Repr

/-- Prefix for keys. -/
def proposalPrefixBytes : List Nat := utf8 proposalPrefix

/-- Status of a proposal that waits for its pre-image. -/
def PendingStatusBytes : List Nat := utf8 PendingStatus

/-- The algorithms a proposal may name. -/
def validHashingAlgorithmsBytes : List (List Nat) := validHashingAlgorithms.map utf8

/-- Suffix of the name of the event for the handler of a new proposal. -/
def ProposalCreatedHandlerEventBytes : List Nat := utf8 ProposalCreatedHandlerEvent

/-- Name of the event for the timeout client. -/
def ProposalCreateTimeoutEventBytes : List Nat := utf8 ProposalCreateTimeoutEvent

/-- A decoded `abstractProposal` as Go holds it. -/
def ofProposal (p : abstractProposal) : abstractProposalBytes :=
  { ProposalID := utf8 p.ProposalID, Handler := utf8 p.Handler }

/-- A decoded `proposalEntry` as Go holds it. -/
def ofEntry (e : proposalEntry) : proposalEntryBytes :=
  { Proposal := ofProposal e.Proposal, Status := utf8 e.Status, Hash := utf8 e.Hash,
    HashAlgorithm := utf8 e.HashAlgorithm }

/-- The call `json.Unmarshal(data, &p)` on a zero `abstractProposal`: the decoder reads the
bytes as `coerceUTF8` has them, so a byte outside every valid encoding is an error outside a
string literal and U+FFFD inside one. -/
def unmarshalProposalBytes (data : List Nat) : Except String abstractProposalBytes :=
  match unmarshalProposal (coerceUTF8 data) with
  | Except.error err => Except.error err
  | Except.ok p => Except.ok (ofProposal p)

/-- The call `json.Unmarshal(data, &e)` on a zero `proposalEntry`. -/
def unmarshalEntryBytes (data : List Nat) : Except String proposalEntryBytes :=
  match unmarshalEntry (coerceUTF8 data) with
  | Except.error err => Except.error err
  | Except.ok e => Except.ok (ofEntry e)

/-- The characters of `json.Marshal` of an `abstractProposal`. -/
def marshalProposalCharsBytes (p : abstractProposalBytes) : List Char :=
  ['{'] ++ quote "proposalId" ++ [':'] ++ quoteBytes p.ProposalID ++ [',']
    ++ quote "proposalHandler" ++ [':'] ++ quoteBytes p.Handler ++ ['}']

/-- The characters of `json.Marshal` of a `proposalEntry`. -/
def marshalEntryCharsBytes (e : proposalEntryBytes) : List Char :=
  ['{'] ++ quote "proposal" ++ [':'] ++ marshalProposalCharsBytes e.Proposal ++ [',']
    ++ quote "status" ++ [':'] ++ quoteBytes e.Status ++ [',']
    ++ quote "hash" ++ [':'] ++ quoteBytes e.Hash ++ [',']
    ++ quote "hashAlgorithm" ++ [':'] ++ quoteBytes e.HashAlgorithm ++ ['}']

/-- The call `json.Marshal(e)` for a `proposalEntry`: the bytes of the text written. -/
def marshalEntryBytes (e : proposalEntryBytes) : List Nat :=
  utf8 (String.mk (marshalEntryCharsBytes e))

/-- The call `json.Marshal(ev)` for a `ProposalCreatedEventObject`. -/
def marshalCreatedEventBytes (ev : ProposalCreatedEventObjectBytes) : List Nat :=
  utf8 (String.mk (['{'] ++ quote "proposalId" ++ [':'] ++ quoteBytes ev.ProposalID ++ ['}']))

/-- A chaincode event: what `SetEvent` is handed. -/
structure ChaincodeEventBytes where
  /-- The name of the event. -/
  EventName : List Nat
  /-- The bytes of the payload. -/
  Payload : List Nat
deriving DecidableEq, Repr

/-- What the contract sees of `shim.ChaincodeStubInterface`, keys and values as bytes. -/
structure ByteStub where
  /-- What a read of a key answers: an error, no value (`nil`), or the bytes stored. -/
  State : List Nat → Except String (Option (List Nat))
  /-- The events handed to `SetEvent`, oldest first. -/
  Events : List ChaincodeEventBytes
  /-- The error, if any, with which the store refuses to write a value under a key. -/
  putErr : List Nat → List Nat → Option String
  /-- The error, if any, that the event transport reports for an event. -/
  eventErr : List Nat → List Nat → Option String

/-- The call `stub.GetState(key)`. -/
def ByteStub.GetState (stub : ByteStub) (key : List Nat) : Except String (Option (List Nat)) :=
  stub.State key

/-- The call `stub.PutState(key, value)`: a refused write changes nothing, an accepted one is
what later reads of the key answer. -/
def ByteStub.PutState (stub : ByteStub) (key value : List Nat) : Except String ByteStub :=
  match stub.putErr key value with
  | some err => Except.error err
  | none =>
    Except.ok
      { stub with State := fun k => if k = key then Except.ok (some value) else stub.State k }

/-- The call `stub.SetEvent(name, payload)`: the event is handed over, and the transport may
report an error for it. -/
def ByteStub.SetEvent (stub : ByteStub) (name payload : List Nat) : ByteStub × Option String :=
  ({ stub with Events := stub.Events ++ [{ EventName := name, Payload := payload }] },
    stub.eventErr name payload)

/-- The loop of `createProposal` over `validHashingAlgorithms`. -/
def validAlgBytes (alg : List Nat) : Bool :=
  validHashingAlgorithmsBytes.foldl (fun found a => if a = alg then true else found) false

/-- The function `createProposal` on arguments that are bytes. -/
def createProposalBytes (stub : ByteStub) (args : List (List Nat)) : ByteStub × Response :=
  match args with
  | [a0, a1, a2] =>
    if validAlgBytes a2 = false then
      (stub, Error ("Only these hashing algorithms are supported: "
        ++ String.intercalate ", " validHashingAlgorithms))
    else
      match unmarshalProposalBytes a0 with
      | Except.error err => (stub, Error ("Error parsing provided proposal definition - " ++ err))
      | Except.ok parsed =>
        let proposal : proposalEntryBytes :=
          { Proposal := parsed, Status := PendingStatusBytes, Hash := a1, HashAlgorithm := a2 }
        if proposal.Proposal.ProposalID = [] then
          (stub, Error "No proposalId provided as part of proposal.")
        else if proposal.Proposal.Handler = [] then
          (stub, Error "No proposalHandler provided as part of proposal.")
        else
          match stub.PutState (proposalPrefixBytes ++ proposal.Proposal.ProposalID)
              (marshalEntryBytes proposal) with
          | Except.error err => (stub, Error ("Error writing proposal to state - " ++ err))
          | Except.ok stub1 =>
            let proposalEventAsBytes :=
              marshalCreatedEventBytes { ProposalID := proposal.Proposal.ProposalID }
            let stub2 :=
              (stub1.SetEvent (proposal.Proposal.Handler ++ ProposalCreatedHandlerEventBytes)
                proposalEventAsBytes).1
            let stub3 := (stub2.SetEvent ProposalCreateTimeoutEventBytes proposalEventAsBytes).1
            (stub3, Success none)
  | _ => (stub, Error "Invalid arguments to createProposal, expected proposal, hash, hashingAlg.")

/-- The entry a store holds under a key: a read of the key answers bytes, and the bytes decode
to the entry. -/
def ByteStub.entryAt (stub : ByteStub) (key : List Nat) : Option proposalEntryBytes :=
  match stub.GetState key with
  | Except.ok (some bytes) =>
    match unmarshalEntryBytes bytes with
    | Except.ok e => some e
    | Except.error _ => none
  | _ => none

/-- A store that accepts writes: no write is refused. -/
def ByteStub.AcceptsWrites (stub : ByteStub) : Prop := ∀ key value, stub.putErr key value = none

/-- A store with no key and no event, on which every call is accepted. -/
def emptyByteStub : ByteStub :=
  { State := fun _ => Except.ok none
    Events := []
    putErr := fun _ _ => none
    eventErr := fun _ _ => none }

/-- A store on which every write is refused. -/
def readOnlyByteStub (stub : ByteStub) : ByteStub :=
  { stub with putErr := fun _ _ => some "write refused" }

/-- A store that holds one value and nothing else. -/
def singleByteStub (key value : List Nat) : ByteStub :=
  { emptyByteStub with
    State := fun k => if k = key then Except.ok (some value) else Except.ok none }

/-- The one byte `0xff`, which is part of no UTF-8 encoding. -/
def strayByte : List Nat := [0xff]

/-- The key of `prop1234`. -/
def prop1234Key : List Nat := proposalPrefixBytes ++ utf8 "prop1234"

/-- A store that holds `pendingEntry` under the key of `prop1234` and nothing else. -/
def pendingByteStub : ByteStub :=
  singleByteStub prop1234Key (marshalEntryBytes (ofEntry pendingEntry))

/-- A store that holds `confirmedEntry` under the key of `prop1234` and nothing else. -/
def confirmedByteStub : ByteStub :=
  singleByteStub prop1234Key (marshalEntryBytes (ofEntry confirmedEntry))

/-- The three bytes of U+FFFD in UTF-8. -/
def replacementBytes : List Nat := [0xef, 0xbf, 0xbd]

/-! ## Reading back what `json.Marshal` wrote -/

theorem hexVal_hexDigit (k : Nat) (h : k < 16) : hexVal (hexDigit k) = some k := by
  interval_cases k <;> decide

theorem hexVal_zero : hexVal '0' = some 0 := by decide
theorem hexVal_two : hexVal '2' = some 2 := by decide

theorem scanString_escapeRune (c : Char) (tail : List Char) :
    scanString (escapeRune c ++ tail) =
      match scanString tail with
      | some (items, out) => some (itemOf c :: items, out)
      | none => none := by
  unfold escapeRune itemOf
  split_ifs with h1 h2 h3 h4 h5 h6
  · rcases h1 with rfl | rfl <;> (conv_lhs => unfold scanString) <;> simp [simpleEscape]
  · subst h2; conv_lhs => unfold scanString
    simp [simpleEscape]
  · subst h3; conv_lhs => unfold scanString
    simp [simpleEscape]
  · subst h4; conv_lhs => unfold scanString
    simp [simpleEscape]
  · have hlt : c.toNat < 256 := by
      rcases h5 with h | rfl | rfl | rfl
      · omega
      all_goals decide
    have e1 := hexVal_hexDigit (c.toNat / 16) (by omega)
    have e2 := hexVal_hexDigit (c.toNat % 16) (by omega)
    conv_lhs => unfold scanString
    simp [simpleEscape, e1, e2, hexVal_zero]
    have hn : c.toNat / 16 * 16 + c.toNat % 16 = c.toNat := by omega
    rw [hn]
  · have e2 := hexVal_hexDigit (c.toNat % 16) (by omega)
    conv_lhs => unfold scanString
    simp [simpleEscape, e2, hexVal_zero, hexVal_two]
    have hn : 8224 + c.toNat % 16 = c.toNat := by omega
    rw [hn]
  · push_neg at h1 h5 h6
    conv_lhs => unfold scanString
    simp [h1.1, h1.2, h5.1]


theorem scanString_flatMap (cs tail : List Char) :
    scanString (cs.flatMap escapeRune ++ ('"' :: tail)) = some (cs.map itemOf, tail) := by
  induction cs with
  | nil => conv_lhs => unfold scanString
           simp
  | cons c cs ih =>
    rw [List.flatMap_cons, List.append_assoc, scanString_escapeRune, ih]
    simp

theorem itemOf_unit (c : Char) (n : Nat) (h : itemOf c = StrItem.unit n) :
    n = c.toNat ∧ ¬ (0xD800 ≤ n ∧ n < 0xE000) := by
  unfold itemOf at h
  split_ifs at h with h1 h2 h3 h4 h5 h6
  · injection h with h
    subst h
    refine ⟨rfl, ?_⟩
    rcases h5 with h | rfl | rfl | rfl
    · omega
    all_goals decide
  · injection h with h
    subst h
    exact ⟨rfl, by omega⟩

theorem itemOf_lit (c d : Char) (h : itemOf c = StrItem.lit d) : d = c := by
  unfold itemOf at h
  split_ifs at h <;> injection h with h <;> exact h.symm

theorem decodeItems_unit (n : Nat) (rest : List StrItem) (h : ¬ (0xD800 ≤ n ∧ n < 0xE000)) :
    decodeItems (StrItem.unit n :: rest) = Char.ofNat n :: decodeItems rest := by
  match rest with
  | [] => simp [decodeItems, h]
  | StrItem.lit c :: rest => simp [decodeItems, h]
  | StrItem.unit lo :: rest => simp [decodeItems, h]

theorem decodeItems_map (cs : List Char) : decodeItems (cs.map itemOf) = cs := by
  induction cs with
  | nil => simp [decodeItems]
  | cons c cs ih =>
    rw [List.map_cons]
    cases hc : itemOf c with
    | lit d =>
      have := itemOf_lit c d hc
      subst this
      simp [decodeItems, ih]
    | unit n =>
      obtain ⟨hn, hs⟩ := itemOf_unit c n hc
      rw [decodeItems_unit n _ hs, ih, hn, Char.ofNat_toNat]

theorem unquote_flatMap (cs tail : List Char) :
    unquote (cs.flatMap escapeRune ++ ('"' :: tail)) = some (cs, tail) := by
  simp [unquote, scanString_flatMap, decodeItems_map]

theorem parseValue_quote (fuel : Nat) (s : String) (tail : List Char) :
    parseValue (fuel + 1) (quote s ++ tail) = some (JValue.str s.data, tail) := by
  simp [quote, parseValue, unquote_flatMap]


theorem skipWs_quote (s : String) (tail : List Char) : skipWs (quote s ++ tail) = quote s ++ tail := by
  simp [quote, skipWs, isSpace]

theorem parseMembers_key (fuel : Nat) (k : String) (rest : List Char) :
    parseMembers (fuel + 1) (quote k ++ (':' :: rest)) =
      match parseValue fuel (skipWs rest) with
      | none => none
      | some (v, afterValue) =>
        match skipWs afterValue with
        | [] => none
        | sep :: afterSep =>
          if sep = ',' then
            match parseMembers fuel (skipWs afterSep) with
            | some (ms, out) => some ((k.data, v) :: ms, out)
            | none => none
          else if sep = '}' then some ([(k.data, v)], afterSep)
          else none := by
  conv_lhs => simp only [quote, List.cons_append]
  conv_lhs => unfold parseMembers
  simp only [List.append_assoc, unquote_flatMap, List.singleton_append, skipWs, isSpace]
  simp

theorem parseValue_object (fuel : Nat) (k : String) (rest : List Char) :
    parseValue (fuel + 1) ('{' :: (quote k ++ rest)) =
      match parseMembers fuel (quote k ++ rest) with
      | some (ms, out) => some (JValue.obj ms, out)
      | none => none := by
  conv_lhs => unfold parseValue
  simp [skipWs_quote]
  simp [quote]

theorem skipWs_brace (rest : List Char) : skipWs ('{' :: rest) = '{' :: rest := by
  simp [skipWs, isSpace]

theorem skipWs_close (rest : List Char) : skipWs ('}' :: rest) = '}' :: rest := by
  simp [skipWs, isSpace]

theorem skipWs_comma (rest : List Char) : skipWs (',' :: rest) = ',' :: rest := by
  simp [skipWs, isSpace]

theorem parseValue_marshalProposal (fuel : Nat) (p : abstractProposal) (tail : List Char) :
    parseValue (fuel + 4) (marshalProposalChars p ++ tail) =
      some (JValue.obj [("proposalId".data, JValue.str p.ProposalID.data),
        ("proposalHandler".data, JValue.str p.Handler.data)], tail) := by
  simp only [marshalProposalChars, List.append_assoc, List.singleton_append, List.cons_append,
    List.nil_append]
  rw [parseValue_object, parseMembers_key, skipWs_quote, parseValue_quote]
  simp only [skipWs_comma]
  simp only [skipWs_quote, parseMembers_key, parseValue_quote, skipWs_close]
  simp

theorem parseValue_marshalEntry (fuel : Nat) (e : proposalEntry) (tail : List Char) :
    parseValue (fuel + 6) (marshalEntryChars e ++ tail) =
      some (JValue.obj [("proposal".data, JValue.obj [("proposalId".data, JValue.str e.Proposal.ProposalID.data),
        ("proposalHandler".data, JValue.str e.Proposal.Handler.data)]),
        ("status".data, JValue.str e.Status.data), ("hash".data, JValue.str e.Hash.data),
        ("hashAlgorithm".data, JValue.str e.HashAlgorithm.data)], tail) := by
  simp only [marshalEntryChars, List.append_assoc, List.singleton_append, List.cons_append,
    List.nil_append]
  rw [parseValue_object, parseMembers_key]
  have hp := parseValue_marshalProposal fuel e.Proposal
  simp only [marshalProposalChars, List.append_assoc, List.singleton_append, List.cons_append,
    List.nil_append] at hp
  simp only [marshalProposalChars, List.append_assoc, List.singleton_append, List.cons_append,
    List.nil_append, skipWs_brace, hp, skipWs_comma]
  simp only [skipWs_quote, parseMembers_key, parseValue_quote, skipWs_close, skipWs_comma]
  simp


theorem length_marshalEntryChars (e : proposalEntry) : 5 ≤ (marshalEntryChars e).length := by
  simp only [marshalEntryChars, List.length_append, List.length_singleton]
  omega

theorem skipWs_marshalEntryChars (e : proposalEntry) :
    skipWs (marshalEntryChars e) = marshalEntryChars e := by
  simp only [marshalEntryChars, List.append_assoc, List.singleton_append, List.cons_append,
    skipWs_brace]

theorem parseJSON_marshalEntry (e : proposalEntry) :
    parseJSON (marshalEntryChars e) =
      some (JValue.obj [("proposal".data, JValue.obj [("proposalId".data, JValue.str e.Proposal.ProposalID.data),
        ("proposalHandler".data, JValue.str e.Proposal.Handler.data)]),
        ("status".data, JValue.str e.Status.data), ("hash".data, JValue.str e.Hash.data),
        ("hashAlgorithm".data, JValue.str e.HashAlgorithm.data)]) := by
  have hlen := length_marshalEntryChars e
  obtain ⟨m, hm⟩ : ∃ m, (marshalEntryChars e).length + 1 = m + 6 :=
    ⟨(marshalEntryChars e).length - 5, by omega⟩
  have hp := parseValue_marshalEntry m e []
  rw [List.append_nil] at hp
  unfold parseJSON
  rw [skipWs_marshalEntryChars, hm, hp]
  rfl

theorem unmarshalEntry_marshalEntry (e : proposalEntry) :
    unmarshalEntry (marshalEntry e) = Except.ok e := by
  have h1 : fieldMatches "proposal" "proposal".data = true := by decide
  have h2 : fieldMatches "proposal" "status".data = false := by decide
  have h3 : fieldMatches "status" "status".data = true := by decide
  have h4 : fieldMatches "proposal" "hash".data = false := by decide
  have h5 : fieldMatches "status" "hash".data = false := by decide
  have h6 : fieldMatches "hash" "hash".data = true := by decide
  have h7 : fieldMatches "proposal" "hashAlgorithm".data = false := by decide
  have h8 : fieldMatches "status" "hashAlgorithm".data = false := by decide
  have h9 : fieldMatches "hash" "hashAlgorithm".data = false := by decide
  have h10 : fieldMatches "hashAlgorithm" "hashAlgorithm".data = true := by decide
  have h11 : fieldMatches "proposalId" "proposalId".data = true := by decide
  have h12 : fieldMatches "proposalId" "proposalHandler".data = false := by decide
  have h13 : fieldMatches "proposalHandler" "proposalHandler".data = true := by decide
  simp only [unmarshalEntry, marshalEntry, parseJSON_marshalEntry, decodeEntry, decodeEntryMembers,
    decodeProposal, decodeProposalMembers, setString, h1, h2, h3, h4, h5, h6, h7, h8, h9, h10, h11,
    h12, h13]
  simp

/-! ## Facts about the hexadecimal encoding and the algorithm switch -/

theorem validAlg_iff (alg : String) :
    validAlg alg = true ↔ alg = "SHA256" ∨ alg = "SHA384" ∨ alg = "SHA512" := by
  simp only [validAlg, validHashingAlgorithms, List.foldl]
  by_cases h1 : "SHA256" = alg
  · subst h1; simp
  · by_cases h2 : "SHA384" = alg
    · subst h2; simp
    · by_cases h3 : "SHA512" = alg
      · subst h3; simp
      · simp [h1, h2, h3, Ne.symm h1, Ne.symm h2, Ne.symm h3, eq_comm]

theorem mem_valid_iff (alg : String) :
    alg ∈ validHashingAlgorithms ↔ alg = "SHA256" ∨ alg = "SHA384" ∨ alg = "SHA512" := by
  simp [validHashingAlgorithms]

theorem hasherSum_valid (rt : Runtime) (alg preImage : String)
    (h : alg ∈ validHashingAlgorithms) :
    hasherSum rt alg preImage = some (digestOf rt alg preImage) := by
  rcases (mem_valid_iff alg).1 h with rfl | rfl | rfl <;> simp [hasherSum, digestOf]

theorem hasherSum_invalid (rt : Runtime) (alg preImage : String)
    (h : alg ∉ validHashingAlgorithms) : hasherSum rt alg preImage = none := by
  have h' := mt (mem_valid_iff alg).2 h
  push_neg at h'
  simp [hasherSum, h'.1, h'.2.1, h'.2.2]

/-! ## How the three operations run -/

theorem entryAt_eq_some (stub : Stub) (key : String) (e : proposalEntry) :
    stub.entryAt key = some e ↔
      ∃ bytes, stub.State key = Except.ok (some bytes) ∧ unmarshalEntry bytes = Except.ok e := by
  unfold Stub.entryAt Stub.GetState
  constructor
  · intro h
    split at h
    · rename_i bytes hb
      split at h
      · rename_i e1 he
        injection h with h
        subst h
        exact ⟨bytes, hb, he⟩
      · cases h
    · cases h
  · rintro ⟨bytes, hb, he⟩
    simp [hb, he]

theorem confirmProposal_of_entry (rt : Runtime) (stub : Stub) (id p bytes : String)
    (e : proposalEntry) (hb : stub.State (proposalPrefix ++ id) = Except.ok (some bytes))
    (he : unmarshalEntry bytes = Except.ok e) (halg : e.HashAlgorithm ∈ validHashingAlgorithms) :
    confirmProposal rt stub [id, p] =
      if EncodeToString (digestOf rt e.HashAlgorithm p) ≠ ToLower rt e.Hash then
        (stub, Error "Invalid Pre-image supplied.")
      else
        (((afterConfirmWrite stub (proposalPrefix ++ id) e).SetEvent ProposalConfirmedHandlerEvent
            (marshalConfirmedEvent { ProposalID := id, PreImage := p })).1, Success none) := by
  simp only [confirmProposal, Stub.GetState, hb, he, hasherSum_valid rt _ p halg, afterConfirmWrite]

theorem Success_ne_Error (payload : Option String) (msg : String) : Success payload ≠ Error msg := by
  intro h
  have := congrArg Response.Status h
  simp [Success, Error] at this

theorem asciiLower_hex (c : Char) (k : Nat) (hk : k < 16) (h : asciiLower c = hexDigit k) :
    c.toNat < 128 := by
  unfold asciiLower at h
  split_ifs at h with hc
  · omega
  · subst h
    interval_cases k <;> decide

theorem mem_flatMap_encodeByte (src : List Nat) (x : Char) (h : x ∈ src.flatMap encodeByte) :
    ∃ k, k < 16 ∧ x = hexDigit k := by
  simp only [List.mem_flatMap, encodeByte, List.mem_cons, List.mem_singleton, List.not_mem_nil,
    or_false] at h
  obtain ⟨v, _, hx | hx⟩ := h
  · exact ⟨v % 256 / 16, by omega, hx⟩
  · exact ⟨v % 16, by omega, hx⟩

theorem ToLower_of_asciiLower (rt : Runtime) (s : String) (src : List Nat)
    (h : s.data.map asciiLower = (EncodeToString src).data) :
    ToLower rt s = EncodeToString src := by
  have hascii : ∀ c ∈ s.data, toLowerRune rt c = asciiLower c := by
    intro c hc
    have hm : asciiLower c ∈ s.data.map asciiLower := List.mem_map_of_mem _ hc
    rw [h] at hm
    obtain ⟨k, hk, hx⟩ := mem_flatMap_encodeByte src _ hm
    have := asciiLower_hex c k hk hx
    simp [toLowerRune, this]
  have hmap : s.data.map (toLowerRune rt) = s.data.map asciiLower :=
    List.map_congr_left hascii
  unfold ToLower
  rw [hmap, h]

/-! ## The claims -/

/-- C1. When the store holds an entry for `id` whose recorded algorithm is one of `SHA256`,
`SHA384`, `SHA512`, `confirmProposal [id, p]` succeeds exactly when the lower-case hexadecimal
encoding of the digest of `p` under that algorithm equals the lower-cased stored hash, and in
the other case it returns the error `Invalid Pre-image supplied.`; a stored hash that differs
from the encoding only in the case of its letters is accepted, and `p` is hashed as supplied. -/
theorem confirmProposal_accepts_iff (rt : Runtime) (stub : Stub) (id p : String)
    (e : proposalEntry) (hentry : stub.entryAt (proposalPrefix ++ id) = some e)
    (halg : e.HashAlgorithm ∈ validHashingAlgorithms) :
    ((confirmProposal rt stub [id, p]).2 = Success none ↔
        EncodeToString (digestOf rt e.HashAlgorithm p) = ToLower rt e.Hash) ∧
      (EncodeToString (digestOf rt e.HashAlgorithm p) ≠ ToLower rt e.Hash →
        (confirmProposal rt stub [id, p]).2 = Error "Invalid Pre-image supplied.") ∧
      (e.Hash.data.map asciiLower = (EncodeToString (digestOf rt e.HashAlgorithm p)).data →
        (confirmProposal rt stub [id, p]).2 = Success none) := by
  obtain ⟨bytes, hb, he⟩ := (entryAt_eq_some stub _ e).1 hentry
  rw [confirmProposal_of_entry rt stub id p bytes e hb he halg]
  refine ⟨?_, ?_, ?_⟩
  · by_cases h : EncodeToString (digestOf rt e.HashAlgorithm p) = ToLower rt e.Hash
    · simp [h]
    · simp [h, (Success_ne_Error none _).symm]
  · intro h
    simp [h]
  · intro h
    simp [ToLower_of_asciiLower rt e.Hash _ h]

theorem isError_Error (msg : String) : (Error msg).isError := rfl

theorem not_isError_Success (payload : Option String) : ¬ (Success payload).isError := by
  simp [Response.isError, Success]

theorem createProposal_of_parsed (stub : Stub) (a0 a1 a2 : String) (parsed : abstractProposal)
    (hparse : unmarshalProposal a0 = Except.ok parsed) (hid : parsed.ProposalID ≠ "")
    (hh : parsed.Handler ≠ "") (halg : a2 ∈ validHashingAlgorithms) :
    createProposal stub [a0, a1, a2] =
      match stub.PutState (proposalPrefix ++ parsed.ProposalID)
          (marshalEntry
            { Proposal := parsed, Status := PendingStatus, Hash := a1, HashAlgorithm := a2 }) with
      | Except.error err => (stub, Error ("Error writing proposal to state - " ++ err))
      | Except.ok stub1 =>
        (((stub1.SetEvent (parsed.Handler ++ ProposalCreatedHandlerEvent)
            (marshalCreatedEvent { ProposalID := parsed.ProposalID })).1.SetEvent
              ProposalCreateTimeoutEvent
              (marshalCreatedEvent { ProposalID := parsed.ProposalID })).1, Success none) := by
  have hv : validAlg a2 = true := (validAlg_iff a2).2 ((mem_valid_iff a2).1 halg)
  simp only [createProposal, hv, hparse, hid, hh]
  simp

theorem PutState_accepts (stub : Stub) (key value : String) (hw : stub.AcceptsWrites) :
    stub.PutState key value =
      Except.ok { stub with
        State := fun k => if k = key then Except.ok (some value) else stub.State k } := by
  simp [Stub.PutState, hw key value]

/-- Every run of `createProposal` either fails and returns the stub it was given, or it is a
three-argument call with a recognised algorithm and a parsed proposal with both fields, whose
write was accepted, and it hands over the two events and succeeds. -/
theorem createProposal_cases (stub : Stub) (args : List String) :
    ((createProposal stub args).1 = stub ∧ (createProposal stub args).2.isError) ∨
      ∃ a0 a1 a2 parsed stub1, args = [a0, a1, a2] ∧ validAlg a2 = true ∧
        unmarshalProposal a0 = Except.ok parsed ∧ parsed.ProposalID ≠ "" ∧
        parsed.Handler ≠ "" ∧
        stub.PutState (proposalPrefix ++ parsed.ProposalID)
          (marshalEntry
            { Proposal := parsed, Status := PendingStatus, Hash := a1, HashAlgorithm := a2 })
          = Except.ok stub1 ∧
        createProposal stub args =
          (((stub1.SetEvent (parsed.Handler ++ ProposalCreatedHandlerEvent)
              (marshalCreatedEvent { ProposalID := parsed.ProposalID })).1.SetEvent
                ProposalCreateTimeoutEvent
                (marshalCreatedEvent { ProposalID := parsed.ProposalID })).1, Success none) := by
  rcases args with _ | ⟨a0, _ | ⟨a1, _ | ⟨a2, _ | ⟨a3, rest⟩⟩⟩⟩
  · left; exact ⟨rfl, rfl⟩
  · left; exact ⟨rfl, rfl⟩
  · left; exact ⟨rfl, rfl⟩
  · by_cases hv : validAlg a2 = false
    · left; simp [createProposal, hv, isError_Error]
    · cases hp : unmarshalProposal a0 with
      | error err => left; simp [createProposal, hv, hp, isError_Error]
      | ok parsed =>
        by_cases hid : parsed.ProposalID = ""
        · left; simp [createProposal, hv, hp, hid, isError_Error]
        · by_cases hh : parsed.Handler = ""
          · left; simp [createProposal, hv, hp, hid, hh, isError_Error]
          · cases hput : stub.PutState (proposalPrefix ++ parsed.ProposalID)
                (marshalEntry
                  { Proposal := parsed, Status := PendingStatus, Hash := a1,
                    HashAlgorithm := a2 }) with
            | error err => left; simp [createProposal, hv, hp, hid, hh, hput, isError_Error]
            | ok stub1 =>
              right
              refine ⟨a0, a1, a2, parsed, stub1, rfl, by simpa using hv, hp, hid, hh, hput, ?_⟩
              simp [createProposal, hv, hp, hid, hh, hput]
  · left; exact ⟨rfl, rfl⟩

/-- Every run of `confirmProposal` either fails and returns the stub it was given, or it is a
two-argument call on a stored entry with a recognised algorithm whose digest matches, and it
carries on after the write, hands over the event and succeeds. -/
theorem confirmProposal_cases (rt : Runtime) (stub : Stub) (args : List String) :
    ((confirmProposal rt stub args).1 = stub ∧ (confirmProposal rt stub args).2.isError) ∨
      ∃ id p bytes e sum, args = [id, p] ∧
        stub.State (proposalPrefix ++ id) = Except.ok (some bytes) ∧
        unmarshalEntry bytes = Except.ok e ∧ hasherSum rt e.HashAlgorithm p = some sum ∧
        EncodeToString sum = ToLower rt e.Hash ∧
        confirmProposal rt stub args =
          (((afterConfirmWrite stub (proposalPrefix ++ id) e).SetEvent
              ProposalConfirmedHandlerEvent
              (marshalConfirmedEvent { ProposalID := id, PreImage := p })).1, Success none) := by
  rcases args with _ | ⟨id, _ | ⟨p, _ | ⟨a2, rest⟩⟩⟩
  · left; exact ⟨rfl, rfl⟩
  · left; exact ⟨rfl, rfl⟩
  · cases hb : stub.State (proposalPrefix ++ id) with
    | error err => left; simp [confirmProposal, Stub.GetState, hb, isError_Error]
    | ok v =>
      cases v with
      | none => left; simp [confirmProposal, Stub.GetState, hb, isError_Error]
      | some bytes =>
        cases he : unmarshalEntry bytes with
        | error err => left; simp [confirmProposal, Stub.GetState, hb, he, isError_Error]
        | ok e =>
          cases hs : hasherSum rt e.HashAlgorithm p with
          | none => left; simp [confirmProposal, Stub.GetState, hb, he, hs, isError_Error]
          | some sum =>
            by_cases hm : EncodeToString sum = ToLower rt e.Hash
            · right
              refine ⟨id, p, bytes, e, sum, rfl, hb, he, hs, hm, ?_⟩
              simp [confirmProposal, Stub.GetState, hb, he, hs, hm, afterConfirmWrite]
            · left; simp [confirmProposal, Stub.GetState, hb, he, hs, hm, isError_Error]
  · left; exact ⟨rfl, rfl⟩

/-- Every run of `invalidateProposal` either fails and returns the stub it was given, or it is
a one-argument call on a stored `PENDING` entry whose delete was accepted. -/
theorem invalidateProposal_cases (stub : Stub) (args : List String) :
    ((invalidateProposal stub args).1 = stub ∧ (invalidateProposal stub args).2.isError) ∨
      ∃ id bytes e stub1, args = [id] ∧ stub.State (proposalPrefix ++ id) = Except.ok bytes ∧
        unmarshalEntry (bytesOrNil bytes) = Except.ok e ∧ e.Status = PendingStatus ∧
        stub.DelState (proposalPrefix ++ id) = Except.ok stub1 ∧
        invalidateProposal stub args = (stub1, Success none) := by
  rcases args with _ | ⟨id, _ | ⟨a1, rest⟩⟩
  · left; exact ⟨rfl, rfl⟩
  · cases hb : stub.State (proposalPrefix ++ id) with
    | error err => left; simp [invalidateProposal, Stub.GetState, hb, isError_Error]
    | ok bytes =>
      cases he : unmarshalEntry (bytesOrNil bytes) with
      | error err => left; simp [invalidateProposal, Stub.GetState, hb, he, isError_Error]
      | ok e =>
        by_cases hst : e.Status = PendingStatus
        · cases hd : stub.DelState (proposalPrefix ++ id) with
          | error err =>
            left; simp [invalidateProposal, Stub.GetState, hb, he, hst, hd, isError_Error]
          | ok stub1 =>
            right
            refine ⟨id, bytes, e, stub1, rfl, hb, he, hst, hd, ?_⟩
            simp [invalidateProposal, Stub.GetState, hb, he, hst, hd]
        · left; simp [invalidateProposal, Stub.GetState, hb, he, hst, isError_Error]
  · left; exact ⟨rfl, rfl⟩

theorem PutState_ok (stub stub1 : Stub) (key value : String)
    (h : stub.PutState key value = Except.ok stub1) :
    stub1 = { stub with
      State := fun k => if k = key then Except.ok (some value) else stub.State k } := by
  unfold Stub.PutState at h
  split at h
  · cases h
  · injection h with h
    exact h.symm

theorem afterConfirmWrite_frame (stub : Stub) (key : String) (e : proposalEntry) :
    (afterConfirmWrite stub key e).Events = stub.Events ∧
      (afterConfirmWrite stub key e).putErr = stub.putErr ∧
      (afterConfirmWrite stub key e).delErr = stub.delErr ∧
      (afterConfirmWrite stub key e).eventErr = stub.eventErr ∧
      ∀ k, k ≠ key → (afterConfirmWrite stub key e).State k = stub.State k := by
  unfold afterConfirmWrite
  cases h : stub.PutState key (marshalEntry { e with Status := ConfirmStatus }) with
  | error err => simp
  | ok written =>
    rw [PutState_ok _ _ _ _ h]
    simp only [true_and]
    intro k hk
    simp [hk]

/-- C3. An operation that returns an error result leaves the stub as it was: the store is the
same and no event has been added. In particular a `confirmProposal` whose pre-image does not
match leaves a `PENDING` entry stored as it was. -/
theorem failed_operation_changes_nothing (rt : Runtime) (stub : Stub) (args : List String) :
    ((createProposal stub args).2.isError → (createProposal stub args).1 = stub) ∧
      ((confirmProposal rt stub args).2.isError → (confirmProposal rt stub args).1 = stub) ∧
      ((invalidateProposal stub args).2.isError → (invalidateProposal stub args).1 = stub) ∧
      (∀ (id p : String) (e : proposalEntry),
        stub.entryAt (proposalPrefix ++ id) = some e → e.Status = PendingStatus →
        e.HashAlgorithm ∈ validHashingAlgorithms →
        EncodeToString (digestOf rt e.HashAlgorithm p) ≠ ToLower rt e.Hash →
        (confirmProposal rt stub [id, p]).2.isError ∧
          (confirmProposal rt stub [id, p]).1.entryAt (proposalPrefix ++ id) = some e ∧
          e.Status = PendingStatus) := by
  refine ⟨?_, ?_, ?_, ?_⟩
  · intro h
    rcases createProposal_cases stub args with ⟨h1, _⟩ | ⟨a0, a1, a2, parsed, stub1, _, _, _, _, _, _, heq⟩
    · exact h1
    · rw [heq] at h
      exact absurd h (not_isError_Success none)
  · intro h
    rcases confirmProposal_cases rt stub args with ⟨h1, _⟩ | ⟨id, p, bytes, e, sum, _, _, _, _, _, heq⟩
    · exact h1
    · rw [heq] at h
      exact absurd h (not_isError_Success none)
  · intro h
    rcases invalidateProposal_cases stub args with ⟨h1, _⟩ | ⟨id, bytes, e, stub1, _, _, _, _, _, heq⟩
    · exact h1
    · rw [heq] at h
      exact absurd h (not_isError_Success none)
  · intro id p e hentry hst halg hne
    obtain ⟨bytes, hb, he⟩ := (entryAt_eq_some stub _ e).1 hentry
    rw [confirmProposal_of_entry rt stub id p bytes e hb he halg]
    simp only [hne, ne_eq, not_false_eq_true, if_true]
    exact ⟨isError_Error _, hentry, hst⟩

/-- The round trip of a create whose arguments are text: after a successful `createProposal`
for a payload that parses to a proposal with a non-empty id and a non-empty handler, the store
maps the key `_proposal_` followed by the id to the entry made of that proposal, status
`PENDING`, the hash text as supplied and the algorithm supplied; every other key of the store
is as before. -/
theorem createProposal_round_trip (stub : Stub) (a0 a1 a2 : String) (parsed : abstractProposal)
    (hparse : unmarshalProposal a0 = Except.ok parsed) (hid : parsed.ProposalID ≠ "")
    (hh : parsed.Handler ≠ "") (halg : a2 ∈ validHashingAlgorithms)
    (hok : (createProposal stub [a0, a1, a2]).2 = Success none) :
    (createProposal stub [a0, a1, a2]).1.State (proposalPrefix ++ parsed.ProposalID) =
        Except.ok (some (marshalEntry
          { Proposal := parsed, Status := PendingStatus, Hash := a1, HashAlgorithm := a2 })) ∧
      (createProposal stub [a0, a1, a2]).1.entryAt (proposalPrefix ++ parsed.ProposalID) =
        some { Proposal := parsed, Status := PendingStatus, Hash := a1, HashAlgorithm := a2 } ∧
      ∀ k, k ≠ proposalPrefix ++ parsed.ProposalID →
        (createProposal stub [a0, a1, a2]).1.State k = stub.State k := by
  rw [createProposal_of_parsed stub a0 a1 a2 parsed hparse hid hh halg] at hok ⊢
  cases hput : stub.PutState (proposalPrefix ++ parsed.ProposalID)
      (marshalEntry
        { Proposal := parsed, Status := PendingStatus, Hash := a1, HashAlgorithm := a2 }) with
  | error err =>
    rw [hput] at hok
    exact absurd hok.symm (Success_ne_Error none _)
  | ok stub1 =>
    rw [PutState_ok _ _ _ _ hput]
    refine ⟨by simp [Stub.SetEvent], ?_, ?_⟩
    · simp [Stub.entryAt, Stub.GetState, Stub.SetEvent, unmarshalEntry_marshalEntry]
    · intro k hk
      simp [Stub.SetEvent, hk]

theorem flatMap_noEscape (s : String) (h : NoEscape s) : s.data.flatMap escapeRune = s.data := by
  unfold NoEscape at h
  generalize s.data = cs at h
  induction cs with
  | nil => rfl
  | cons c cs ih =>
    rw [List.flatMap_cons, h c (List.mem_cons_self _ _),
      ih (fun d hd => h d (List.mem_cons_of_mem _ hd))]
    rfl

theorem quote_noEscape (s : String) (h : NoEscape s) : quote s = '"' :: (s.data ++ ['"']) := by
  simp [quote, flatMap_noEscape s h]

theorem skipWs_open (k : String) (rest : List Char) :
    skipWs ('{' :: (quote k ++ rest)) = '{' :: (quote k ++ rest) := skipWs_brace _

theorem parseJSON_marshalConfirmedEvent (ev : ProposalConfirmedEventObject) :
    parseJSON (marshalConfirmedEvent ev).data =
      some (JValue.obj [("proposalId".data, JValue.str ev.ProposalID.data),
        ("preImage".data, JValue.str ev.PreImage.data)]) := by
  have hlen : 3 ≤ (marshalConfirmedEvent ev).data.length := by
    simp only [marshalConfirmedEvent, List.length_append, List.length_singleton]
    omega
  obtain ⟨m, hm⟩ : ∃ m, (marshalConfirmedEvent ev).data.length + 1 = m + 4 :=
    ⟨(marshalConfirmedEvent ev).data.length - 3, by omega⟩
  unfold parseJSON
  rw [hm]
  simp only [marshalConfirmedEvent, List.append_assoc, List.singleton_append, List.cons_append,
    List.nil_append, skipWs_brace, parseValue_object, parseMembers_key, skipWs_quote,
    parseValue_quote, skipWs_comma, skipWs_close]
  simp [skipWs]

theorem parseJSON_marshalCreatedEvent (ev : ProposalCreatedEventObject) :
    parseJSON (marshalCreatedEvent ev).data =
      some (JValue.obj [("proposalId".data, JValue.str ev.ProposalID.data)]) := by
  have hlen : 2 ≤ (marshalCreatedEvent ev).data.length := by
    simp only [marshalCreatedEvent, List.length_append, List.length_singleton]
    omega
  obtain ⟨m, hm⟩ : ∃ m, (marshalCreatedEvent ev).data.length + 1 = m + 3 :=
    ⟨(marshalCreatedEvent ev).data.length - 2, by omega⟩
  unfold parseJSON
  rw [hm]
  simp only [marshalCreatedEvent, List.append_assoc, List.singleton_append, List.cons_append,
    List.nil_append, skipWs_brace, parseValue_object, parseMembers_key, skipWs_quote,
    parseValue_quote, skipWs_comma, skipWs_close]
  simp [skipWs]

theorem marshalConfirmedEvent_plain (id p : String) (hid : NoEscape id) (hp : NoEscape p) :
    marshalConfirmedEvent { ProposalID := id, PreImage := p } =
      "\x7b\"proposalId\":\"" ++ id ++ "\",\"preImage\":\"" ++ p ++ "\"\x7d" := by
  apply String.ext
  simp only [marshalConfirmedEvent, String.data_append, quote_noEscape id hid,
    quote_noEscape p hp]
  have h1 : quote "proposalId" = "\"proposalId\"".data := by decide
  have h2 : quote "preImage" = "\"preImage\"".data := by decide
  rw [h1, h2]
  simp

theorem marshalCreatedEvent_plain (id : String) (hid : NoEscape id) :
    marshalCreatedEvent { ProposalID := id } = "\x7b\"proposalId\":\"" ++ id ++ "\"\x7d" := by
  apply String.ext
  simp only [marshalCreatedEvent, String.data_append, quote_noEscape id hid]
  have h1 : quote "proposalId" = "\"proposalId\"".data := by decide
  rw [h1]
  simp

/-- The event of a confirm whose arguments are text: every successful `confirmProposal` is a
call `[id, p]` and hands over exactly one event, its name is `PROPOSAL_CONFIRMED` and its
payload is the JSON object with `proposalId` equal to `id` and `preImage` equal to `p`; when
`json.Marshal` escapes no character of either the payload is the text
`{"proposalId":"<id>","preImage":"<p>"}`. -/
theorem confirmProposal_event (rt : Runtime) (stub : Stub) (args : List String)
    (hok : (confirmProposal rt stub args).2 = Success none) :
    ∃ id p, args = [id, p] ∧
      (confirmProposal rt stub args).1.Events =
        stub.Events ++ [{ EventName := "PROPOSAL_CONFIRMED",
                          Payload := marshalConfirmedEvent { ProposalID := id, PreImage := p } }] ∧
      parseJSON (marshalConfirmedEvent { ProposalID := id, PreImage := p }).data =
        some (JValue.obj [("proposalId".data, JValue.str id.data),
          ("preImage".data, JValue.str p.data)]) ∧
      (NoEscape id → NoEscape p →
        marshalConfirmedEvent { ProposalID := id, PreImage := p } =
          "\x7b\"proposalId\":\"" ++ id ++ "\",\"preImage\":\"" ++ p ++ "\"\x7d") := by
  rcases confirmProposal_cases rt stub args with ⟨_, h2⟩ | ⟨id, p, bytes, e, sum, hargs, _, _, _, _, heq⟩
  · rw [hok] at h2
    exact absurd h2 (not_isError_Success none)
  · refine ⟨id, p, hargs, ?_, parseJSON_marshalConfirmedEvent _, marshalConfirmedEvent_plain id p⟩
    rw [heq]
    simp [Stub.SetEvent, (afterConfirmWrite_frame stub _ e).1, ProposalConfirmedHandlerEvent]

/-- C7. Every successful `createProposal` for a proposal with id `id` and handler `h` hands over
exactly two events, in this order: first one named `h` followed by `_PROPOSAL_CREATED`, then
one named `PROPOSAL_CREATED`; both carry the same payload, the JSON object with `proposalId`
equal to `id`, which is the text `{"proposalId":"<id>"}` when `id` needs no escaping. -/
theorem createProposal_events (stub : Stub) (args : List String)
    (hok : (createProposal stub args).2 = Success none) :
    ∃ a0 a1 a2 parsed, args = [a0, a1, a2] ∧ unmarshalProposal a0 = Except.ok parsed ∧
      (createProposal stub args).1.Events =
        stub.Events ++
          [{ EventName := parsed.Handler ++ "_PROPOSAL_CREATED",
             Payload := marshalCreatedEvent { ProposalID := parsed.ProposalID } },
           { EventName := "PROPOSAL_CREATED",
             Payload := marshalCreatedEvent { ProposalID := parsed.ProposalID } }] ∧
      parseJSON (marshalCreatedEvent { ProposalID := parsed.ProposalID }).data =
        some (JValue.obj [("proposalId".data, JValue.str parsed.ProposalID.data)]) ∧
      (NoEscape parsed.ProposalID →
        marshalCreatedEvent { ProposalID := parsed.ProposalID } =
          "\x7b\"proposalId\":\"" ++ parsed.ProposalID ++ "\"\x7d") := by
  rcases createProposal_cases stub args with
    ⟨_, h2⟩ | ⟨a0, a1, a2, parsed, stub1, hargs, _, hparse, _, _, hput, heq⟩
  · rw [hok] at h2
    exact absurd h2 (not_isError_Success none)
  · refine ⟨a0, a1, a2, parsed, hargs, hparse, ?_, parseJSON_marshalCreatedEvent _,
      marshalCreatedEvent_plain parsed.ProposalID⟩
    rw [heq, PutState_ok _ _ _ _ hput]
    simp [Stub.SetEvent, ProposalCreatedHandlerEvent, ProposalCreateTimeoutEvent]

/-- C8. On a store that accepts writes, `createProposal` returns an error exactly when the
number of arguments is not three, or the algorithm argument is not in the recognised set, or
the payload cannot be parsed, or the parsed `proposalId` is empty, or the parsed handler is
empty; in every other case it succeeds, whatever the hash string is. -/
theorem createProposal_error_iff (stub : Stub) (args : List String) (hw : stub.AcceptsWrites) :
    ((createProposal stub args).2.isError ↔
        args.length ≠ 3 ∨
          ∃ a0 a1 a2, args = [a0, a1, a2] ∧
            (a2 ∉ validHashingAlgorithms ∨
              (∃ err, unmarshalProposal a0 = Except.error err) ∨
              ∃ parsed, unmarshalProposal a0 = Except.ok parsed ∧
                (parsed.ProposalID = "" ∨ parsed.Handler = ""))) ∧
      (¬ (createProposal stub args).2.isError → (createProposal stub args).2 = Success none) := by
  rcases args with _ | ⟨a0, _ | ⟨a1, _ | ⟨a2, _ | ⟨a3, rest⟩⟩⟩⟩
  · simp [createProposal, isError_Error]
  · simp [createProposal, isError_Error]
  · simp [createProposal, isError_Error]
  · have hQ : (([a0, a1, a2] : List String).length ≠ 3 ∨
        ∃ b0 b1 b2, [a0, a1, a2] = [b0, b1, b2] ∧
          (b2 ∉ validHashingAlgorithms ∨
            (∃ err, unmarshalProposal b0 = Except.error err) ∨
            ∃ parsed, unmarshalProposal b0 = Except.ok parsed ∧
              (parsed.ProposalID = "" ∨ parsed.Handler = ""))) ↔
        (a2 ∉ validHashingAlgorithms ∨
            (∃ err, unmarshalProposal a0 = Except.error err) ∨
            ∃ parsed, unmarshalProposal a0 = Except.ok parsed ∧
              (parsed.ProposalID = "" ∨ parsed.Handler = "")) := by
      constructor
      · rintro (h | ⟨b0, b1, b2, hb, h⟩)
        · exact absurd rfl h
        · injection hb with h0 hb
          injection hb with h1 hb
          injection hb with h2 _
          subst h0 h1 h2
          exact h
      · intro h
        exact Or.inr ⟨a0, a1, a2, rfl, h⟩
    rw [hQ]
    by_cases halg : a2 ∈ validHashingAlgorithms
    · have hv : validAlg a2 = true := (validAlg_iff a2).2 ((mem_valid_iff a2).1 halg)
      cases hp : unmarshalProposal a0 with
      | error err => simp [createProposal, hv, hp, isError_Error]
      | ok parsed =>
        by_cases hid : parsed.ProposalID = ""
        · simp [createProposal, hv, hp, hid, isError_Error]
        · by_cases hh : parsed.Handler = ""
          · simp [createProposal, hv, hp, hid, hh, isError_Error]
          · rw [createProposal_of_parsed stub a0 a1 a2 parsed hp hid hh halg,
              PutState_accepts _ _ _ hw]
            simp [not_isError_Success, halg, hid, hh]
    · have hv : validAlg a2 = false := by
        cases h : validAlg a2 with
        | false => rfl
        | true => exact absurd ((mem_valid_iff a2).2 ((validAlg_iff a2).1 h)) halg
      simp [createProposal, hv, halg, isError_Error]
  · simp [createProposal, isError_Error]

/-- C9. A three-argument `createProposal` whose algorithm argument is none of the tokens
`SHA256`, `SHA384`, `SHA512`, compared exactly, returns the error that lists the supported
algorithms and leaves the stub as it was, whatever the proposal payload and the hash are. -/
theorem createProposal_algorithm_gate (stub : Stub) (a0 a1 a2 : String)
    (h256 : a2 ≠ "SHA256") (h384 : a2 ≠ "SHA384") (h512 : a2 ≠ "SHA512") :
    createProposal stub [a0, a1, a2] =
      (stub, Error "Only these hashing algorithms are supported: SHA256, SHA384, SHA512") := by
  have hv : validAlg a2 = false := by
    cases h : validAlg a2 with
    | false => rfl
    | true =>
      rcases (validAlg_iff a2).1 h with h | h | h
      · exact absurd h h256
      · exact absurd h h384
      · exact absurd h h512
  have hjoin : String.intercalate ", " validHashingAlgorithms = "SHA256, SHA384, SHA512" := by
    decide
  simp only [createProposal, hv, hjoin, if_true]
  rfl

/-- C10. When a read of the key `_proposal_` followed by `id` answers no value, be it that the
proposal was never created or that it was invalidated, `confirmProposal [id, p]` fails with
`No such proposal. It may have expired and been invalidated.` for every pre-image `p`. -/
theorem confirmProposal_not_found (rt : Runtime) (stub : Stub) (id p : String) :
    (stub.GetState (proposalPrefix ++ id) = Except.ok none →
        confirmProposal rt stub [id, p] =
          (stub, Error "No such proposal. It may have expired and been invalidated.")) ∧
      ((invalidateProposal stub [id]).2 = Success none →
        (confirmProposal rt (invalidateProposal stub [id]).1 [id, p]).2 =
          Error "No such proposal. It may have expired and been invalidated.") := by
  constructor
  · intro h
    simp only [confirmProposal, h]
  · intro hok
    rcases invalidateProposal_cases stub [id] with
      ⟨_, h2⟩ | ⟨id1, bytes, e, stub1, hargs, _, _, _, hd, heq⟩
    · rw [hok] at h2
      exact absurd h2 (not_isError_Success none)
    · injection hargs with hargs _
      subst hargs
      rw [heq]
      have hs : stub1.State (proposalPrefix ++ id) = Except.ok none := by
        unfold Stub.DelState at hd
        split at hd
        · cases hd
        · injection hd with hd
          subst hd
          simp
      simp only [confirmProposal, Stub.GetState, hs]

/-- The store after a successful `confirmProposal [id, p]`: the call found an entry under the
key, every other key is as before, and when the store accepts the write the key holds that
entry with the status replaced by `CONFIRMED`. -/
theorem confirmProposal_store (rt : Runtime) (stub : Stub) (id p : String)
    (hok : (confirmProposal rt stub [id, p]).2 = Success none) :
    ∃ e, stub.entryAt (proposalPrefix ++ id) = some e ∧
      (∀ k, k ≠ proposalPrefix ++ id →
        (confirmProposal rt stub [id, p]).1.State k = stub.State k) ∧
      (stub.putErr (proposalPrefix ++ id) (marshalEntry { e with Status := ConfirmStatus }) = none →
        (confirmProposal rt stub [id, p]).1.entryAt (proposalPrefix ++ id) =
          some { e with Status := ConfirmStatus }) := by
  rcases confirmProposal_cases rt stub [id, p] with
    ⟨_, h2⟩ | ⟨id1, p1, bytes, e, sum, hargs, hb, he, _, _, heq⟩
  · rw [hok] at h2
    exact absurd h2 (not_isError_Success none)
  · injection hargs with h1 hargs
    injection hargs with h2 _
    subst h1 h2
    refine ⟨e, (entryAt_eq_some stub _ e).2 ⟨bytes, hb, he⟩, ?_, ?_⟩
    · intro k hk
      rw [heq]
      simpa [Stub.SetEvent] using (afterConfirmWrite_frame stub _ e).2.2.2.2 k hk
    · intro hput
      rw [heq]
      simp [Stub.entryAt, Stub.GetState, Stub.SetEvent, afterConfirmWrite, Stub.PutState, hput,
        unmarshalEntry_marshalEntry]

/-! ## Worked instances -/

set_option maxRecDepth 100000 in
/-- C1 at the store of the upper-case test: the stored hash is in upper case and the pre-image
is accepted. -/
theorem confirmProposal_accepts_iff_witness :
    pendingStub.entryAt (proposalPrefix ++ "prop1234") = some pendingEntry ∧
      pendingEntry.HashAlgorithm ∈ validHashingAlgorithms ∧
      (confirmProposal testRuntime pendingStub ["prop1234", "test_hash"]).2 = Success none :=
  have h1 : pendingStub.entryAt (proposalPrefix ++ "prop1234") = some pendingEntry := by decide
  have h2 : pendingEntry.HashAlgorithm ∈ validHashingAlgorithms := by decide
  ⟨h1, h2, (confirmProposal_accepts_iff testRuntime pendingStub "prop1234" "test_hash"
    pendingEntry h1 h2).2.2 (by decide)⟩

set_option maxRecDepth 100000 in
/-- C3 at a confirm with a wrong pre-image: the call fails and the stub is the one it was
given. -/
theorem failed_operation_changes_nothing_witness :
    (confirmProposal testRuntime pendingStub ["prop1234", "not_the_secret"]).2.isError ∧
      (confirmProposal testRuntime pendingStub ["prop1234", "not_the_secret"]).1 =
        pendingStub ∧
      (confirmProposal testRuntime pendingStub
        ["prop1234", "not_the_secret"]).1.entryAt (proposalPrefix ++ "prop1234") =
        some pendingEntry :=
  have h1 : (confirmProposal testRuntime pendingStub
      ["prop1234", "not_the_secret"]).2.isError := by decide
  ⟨h1,
    (failed_operation_changes_nothing testRuntime pendingStub
      ["prop1234", "not_the_secret"]).2.1 h1,
    ((failed_operation_changes_nothing testRuntime pendingStub
      ["prop1234", "not_the_secret"]).2.2.2 "prop1234" "not_the_secret" pendingEntry
      (by decide) (by decide) (by decide) (by decide)).2.1⟩

set_option maxRecDepth 100000 in
/-- The create of the tests, as text: the key `_proposal_prop1234` then holds the `PENDING`
entry with the hash `hash` and the algorithm `SHA512`. -/
theorem createProposal_round_trip_witness :
    unmarshalProposal testProposal =
        Except.ok { ProposalID := "prop1234", Handler := "Bob" } ∧
      (createProposal emptyStub [testProposal, "hash", "SHA512"]).2 = Success none ∧
      (createProposal emptyStub [testProposal, "hash", "SHA512"]).1.entryAt
          (proposalPrefix ++ "prop1234") =
        some { Proposal := { ProposalID := "prop1234", Handler := "Bob" },
               Status := PendingStatus, Hash := "hash", HashAlgorithm := "SHA512" } :=
  have h1 : unmarshalProposal testProposal =
      Except.ok { ProposalID := "prop1234", Handler := "Bob" } := by decide
  have h2 : (createProposal emptyStub [testProposal, "hash", "SHA512"]).2 = Success none := by
    decide
  ⟨h1, h2, (createProposal_round_trip emptyStub testProposal "hash" "SHA512"
    { ProposalID := "prop1234", Handler := "Bob" } h1 (by decide) (by decide) (by decide)
    h2).2.1⟩

set_option maxRecDepth 100000 in
/-- C5 fails on a store that refuses the write: the store holds a `PENDING` entry whose hash
matches the pre-image, `confirmProposal` returns success, and the entry stored afterwards is
still the `PENDING` one. -/
theorem confirmProposal_ignores_refused_write :
    (readOnlyStub pendingStub).entryAt (proposalPrefix ++ "prop1234") = some pendingEntry ∧
      (confirmProposal testRuntime (readOnlyStub pendingStub)
        ["prop1234", "test_hash"]).2 = Success none ∧
      (confirmProposal testRuntime (readOnlyStub pendingStub)
        ["prop1234", "test_hash"]).1.entryAt (proposalPrefix ++ "prop1234") =
        some pendingEntry ∧
      pendingEntry.Status = "PENDING" ∧
      pendingEntry ≠ { pendingEntry with Status := ConfirmStatus } := by
  decide

set_option maxRecDepth 100000 in
/-- The confirm of the tests, as text: one event, `PROPOSAL_CONFIRMED`, with the payload of
the test. -/
theorem confirmProposal_event_witness :
    (confirmProposal testRuntime pendingStub ["prop1234", "test_hash"]).2 = Success none ∧
      (confirmProposal testRuntime pendingStub ["prop1234", "test_hash"]).1.Events =
        [{ EventName := "PROPOSAL_CONFIRMED",
           Payload := "\x7b\"proposalId\":\"prop1234\",\"preImage\":\"test_hash\"\x7d" }] :=
  have h1 : (confirmProposal testRuntime pendingStub ["prop1234", "test_hash"]).2 =
      Success none := by decide
  ⟨h1, by
    obtain ⟨id, p, hargs, hev, _, _⟩ :=
      confirmProposal_event testRuntime pendingStub ["prop1234", "test_hash"] h1
    injection hargs with hid hargs
    injection hargs with hp _
    subst hid hp
    rw [hev]
    decide⟩

set_option maxRecDepth 100000 in
/-- C7 at the create of the tests: `Bob_PROPOSAL_CREATED`, then `PROPOSAL_CREATED`, both with
the payload of the test. -/
theorem createProposal_events_witness :
    (createProposal emptyStub [testProposal, "hash", "SHA512"]).2 = Success none ∧
      (createProposal emptyStub [testProposal, "hash", "SHA512"]).1.Events =
        [{ EventName := "Bob_PROPOSAL_CREATED", Payload := "\x7b\"proposalId\":\"prop1234\"\x7d" },
         { EventName := "PROPOSAL_CREATED", Payload := "\x7b\"proposalId\":\"prop1234\"\x7d" }] :=
  have h1 : (createProposal emptyStub [testProposal, "hash", "SHA512"]).2 = Success none := by
    decide
  ⟨h1, by
    obtain ⟨a0, a1, a2, parsed, hargs, hparse, hev, _, _⟩ :=
      createProposal_events emptyStub [testProposal, "hash", "SHA512"] h1
    injection hargs with h0 _
    subst h0
    have hp : unmarshalProposal testProposal =
        Except.ok { ProposalID := "prop1234", Handler := "Bob" } := by decide
    rw [hp] at hparse
    injection hparse with hparse
    subst hparse
    rw [hev]
    decide⟩

set_option maxRecDepth 100000 in
/-- C8 on the empty store: a proposal without a handler is an error, and a full proposal with
an empty hash string is not. -/
theorem createProposal_error_iff_witness :
    emptyStub.AcceptsWrites ∧
      (createProposal emptyStub ["\x7b\"proposalId\": \"prop1234\"\x7d", "hash", "SHA512"]).2.isError ∧
      ¬ (createProposal emptyStub [testProposal, "", "SHA512"]).2.isError :=
  have hw : emptyStub.AcceptsWrites := fun _ _ => rfl
  ⟨hw,
    (createProposal_error_iff emptyStub ["\x7b\"proposalId\": \"prop1234\"\x7d", "hash", "SHA512"]
      hw).1.2 (Or.inr ⟨_, _, _, rfl, Or.inr (Or.inr
        ⟨{ ProposalID := "prop1234", Handler := "" }, by decide, Or.inr rfl⟩)⟩),
    by decide⟩

/-- C9 at the token of the test and at a token in lower case. -/
theorem createProposal_algorithm_gate_witness :
    createProposal emptyStub ["\x7b\"proposalId\": \"prop1234\"\x7d", "hash", "My-Awesome-Hashing-Alg"] =
        (emptyStub,
          Error "Only these hashing algorithms are supported: SHA256, SHA384, SHA512") ∧
      createProposal emptyStub [testProposal, "hash", "sha256"] =
        (emptyStub,
          Error "Only these hashing algorithms are supported: SHA256, SHA384, SHA512") :=
  ⟨createProposal_algorithm_gate emptyStub _ _ _ (by decide) (by decide) (by decide),
    createProposal_algorithm_gate emptyStub _ _ _ (by decide) (by decide) (by decide)⟩

set_option maxRecDepth 100000 in
/-- C10 on the empty store, and on the store of the pending entry once it is invalidated. -/
theorem confirmProposal_not_found_witness :
    emptyStub.GetState (proposalPrefix ++ "prop1234") = Except.ok none ∧
      confirmProposal testRuntime emptyStub ["prop1234", "test_hash"] =
        (emptyStub, Error "No such proposal. It may have expired and been invalidated.") ∧
      (invalidateProposal pendingStub ["prop1234"]).2 = Success none ∧
      (confirmProposal testRuntime (invalidateProposal pendingStub ["prop1234"]).1
        ["prop1234", "test_hash"]).2 =
        Error "No such proposal. It may have expired and been invalidated." :=
  have h1 : emptyStub.GetState (proposalPrefix ++ "prop1234") = Except.ok none := rfl
  have h2 : (invalidateProposal pendingStub ["prop1234"]).2 = Success none := by decide
  ⟨h1, (confirmProposal_not_found testRuntime emptyStub "prop1234" "test_hash").1 h1, h2,
    (confirmProposal_not_found testRuntime pendingStub "prop1234" "test_hash").2 h2⟩

/-! ## The tests of the repository, run on the embedding -/

set_option maxRecDepth 100000 in
theorem TestCreateProposalSuccess :
    (createProposal emptyStub [testProposal, "hash", "SHA512"]).2.Status = 200 ∧
      (createProposal emptyStub [testProposal, "hash", "SHA512"]).1.GetState
          (proposalPrefix ++ "prop1234") =
        Except.ok (some ("\x7b\"proposal\":\x7b\"proposalId\":\"prop1234\",\"proposalHandler\":\"Bob\"\x7d,"
          ++ "\"status\":\"PENDING\",\"hash\":\"hash\",\"hashAlgorithm\":\"SHA512\"\x7d")) ∧
      (createProposal emptyStub [testProposal, "hash", "SHA512"]).1.Events =
        [{ EventName := "Bob" ++ ProposalCreatedHandlerEvent,
           Payload := "\x7b\"proposalId\":\"prop1234\"\x7d" },
         { EventName := ProposalCreateTimeoutEvent,
           Payload := "\x7b\"proposalId\":\"prop1234\"\x7d" }] := by
  decide

set_option maxRecDepth 100000 in
theorem TestCreateProposalInvalidArgs :
    (createProposal emptyStub [testProposal, "hash"]).2 =
      Error "Invalid arguments to createProposal, expected proposal, hash, hashingAlg." := by
  decide

set_option maxRecDepth 100000 in
theorem TestCreateProposalInvalidPropId :
    (createProposal emptyStub ["\x7b\"proposalHandler\": \"Bob\"\x7d", "hash", "SHA512"]).2 =
      Error "No proposalId provided as part of proposal." := by
  decide

set_option maxRecDepth 100000 in
theorem TestCreateProposalInvalidHandler :
    (createProposal emptyStub ["\x7b\"proposalId\": \"prop1234\"\x7d", "hash", "SHA512"]).2 =
      Error "No proposalHandler provided as part of proposal." := by
  decide

set_option maxRecDepth 100000 in
theorem TestConfirmProposalSuccess :
    (confirmProposal testRuntime
        (createProposal emptyStub
          [testProposal,
            "5a32f0967623012cdd4c29257f808f3f209184e992c39dc6d931f89831e7b1eb9379f9e3a20da09eb06d0ca53bd9c0845dda91baed17a713c0cac8a24259c0b9",
            "SHA512"]).1 ["prop1234", "test_hash"]).2.Status = 200 ∧
      (confirmProposal testRuntime
        (createProposal emptyStub
          [testProposal,
            "5a32f0967623012cdd4c29257f808f3f209184e992c39dc6d931f89831e7b1eb9379f9e3a20da09eb06d0ca53bd9c0845dda91baed17a713c0cac8a24259c0b9",
            "SHA512"]).1 ["prop1234", "test_hash"]).1.GetState (proposalPrefix ++ "prop1234") =
        Except.ok (some ("\x7b\"proposal\":\x7b\"proposalId\":\"prop1234\",\"proposalHandler\":\"Bob\"\x7d,"
          ++ "\"status\":\"CONFIRMED\","
          ++ "\"hash\":\"5a32f0967623012cdd4c29257f808f3f209184e992c39dc6d931f89831e7b1eb9379f9e3a20da09eb06d0ca53bd9c0845dda91baed17a713c0cac8a24259c0b9\","
          ++ "\"hashAlgorithm\":\"SHA512\"\x7d")) := by
  decide

set_option maxRecDepth 100000 in
theorem TestConfirmProposalNoSuchProposal :
    (confirmProposal testRuntime emptyStub ["prop1234", "test_hash"]).2 =
      Error "No such proposal. It may have expired and been invalidated." := by
  decide

set_option maxRecDepth 100000 in
theorem TestConfirmProposalInvalidHash :
    (confirmProposal testRuntime
        (createProposal emptyStub [testProposal, "not_hash", "SHA512"]).1
        ["prop1234", "test_hash"]).2 = Error "Invalid Pre-image supplied." ∧
      ((confirmProposal testRuntime
        (createProposal emptyStub [testProposal, "not_hash", "SHA512"]).1
        ["prop1234", "test_hash"]).1.entryAt (proposalPrefix ++ "prop1234")).map
          (fun e => e.Status) = some PendingStatus := by
  decide

set_option maxRecDepth 100000 in
theorem TestConfirmProposalWithSHA384 :
    (confirmProposal testRuntime
        (createProposal emptyStub
          [testProposal,
            "708af8efbb882bb662a5a5f19d3164133621266903cec7ee0ce9eca950a7b7f8d09defedb4474da4257274741f2a07a8",
            "SHA384"]).1 ["prop1234", "test_hash"]).2.Status = 200 := by
  decide

/-! ## Keys, entries and what the operations leave in the store -/

theorem proposalPrefix_inj (a b : String) (h : proposalPrefix ++ a = proposalPrefix ++ b) :
    a = b := by
  have h1 := congrArg String.data h
  simp only [String.data_append] at h1
  exact String.ext (List.append_cancel_left h1)

theorem entryAt_congr (s t : Stub) (key : String) (h : s.State key = t.State key) :
    s.entryAt key = t.entryAt key := by
  simp [Stub.entryAt, Stub.GetState, h]

theorem invalidateProposal_of_entry (stub : Stub) (id : String) (e : proposalEntry)
    (h : stub.entryAt (proposalPrefix ++ id) = some e) :
    invalidateProposal stub [id] =
      if e.Status ≠ PendingStatus then (stub, Error "Only pending proposals can be timed out.")
      else
        match stub.DelState (proposalPrefix ++ id) with
        | Except.error _ => (stub, Error "Error while deleting proposal from state.")
        | Except.ok stub1 => (stub1, Success none) := by
  obtain ⟨bytes, hb, he⟩ := (entryAt_eq_some stub _ e).1 h
  simp only [invalidateProposal, Stub.GetState, hb, bytesOrNil, he]

theorem DelState_accepts (stub : Stub) (key : String) (h : stub.delErr key = none) :
    stub.DelState key =
      Except.ok { stub with
        State := fun k => if k = key then Except.ok none else stub.State k } := by
  simp [Stub.DelState, h]
/-- C11, as amended. On a store that accepts deletes and in which the entry for `id` has status
`PENDING`, `invalidateProposal [id]` succeeds, leaves the key `_proposal_` followed by `id`
without a value, leaves every other key as it was and hands over no event; the
`confirmProposal [id, p]` that follows fails with the error of the missing proposal for every
pre-image `p`. -/
theorem invalidateProposal_pending (rt : Runtime) (stub : Stub) (id : String)
    (e : proposalEntry) (hentry : stub.entryAt (proposalPrefix ++ id) = some e)
    (hst : e.Status = PendingStatus) (hd : stub.AcceptsDeletes) :
    (invalidateProposal stub [id]).2 = Success none ∧
      (invalidateProposal stub [id]).1.State (proposalPrefix ++ id) = Except.ok none ∧
      (∀ k, k ≠ proposalPrefix ++ id →
        (invalidateProposal stub [id]).1.State k = stub.State k) ∧
      (invalidateProposal stub [id]).1.Events = stub.Events ∧
      ∀ p, confirmProposal rt (invalidateProposal stub [id]).1 [id, p] =
        ((invalidateProposal stub [id]).1,
          Error "No such proposal. It may have expired and been invalidated.") := by
  rw [invalidateProposal_of_entry stub id e hentry, DelState_accepts stub _ (hd _)]
  simp only [hst, ne_eq, not_true_eq_false, if_false]
  refine ⟨trivial, by simp, ?_, trivial, ?_⟩
  · intro k hk
    simp [hk]
  · intro p
    simp [confirmProposal, Stub.GetState]

/-- C12. In a store in which the entry for `id` has a status other than `PENDING`, and
`CONFIRMED` is such a status, `invalidateProposal [id]` fails with
`Only pending proposals can be timed out.` and changes nothing: the stub is the one it was
given and the entry is still there with the same contents. -/
theorem invalidateProposal_not_pending (stub : Stub) (id : String) (e : proposalEntry)
    (hentry : stub.entryAt (proposalPrefix ++ id) = some e) (hst : e.Status ≠ PendingStatus) :
    invalidateProposal stub [id] = (stub, Error "Only pending proposals can be timed out.") ∧
      (invalidateProposal stub [id]).1.entryAt (proposalPrefix ++ id) = some e ∧
      ConfirmStatus ≠ PendingStatus := by
  rw [invalidateProposal_of_entry stub id e hentry]
  simp only [hst, ne_eq, not_false_eq_true, if_true]
  exact ⟨trivial, hentry, by decide⟩
theorem entryAt_unique (stub : Stub) (key bytes : String) (e e1 : proposalEntry)
    (h : stub.entryAt key = some e) (hb : stub.State key = Except.ok (some bytes))
    (he : unmarshalEntry bytes = Except.ok e1) : e1 = e := by
  obtain ⟨b, hb', he'⟩ := (entryAt_eq_some stub key e).1 h
  rw [hb] at hb'
  injection hb' with hb'
  injection hb' with hb'
  subst hb'
  rw [he] at he'
  injection he'

theorem with_status_self (e : proposalEntry) (h : e.Status = ConfirmStatus) :
    { e with Status := ConfirmStatus } = e := by
  cases e
  simp_all

theorem entryAt_afterConfirmWrite (stub : Stub) (key : String) (e : proposalEntry)
    (h : stub.entryAt key = some e) (hst : e.Status = ConfirmStatus) :
    (afterConfirmWrite stub key e).entryAt key = some e := by
  unfold afterConfirmWrite
  cases hp : stub.PutState key (marshalEntry { e with Status := ConfirmStatus }) with
  | error err => exact h
  | ok written =>
    rw [PutState_ok _ _ _ _ hp, with_status_self e hst]
    simp [Stub.entryAt, Stub.GetState, unmarshalEntry_marshalEntry]

theorem entryAt_SetEvent (stub : Stub) (name payload key : String) :
    (stub.SetEvent name payload).1.entryAt key = stub.entryAt key := rfl

theorem confirmProposal_keeps_confirmed (rt : Runtime) (stub : Stub) (id : String)
    (e : proposalEntry) (hentry : stub.entryAt (proposalPrefix ++ id) = some e)
    (hst : e.Status = ConfirmStatus) (args : List String) :
    (confirmProposal rt stub args).1.entryAt (proposalPrefix ++ id) = some e := by
  rcases confirmProposal_cases rt stub args with
    ⟨h1, _⟩ | ⟨id1, p, bytes, e1, sum, _, hb, he, _, _, heq⟩
  · rw [h1]; exact hentry
  · rw [heq, entryAt_SetEvent]
    by_cases hid : id1 = id
    · subst hid
      have := entryAt_unique stub _ bytes e e1 hentry hb he
      subst this
      exact entryAt_afterConfirmWrite stub _ e1 hentry hst
    · have hk : proposalPrefix ++ id ≠ proposalPrefix ++ id1 :=
        fun h => hid (proposalPrefix_inj _ _ h).symm
      rw [entryAt_congr _ stub _ ((afterConfirmWrite_frame stub _ e1).2.2.2.2 _ hk)]
      exact hentry

theorem invalidateProposal_keeps_confirmed (stub : Stub) (id : String)
    (e : proposalEntry) (hentry : stub.entryAt (proposalPrefix ++ id) = some e)
    (hst : e.Status = ConfirmStatus) (args : List String) :
    (invalidateProposal stub args).1.entryAt (proposalPrefix ++ id) = some e := by
  rcases invalidateProposal_cases stub args with
    ⟨h1, _⟩ | ⟨id1, bytes, e1, stub1, _, hb, he, hpend, hd, heq⟩
  · rw [h1]; exact hentry
  · rw [heq]
    by_cases hid : id1 = id
    · subst hid
      exfalso
      obtain ⟨b, hb', he'⟩ := (entryAt_eq_some stub _ e).1 hentry
      rw [hb] at hb'
      injection hb' with hb'
      subst hb'
      simp only [bytesOrNil] at he
      rw [he] at he'
      injection he' with he'
      subst he'
      rw [hst] at hpend
      exact absurd hpend (by decide)
    · have hk : proposalPrefix ++ id ≠ proposalPrefix ++ id1 :=
        fun h => hid (proposalPrefix_inj _ _ h).symm
      have hs : stub1.State (proposalPrefix ++ id) = stub.State (proposalPrefix ++ id) := by
        unfold Stub.DelState at hd
        split at hd
        · cases hd
        · injection hd with hd
          subst hd
          simp [hk]
      rw [entryAt_congr _ stub _ hs]
      exact hentry

theorem createProposal_other_key (stub : Stub) (args : List String) (key : String) :
    (createProposal stub args).1.State key = stub.State key ∨
      ∃ a0 a1 a2 parsed, args = [a0, a1, a2] ∧ unmarshalProposal a0 = Except.ok parsed ∧
        key = proposalPrefix ++ parsed.ProposalID ∧
        (createProposal stub args).2 = Success none ∧
        (createProposal stub args).1.State key =
          Except.ok (some (marshalEntry
            { Proposal := parsed, Status := PendingStatus, Hash := a1, HashAlgorithm := a2 })) := by
  rcases createProposal_cases stub args with
    ⟨h1, _⟩ | ⟨a0, a1, a2, parsed, stub1, hargs, _, hparse, _, _, hput, heq⟩
  · left; rw [h1]
  · by_cases hk : key = proposalPrefix ++ parsed.ProposalID
    · right
      refine ⟨a0, a1, a2, parsed, hargs, hparse, hk, by rw [heq], ?_⟩
      rw [heq, PutState_ok _ _ _ _ hput]
      simp [Stub.SetEvent, hk]
    · left
      rw [heq, PutState_ok _ _ _ _ hput]
      simp [Stub.SetEvent, hk]

/-- C13, as amended. In a store in which the entry for `id` has status `CONFIRMED`,
`confirmProposal` and `invalidateProposal` with any arguments leave that entry in place with
the same contents, so it is neither moved back to `PENDING` nor deleted; `createProposal` with
any arguments leaves it in place too, unless it is a successful create of a proposal with the
same id, and then the entry stored is the new one with status `PENDING`. -/
theorem confirmed_is_terminal (rt : Runtime) (stub : Stub) (id : String) (e : proposalEntry)
    (hentry : stub.entryAt (proposalPrefix ++ id) = some e) (hst : e.Status = ConfirmStatus)
    (args : List String) :
    (confirmProposal rt stub args).1.entryAt (proposalPrefix ++ id) = some e ∧
      (invalidateProposal stub args).1.entryAt (proposalPrefix ++ id) = some e ∧
      ((createProposal stub args).1.entryAt (proposalPrefix ++ id) = some e ∨
        ∃ a0 a1 a2 parsed, args = [a0, a1, a2] ∧ unmarshalProposal a0 = Except.ok parsed ∧
          parsed.ProposalID = id ∧ (createProposal stub args).2 = Success none ∧
          (createProposal stub args).1.entryAt (proposalPrefix ++ id) =
            some { Proposal := parsed, Status := PendingStatus, Hash := a1,
                   HashAlgorithm := a2 }) := by
  refine ⟨confirmProposal_keeps_confirmed rt stub id e hentry hst args,
    invalidateProposal_keeps_confirmed stub id e hentry hst args, ?_⟩
  rcases createProposal_other_key stub args (proposalPrefix ++ id) with
    h | ⟨a0, a1, a2, parsed, hargs, hparse, hk, hok, hs⟩
  · left
    rw [entryAt_congr _ stub _ h]
    exact hentry
  · right
    refine ⟨a0, a1, a2, parsed, hargs, hparse, (proposalPrefix_inj _ _ hk).symm, hok, ?_⟩
    simp [Stub.entryAt, Stub.GetState, hs, unmarshalEntry_marshalEntry]

/-- The create over an entry, with arguments that are text: on a store that accepts writes and
already holds an entry for the id, whatever its status, hash and algorithm, a create with a
recognised algorithm and a proposal with both fields succeeds, and the entry stored for the id
is then the new one, with status `PENDING` and the handler, hash and algorithm of the call. -/
theorem createProposal_overwrites (stub : Stub) (a0 a1 a2 : String)
    (parsed : abstractProposal) (old : proposalEntry)
    (_hold : stub.entryAt (proposalPrefix ++ parsed.ProposalID) = some old)
    (hparse : unmarshalProposal a0 = Except.ok parsed) (hid : parsed.ProposalID ≠ "")
    (hh : parsed.Handler ≠ "") (halg : a2 ∈ validHashingAlgorithms)
    (hw : stub.AcceptsWrites) :
    (createProposal stub [a0, a1, a2]).2 = Success none ∧
      (createProposal stub [a0, a1, a2]).1.entryAt (proposalPrefix ++ parsed.ProposalID) =
        some { Proposal := parsed, Status := PendingStatus, Hash := a1, HashAlgorithm := a2 } := by
  rw [createProposal_of_parsed stub a0 a1 a2 parsed hparse hid hh halg,
    PutState_accepts _ _ _ hw]
  exact ⟨rfl, by simp [Stub.entryAt, Stub.GetState, Stub.SetEvent, unmarshalEntry_marshalEntry]⟩
/-- C20. A `createProposal` whose argument list has not three elements, a `confirmProposal`
whose list has not two and an `invalidateProposal` whose list has not one return their
`Invalid arguments` error and the stub they were given, whatever the store answers and whatever
the arguments hold: the store is neither read nor written. -/
theorem arity_gate (rt : Runtime) (stub : Stub) (args : List String) :
    (args.length ≠ 3 →
        createProposal stub args =
          (stub,
            Error "Invalid arguments to createProposal, expected proposal, hash, hashingAlg.")) ∧
      (args.length ≠ 2 →
        confirmProposal rt stub args =
          (stub,
            Error "Invalid arguments to confirmProposal, expected proposalId, pre-image.")) ∧
      (args.length ≠ 1 →
        invalidateProposal stub args =
          (stub, Error "Invalid arguments to invalidateProposal, expected proposalId")) := by
  refine ⟨?_, ?_, ?_⟩
  · intro h
    rcases args with _ | ⟨a0, _ | ⟨a1, _ | ⟨a2, _ | ⟨a3, rest⟩⟩⟩⟩
    · rfl
    · rfl
    · rfl
    · exact absurd rfl h
    · rfl
  · intro h
    rcases args with _ | ⟨a0, _ | ⟨a1, _ | ⟨a2, rest⟩⟩⟩
    · rfl
    · rfl
    · exact absurd rfl h
    · rfl
  · intro h
    rcases args with _ | ⟨a0, _ | ⟨a1, rest⟩⟩
    · rfl
    · exact absurd rfl h
    · rfl

theorem afterConfirmWrite_refused (stub : Stub) (key err : String) (e : proposalEntry)
    (h : stub.putErr key (marshalEntry { e with Status := ConfirmStatus }) = some err) :
    afterConfirmWrite stub key e = stub := by
  simp [afterConfirmWrite, Stub.PutState, h]

theorem afterConfirmWrite_accepted (stub : Stub) (key : String) (e : proposalEntry)
    (h : stub.putErr key (marshalEntry { e with Status := ConfirmStatus }) = none) :
    afterConfirmWrite stub key e =
      { stub with
        State := fun k =>
          if k = key then Except.ok (some (marshalEntry { e with Status := ConfirmStatus }))
          else stub.State k } := by
  simp [afterConfirmWrite, Stub.PutState, h]

/-- A second `confirmProposal` with the same arguments, after one that succeeded, succeeds and
leaves the store as the first one left it. -/
theorem confirmProposal_twice (rt : Runtime) (stub : Stub) (id p : String)
    (hok : (confirmProposal rt stub [id, p]).2 = Success none) :
    (confirmProposal rt (confirmProposal rt stub [id, p]).1 [id, p]).2 = Success none ∧
      (confirmProposal rt (confirmProposal rt stub [id, p]).1 [id, p]).1.State =
        (confirmProposal rt stub [id, p]).1.State := by
  rcases confirmProposal_cases rt stub [id, p] with
    ⟨_, h2⟩ | ⟨id1, p1, bytes, e, sum, hargs, hb, he, hs, hm, heq⟩
  · rw [hok] at h2
    exact absurd h2 (not_isError_Success none)
  · injection hargs with h1 hargs
    injection hargs with h2 _
    subst h1 h2
    rw [heq]
    cases hput : stub.putErr (proposalPrefix ++ id)
        (marshalEntry { e with Status := ConfirmStatus }) with
    | some err =>
      rw [afterConfirmWrite_refused stub _ err e hput]
      simp [confirmProposal, Stub.GetState, Stub.SetEvent, hb, he, hs, hm, Stub.PutState, hput]
    | none =>
      rw [afterConfirmWrite_accepted stub _ e hput]
      simp [confirmProposal, Stub.GetState, Stub.SetEvent, unmarshalEntry_marshalEntry, hs, hm,
        Stub.PutState, hput]
      funext k
      by_cases hk : k = proposalPrefix ++ id <;> simp [hk]
/-- C16. In a store in which the entry for `id` is already `CONFIRMED`, for every pre-image
whose digest matches the stored hash, `confirmProposal [id, p]` succeeds and leaves the store as
it was: the entry for `id` is the same entry, every other key is as before, and the bytes
themselves are unchanged when they are the ones the contract writes; a confirm after a confirm
leaves the store of the single confirm; the event `PROPOSAL_CONFIRMED` is handed over again. -/
theorem confirmProposal_again (rt : Runtime) (stub : Stub) (id p : String) (e : proposalEntry)
    (hentry : stub.entryAt (proposalPrefix ++ id) = some e) (hst : e.Status = ConfirmStatus)
    (halg : e.HashAlgorithm ∈ validHashingAlgorithms)
    (hm : EncodeToString (digestOf rt e.HashAlgorithm p) = ToLower rt e.Hash) :
    (confirmProposal rt stub [id, p]).2 = Success none ∧
      (confirmProposal rt stub [id, p]).1.entryAt (proposalPrefix ++ id) = some e ∧
      (∀ k, k ≠ proposalPrefix ++ id →
        (confirmProposal rt stub [id, p]).1.State k = stub.State k) ∧
      (stub.State (proposalPrefix ++ id) = Except.ok (some (marshalEntry e)) →
        (confirmProposal rt stub [id, p]).1.State = stub.State) ∧
      (confirmProposal rt (confirmProposal rt stub [id, p]).1 [id, p]).1.State =
        (confirmProposal rt stub [id, p]).1.State ∧
      (confirmProposal rt stub [id, p]).1.Events =
        stub.Events ++ [{ EventName := "PROPOSAL_CONFIRMED",
                          Payload := marshalConfirmedEvent { ProposalID := id, PreImage := p } }] := by
  obtain ⟨bytes, hb, he⟩ := (entryAt_eq_some stub _ e).1 hentry
  have heq := confirmProposal_of_entry rt stub id p bytes e hb he halg
  simp only [hm, ne_eq, not_true_eq_false, if_false] at heq
  have hok : (confirmProposal rt stub [id, p]).2 = Success none := by rw [heq]
  refine ⟨hok, confirmProposal_keeps_confirmed rt stub id e hentry hst _, ?_, ?_,
    (confirmProposal_twice rt stub id p hok).2, ?_⟩
  · intro k hk
    rw [heq]
    exact (afterConfirmWrite_frame stub _ e).2.2.2.2 k hk
  · intro hcanon
    rw [heq]
    show (afterConfirmWrite stub (proposalPrefix ++ id) e).State = stub.State
    cases hput : stub.putErr (proposalPrefix ++ id)
        (marshalEntry { e with Status := ConfirmStatus }) with
    | some err => rw [afterConfirmWrite_refused stub _ err e hput]
    | none =>
      rw [afterConfirmWrite_accepted stub _ e hput, with_status_self e hst]
      funext k
      by_cases hk : k = proposalPrefix ++ id
      · simp [hk, hcanon]
      · simp [hk]
  · rw [heq]
    simp [Stub.SetEvent, (afterConfirmWrite_frame stub _ e).1, ProposalConfirmedHandlerEvent]

/-- C15 fails on the create of the tests: the call succeeds for the proposal `prop1234`, and the
payload of the response is the nil slice, not the proposal id. -/
theorem createProposal_returns_no_payload :
    unmarshalProposal testProposal =
        Except.ok { ProposalID := "prop1234", Handler := "Bob" } ∧
      (createProposal emptyStub [testProposal, "hash", "SHA512"]).2.Status = 200 ∧
      (createProposal emptyStub [testProposal, "hash", "SHA512"]).2.Payload = none ∧
      (createProposal emptyStub [testProposal, "hash", "SHA512"]).2.Payload ≠
        some "prop1234" := by
  decide
theorem createProposal_payload_none (stub : Stub) (args : List String) :
    (createProposal stub args).2.Payload = none := by
  rcases createProposal_cases stub args with
    ⟨_, h2⟩ | ⟨a0, a1, a2, parsed, stub1, _, _, _, _, _, _, heq⟩
  · rcases args with _ | ⟨a0, _ | ⟨a1, _ | ⟨a2, _ | ⟨a3, rest⟩⟩⟩⟩
    · rfl
    · rfl
    · rfl
    · simp only [createProposal]
      split
      · rfl
      · split
        · rfl
        · split
          · rfl
          · split
            · rfl
            · split <;> rfl
    · rfl
  · rw [heq]
    rfl

theorem marshalEntry_plain (e : proposalEntry) (h1 : NoEscape e.Proposal.ProposalID)
    (h2 : NoEscape e.Proposal.Handler) (h3 : NoEscape e.Status) (h4 : NoEscape e.Hash)
    (h5 : NoEscape e.HashAlgorithm) : marshalEntry e = entryText e := by
  apply String.ext
  simp only [marshalEntry, marshalEntryChars, marshalProposalChars, entryText,
    String.data_append, quote_noEscape _ h1, quote_noEscape _ h2, quote_noEscape _ h3,
    quote_noEscape _ h4, quote_noEscape _ h5]
  have k1 : quote "proposal" = "\"proposal\"".data := by decide
  have k2 : quote "proposalId" = "\"proposalId\"".data := by decide
  have k3 : quote "proposalHandler" = "\"proposalHandler\"".data := by decide
  have k4 : quote "status" = "\"status\"".data := by decide
  have k5 : quote "hash" = "\"hash\"".data := by decide
  have k6 : quote "hashAlgorithm" = "\"hashAlgorithm\"".data := by decide
  rw [k1, k2, k3, k4, k5, k6]
  simp

theorem noEscape_valid (alg : String) (h : alg ∈ validHashingAlgorithms) : NoEscape alg := by
  rcases (mem_valid_iff alg).1 h with rfl | rfl | rfl <;> unfold NoEscape <;> decide

theorem noEscape_status : NoEscape PendingStatus ∧ NoEscape ConfirmStatus := by
  constructor <;> unfold NoEscape <;> decide
/-- The persisted text of an entry none of whose runes `escapeRune` rewrites: the fields in the
order of the declaration and no white space; decoding that text gives the entry back, and
these are the bytes a successful `createProposal` and a successful `confirmProposal` whose
write is accepted store. -/
theorem persisted_encoding_noEscape :
    (∀ e : proposalEntry, NoEscape e.Proposal.ProposalID → NoEscape e.Proposal.Handler →
        NoEscape e.Status → NoEscape e.Hash → NoEscape e.HashAlgorithm →
        marshalEntry e = entryText e ∧ unmarshalEntry (entryText e) = Except.ok e) ∧
      (∀ (stub : Stub) (a0 a1 a2 : String) (parsed : abstractProposal),
        unmarshalProposal a0 = Except.ok parsed →
        (createProposal stub [a0, a1, a2]).2 = Success none →
        NoEscape parsed.ProposalID → NoEscape parsed.Handler → NoEscape a1 →
        (createProposal stub [a0, a1, a2]).1.State (proposalPrefix ++ parsed.ProposalID) =
          Except.ok (some (entryText
            { Proposal := parsed, Status := PendingStatus, Hash := a1, HashAlgorithm := a2 }))) ∧
      (∀ (rt : Runtime) (stub : Stub) (id p : String) (e0 : proposalEntry),
        stub.entryAt (proposalPrefix ++ id) = some e0 →
        (confirmProposal rt stub [id, p]).2 = Success none →
        stub.putErr (proposalPrefix ++ id)
          (marshalEntry { e0 with Status := ConfirmStatus }) = none →
        NoEscape e0.Proposal.ProposalID → NoEscape e0.Proposal.Handler → NoEscape e0.Hash →
        (confirmProposal rt stub [id, p]).1.State (proposalPrefix ++ id) =
          Except.ok (some (entryText { e0 with Status := ConfirmStatus }))) := by
  refine ⟨?_, ?_, ?_⟩
  · intro e h1 h2 h3 h4 h5
    have hm := marshalEntry_plain e h1 h2 h3 h4 h5
    exact ⟨hm, hm ▸ unmarshalEntry_marshalEntry e⟩
  · intro stub a0 a1 a2 parsed hparse hok h1 h2 h4
    rcases createProposal_cases stub [a0, a1, a2] with
      ⟨_, herr⟩ | ⟨b0, b1, b2, parsed1, stub1, hargs, hv, hparse1, _, _, hput, heq⟩
    · rw [hok] at herr
      exact absurd herr (not_isError_Success none)
    · injection hargs with e0 hargs
      injection hargs with e1 hargs
      injection hargs with e2 _
      subst e0 e1 e2
      rw [hparse] at hparse1
      injection hparse1 with hparse1
      subst hparse1
      have halg : a2 ∈ validHashingAlgorithms := (mem_valid_iff a2).2 ((validAlg_iff a2).1 hv)
      rw [heq, PutState_ok _ _ _ _ hput,
        ← marshalEntry_plain
          { Proposal := parsed, Status := PendingStatus, Hash := a1, HashAlgorithm := a2 }
          h1 h2 noEscape_status.1 h4 (noEscape_valid a2 halg)]
      simp [Stub.SetEvent]
  · intro rt stub id p e0 hentry hok hput h1 h2 h4
    rcases confirmProposal_cases rt stub [id, p] with
      ⟨_, herr⟩ | ⟨id1, p1, bytes, e, sum, hargs, hb, he, hs, _, heq⟩
    · rw [hok] at herr
      exact absurd herr (not_isError_Success none)
    · injection hargs with i0 hargs
      injection hargs with i1 _
      subst i0 i1
      have := entryAt_unique stub _ bytes e0 e hentry hb he
      subst this
      have halg : e.HashAlgorithm ∈ validHashingAlgorithms := by
        by_contra hn
        rw [hasherSum_invalid rt _ p hn] at hs
        cases hs
      rw [heq, afterConfirmWrite_accepted stub _ e hput,
        ← marshalEntry_plain { e with Status := ConfirmStatus } h1 h2 noEscape_status.2 h4
          (noEscape_valid _ halg)]
      simp [Stub.SetEvent]
theorem toNat_eq_of_eq (c d : Char) (h : c = d) : c.toNat = d.toNat := by rw [h]

theorem escapeRune_eq_self (c : Char) :
    escapeRune c = [c] ↔ (c ≠ '"' ∧ c ≠ '\\' ∧ 32 ≤ c.toNat) ∧ ¬ EscapedBeyondNeed c := by
  unfold escapeRune EscapedBeyondNeed
  have hn : c = '\n' → c.toNat = 10 := fun h => toNat_eq_of_eq c _ h
  have hr : c = '\r' → c.toNat = 13 := fun h => toNat_eq_of_eq c _ h
  have ht : c = '\t' → c.toNat = 9 := fun h => toNat_eq_of_eq c _ h
  split_ifs with h1 h2 h3 h4 h5 h6
  · constructor
    · intro h
      simp at h
    · rintro ⟨⟨a, b, _⟩, _⟩
      rcases h1 with h1 | h1
      · exact absurd h1 a
      · exact absurd h1 b
  · constructor
    · intro h
      simp at h
    · rintro ⟨⟨_, _, a⟩, _⟩
      have := hn h2
      omega
  · constructor
    · intro h
      simp at h
    · rintro ⟨⟨_, _, a⟩, _⟩
      have := hr h3
      omega
  · constructor
    · intro h
      simp at h
    · rintro ⟨⟨_, _, a⟩, _⟩
      have := ht h4
      omega
  · constructor
    · intro h
      simp at h
    · rintro ⟨⟨_, _, a⟩, b⟩
      rcases h5 with h5 | h5 | h5 | h5
      · omega
      · exact absurd (Or.inl h5) b
      · exact absurd (Or.inr (Or.inl h5)) b
      · exact absurd (Or.inr (Or.inr (Or.inl h5))) b
  · constructor
    · intro h
      simp at h
    · rintro ⟨_, b⟩
      rcases h6 with h6 | h6
      · exact absurd (Or.inr (Or.inr (Or.inr (Or.inl h6)))) b
      · exact absurd (Or.inr (Or.inr (Or.inr (Or.inr h6)))) b
  · constructor
    · intro _
      push_neg at h1 h5 h6
      refine ⟨⟨h1.1, h1.2, h5.1⟩, ?_⟩
      rintro (a | a | a | a | a)
      · exact h5.2.1 a
      · exact h5.2.2.1 a
      · exact h5.2.2.2 a
      · exact h6.1 a
      · exact h6.2 a
    · intro _
      rfl

theorem noEscape_iff (s : String) : NoEscape s ↔ WrittenAsIs s := by
  unfold NoEscape WrittenAsIs NeedsNoEscape
  constructor
  · intro h
    exact ⟨fun c hc => ((escapeRune_eq_self c).1 (h c hc)).1,
      fun c hc => ((escapeRune_eq_self c).1 (h c hc)).2⟩
  · rintro ⟨h1, h2⟩ c hc
    exact (escapeRune_eq_self c).2 ⟨h1 c hc, h2 c hc⟩

/-- C19, as amended. An entry whose strings `json.Marshal` writes as they are, that is strings
that need no JSON escaping and have none of `<`, `>`, `&`, U+2028, U+2029, is persisted as the
text `{"proposal":{"proposalId":"<id>","proposalHandler":"<handler>"},"status":"<status>",`
`"hash":"<hash>","hashAlgorithm":"<alg>"}`, the fields in this order and no white space, and
decoding that text gives the entry back; these are the bytes a successful `createProposal`
stores under the key of the proposal, with status `PENDING`, and the bytes a successful
`confirmProposal` whose write is accepted stores, with status `CONFIRMED`. -/
theorem persisted_encoding :
    (∀ e : proposalEntry, WrittenAsIs e.Proposal.ProposalID → WrittenAsIs e.Proposal.Handler →
        WrittenAsIs e.Status → WrittenAsIs e.Hash → WrittenAsIs e.HashAlgorithm →
        marshalEntry e = entryText e ∧ unmarshalEntry (entryText e) = Except.ok e) ∧
      (∀ (stub : Stub) (a0 a1 a2 : String) (parsed : abstractProposal),
        unmarshalProposal a0 = Except.ok parsed →
        (createProposal stub [a0, a1, a2]).2 = Success none →
        WrittenAsIs parsed.ProposalID → WrittenAsIs parsed.Handler → WrittenAsIs a1 →
        (createProposal stub [a0, a1, a2]).1.State (proposalPrefix ++ parsed.ProposalID) =
          Except.ok (some (entryText
            { Proposal := parsed, Status := PendingStatus, Hash := a1, HashAlgorithm := a2 }))) ∧
      (∀ (rt : Runtime) (stub : Stub) (id p : String) (e0 : proposalEntry),
        stub.entryAt (proposalPrefix ++ id) = some e0 →
        (confirmProposal rt stub [id, p]).2 = Success none →
        stub.putErr (proposalPrefix ++ id)
          (marshalEntry { e0 with Status := ConfirmStatus }) = none →
        WrittenAsIs e0.Proposal.ProposalID → WrittenAsIs e0.Proposal.Handler →
        WrittenAsIs e0.Hash →
        (confirmProposal rt stub [id, p]).1.State (proposalPrefix ++ id) =
          Except.ok (some (entryText { e0 with Status := ConfirmStatus }))) :=
  ⟨fun e h1 h2 h3 h4 h5 =>
      persisted_encoding_noEscape.1 e ((noEscape_iff _).2 h1) ((noEscape_iff _).2 h2)
        ((noEscape_iff _).2 h3) ((noEscape_iff _).2 h4) ((noEscape_iff _).2 h5),
    fun stub a0 a1 a2 parsed hparse hok h1 h2 h4 =>
      persisted_encoding_noEscape.2.1 stub a0 a1 a2 parsed hparse hok ((noEscape_iff _).2 h1)
        ((noEscape_iff _).2 h2) ((noEscape_iff _).2 h4),
    fun rt stub id p e0 hentry hok hput h1 h2 h4 =>
      persisted_encoding_noEscape.2.2 rt stub id p e0 hentry hok hput ((noEscape_iff _).2 h1)
        ((noEscape_iff _).2 h2) ((noEscape_iff _).2 h4)⟩

theorem unmarshalConfirmedEvent_marshal (ev : ProposalConfirmedEventObject) :
    unmarshalConfirmedEvent (marshalConfirmedEvent ev) = Except.ok ev := by
  have h1 : fieldMatches "proposalId" "proposalId".data = true := by decide
  have h2 : fieldMatches "proposalId" "preImage".data = false := by decide
  have h3 : fieldMatches "preImage" "preImage".data = true := by decide
  simp only [unmarshalConfirmedEvent, parseJSON_marshalConfirmedEvent,
    decodeConfirmedEventMembers, setString, h1, h2, h3]
  simp

/-- The relay of a confirmation: when two stores hold, for the same id, entries with the same
hash and the same recognised algorithm, a `confirmProposal [id, p]` that succeeds on the second
store hands over an event whose payload decodes to `id` and `p`, the same call succeeds on the
first store, and when the first store accepts the write its entry gets status `CONFIRMED`. -/
theorem confirmProposal_relay (rt : Runtime) (a b : Stub) (id p : String)
    (ea eb : proposalEntry) (ha : a.entryAt (proposalPrefix ++ id) = some ea)
    (hb : b.entryAt (proposalPrefix ++ id) = some eb) (hhash : ea.Hash = eb.Hash)
    (halgs : ea.HashAlgorithm = eb.HashAlgorithm)
    (halg : eb.HashAlgorithm ∈ validHashingAlgorithms)
    (hok : (confirmProposal rt b [id, p]).2 = Success none) :
    (confirmProposal rt b [id, p]).1.Events =
        b.Events ++ [{ EventName := "PROPOSAL_CONFIRMED",
                       Payload := marshalConfirmedEvent { ProposalID := id, PreImage := p } }] ∧
      unmarshalConfirmedEvent (marshalConfirmedEvent { ProposalID := id, PreImage := p }) =
        Except.ok { ProposalID := id, PreImage := p } ∧
      (confirmProposal rt a [id, p]).2 = Success none ∧
      (a.putErr (proposalPrefix ++ id) (marshalEntry { ea with Status := ConfirmStatus }) = none →
        (confirmProposal rt a [id, p]).1.entryAt (proposalPrefix ++ id) =
          some { ea with Status := ConfirmStatus }) := by
  obtain ⟨bytesB, hbB, heB⟩ := (entryAt_eq_some b _ eb).1 hb
  obtain ⟨bytesA, hbA, heA⟩ := (entryAt_eq_some a _ ea).1 ha
  have heqB := confirmProposal_of_entry rt b id p bytesB eb hbB heB halg
  have hmatch : EncodeToString (digestOf rt eb.HashAlgorithm p) = ToLower rt eb.Hash := by
    by_contra hne
    rw [heqB] at hok
    simp only [hne, ne_eq, not_false_eq_true, if_true] at hok
    exact absurd hok.symm (Success_ne_Error none _)
  have heqA := confirmProposal_of_entry rt a id p bytesA ea hbA heA (halgs ▸ halg)
  rw [halgs, hhash] at heqA
  simp only [hmatch, ne_eq, not_true_eq_false, if_false] at heqA heqB
  have hokA : (confirmProposal rt a [id, p]).2 = Success none := by rw [heqA]
  refine ⟨?_, unmarshalConfirmedEvent_marshal _, hokA, ?_⟩
  · rw [heqB]
    simp [Stub.SetEvent, (afterConfirmWrite_frame b _ eb).1, ProposalConfirmedHandlerEvent]
  · intro hput
    obtain ⟨e, he, _, hw⟩ := confirmProposal_store rt a id p hokA
    rw [ha] at he
    injection he with he
    subst he
    exact hw hput
theorem marshalEntry_injective (e1 e2 : proposalEntry) (h : marshalEntry e1 = marshalEntry e2) :
    e1 = e2 := by
  have h1 := unmarshalEntry_marshalEntry e1
  rw [h, unmarshalEntry_marshalEntry e2] at h1
  injection h1 with h1
  exact h1.symm

/-- A create followed by the confirm with a pre-image that matches the hash, on a store that
accepts writes: both succeed and the key holds the entry of the create with status
`CONFIRMED`. -/
theorem create_confirm_entry (rt : Runtime) (stub : Stub) (a0 hash alg p : String)
    (parsed : abstractProposal) (hparse : unmarshalProposal a0 = Except.ok parsed)
    (hid : parsed.ProposalID ≠ "") (hh : parsed.Handler ≠ "")
    (halg : alg ∈ validHashingAlgorithms)
    (hm : EncodeToString (digestOf rt alg p) = ToLower rt hash) (hw : stub.AcceptsWrites) :
    (createProposal stub [a0, hash, alg]).2 = Success none ∧
      (confirmProposal rt (createProposal stub [a0, hash, alg]).1
        [parsed.ProposalID, p]).2 = Success none ∧
      (confirmProposal rt (createProposal stub [a0, hash, alg]).1
        [parsed.ProposalID, p]).1.State (proposalPrefix ++ parsed.ProposalID) =
        Except.ok (some (marshalEntry
          { Proposal := parsed, Status := ConfirmStatus, Hash := hash, HashAlgorithm := alg })) := by
  rw [createProposal_of_parsed stub a0 hash alg parsed hparse hid hh halg,
    PutState_accepts _ _ _ hw]
  refine ⟨rfl, ?_⟩
  simp only []
  rw [confirmProposal_of_entry rt _ parsed.ProposalID p
    (marshalEntry
      { Proposal := parsed, Status := PendingStatus, Hash := hash, HashAlgorithm := alg })
    { Proposal := parsed, Status := PendingStatus, Hash := hash, HashAlgorithm := alg }
    (by simp [Stub.SetEvent]) (unmarshalEntry_marshalEntry _) halg]
  simp only [hm, ne_eq, not_true_eq_false, if_false, true_and]
  have hw2 : ∀ k v, stub.putErr k v = none := hw
  simp [Stub.SetEvent, afterConfirmWrite, Stub.PutState, hw2]

/-- C18, as amended. In the relay scenario on ledgers that accept writes, with the same id,
hash and algorithm created with handler `Bob` on ledger A and with handler `Charlie` on ledger
B and confirmed on both with the pre-image, the record stored on A and the record stored on B
have the same `proposalId`, status `CONFIRMED`, hash and algorithm; A's record has handler
`Bob` and B's has handler `Charlie`, so the stored bytes differ. -/
theorem relay_records (rt : Runtime) (a b : Stub) (payloadA payloadB id hash alg p : String)
    (hA : unmarshalProposal payloadA = Except.ok { ProposalID := id, Handler := "Bob" })
    (hB : unmarshalProposal payloadB = Except.ok { ProposalID := id, Handler := "Charlie" })
    (hid : id ≠ "") (halg : alg ∈ validHashingAlgorithms)
    (hm : EncodeToString (digestOf rt alg p) = ToLower rt hash)
    (hwa : a.AcceptsWrites) (hwb : b.AcceptsWrites) :
    (confirmProposal rt (createProposal b [payloadB, hash, alg]).1 [id, p]).2 = Success none ∧
      (confirmProposal rt (createProposal a [payloadA, hash, alg]).1 [id, p]).2 =
        Success none ∧
      (confirmProposal rt (createProposal a [payloadA, hash, alg]).1 [id, p]).1.entryAt
          (proposalPrefix ++ id) =
        some { Proposal := { ProposalID := id, Handler := "Bob" }, Status := ConfirmStatus,
               Hash := hash, HashAlgorithm := alg } ∧
      (confirmProposal rt (createProposal b [payloadB, hash, alg]).1 [id, p]).1.entryAt
          (proposalPrefix ++ id) =
        some { Proposal := { ProposalID := id, Handler := "Charlie" }, Status := ConfirmStatus,
               Hash := hash, HashAlgorithm := alg } ∧
      (confirmProposal rt (createProposal a [payloadA, hash, alg]).1 [id, p]).1.State
          (proposalPrefix ++ id) ≠
        (confirmProposal rt (createProposal b [payloadB, hash, alg]).1 [id, p]).1.State
          (proposalPrefix ++ id) := by
  obtain ⟨_, hca, hsa⟩ := create_confirm_entry rt a payloadA hash alg p
    { ProposalID := id, Handler := "Bob" } hA hid (show "Bob" ≠ "" by decide) halg hm hwa
  obtain ⟨_, hcb, hsb⟩ := create_confirm_entry rt b payloadB hash alg p
    { ProposalID := id, Handler := "Charlie" } hB hid (show "Charlie" ≠ "" by decide) halg hm
    hwb
  refine ⟨hcb, hca, ?_, ?_, ?_⟩
  · simp [Stub.entryAt, Stub.GetState, hsa, unmarshalEntry_marshalEntry]
  · simp [Stub.entryAt, Stub.GetState, hsb, unmarshalEntry_marshalEntry]
  · rw [hsa, hsb]
    intro h
    injection h with h
    injection h with h
    have := marshalEntry_injective _ _ h
    simp at this
/-! ## Worked instances of the claims on invalidation, re-creation and relay -/

set_option maxRecDepth 100000 in
/-- C11 as stated fails on a store that refuses the delete: the entry is `PENDING`, and
`invalidateProposal` returns the error of the delete and leaves the entry in place. -/
theorem invalidateProposal_pending_refused :
    (keepAllStub pendingStub).entryAt (proposalPrefix ++ "prop1234") = some pendingEntry ∧
      pendingEntry.Status = PendingStatus ∧
      (invalidateProposal (keepAllStub pendingStub) ["prop1234"]).2 =
        Error "Error while deleting proposal from state." ∧
      (invalidateProposal (keepAllStub pendingStub) ["prop1234"]).2 ≠ Success none ∧
      (invalidateProposal (keepAllStub pendingStub) ["prop1234"]).1.entryAt
        (proposalPrefix ++ "prop1234") = some pendingEntry := by
  decide

set_option maxRecDepth 100000 in
/-- C11, as amended, on the store of the pending entry: after the invalidation the confirm with
the correct pre-image fails. -/
theorem invalidateProposal_pending_witness :
    pendingStub.entryAt (proposalPrefix ++ "prop1234") = some pendingEntry ∧
      pendingEntry.Status = PendingStatus ∧ pendingStub.AcceptsDeletes ∧
      (invalidateProposal pendingStub ["prop1234"]).2 = Success none ∧
      (confirmProposal testRuntime (invalidateProposal pendingStub ["prop1234"]).1
        ["prop1234", "test_hash"]).2 =
        Error "No such proposal. It may have expired and been invalidated." :=
  have h1 : pendingStub.entryAt (proposalPrefix ++ "prop1234") = some pendingEntry := by decide
  have h2 : pendingEntry.Status = PendingStatus := by decide
  have h3 : pendingStub.AcceptsDeletes := fun _ => rfl
  ⟨h1, h2, h3,
    (invalidateProposal_pending testRuntime pendingStub "prop1234" pendingEntry h1 h2 h3).1,
    congrArg Prod.snd
      ((invalidateProposal_pending testRuntime pendingStub "prop1234" pendingEntry h1 h2
        h3).2.2.2.2 "test_hash")⟩

set_option maxRecDepth 100000 in
/-- C12 on the store of the confirmed entry. -/
theorem invalidateProposal_not_pending_witness :
    confirmedStub.entryAt (proposalPrefix ++ "prop1234") = some confirmedEntry ∧
      confirmedEntry.Status ≠ PendingStatus ∧
      invalidateProposal confirmedStub ["prop1234"] =
        (confirmedStub, Error "Only pending proposals can be timed out.") :=
  have h1 : confirmedStub.entryAt (proposalPrefix ++ "prop1234") = some confirmedEntry := by
    decide
  have h2 : confirmedEntry.Status ≠ PendingStatus := by decide
  ⟨h1, h2, (invalidateProposal_not_pending confirmedStub "prop1234" confirmedEntry h1 h2).1⟩

set_option maxRecDepth 100000 in
/-- C13 as stated fails for `createProposal`: the store holds a `CONFIRMED` entry for
`prop1234`, the create of the tests for the same id succeeds, and the entry stored afterwards
has status `PENDING`. -/
theorem confirmed_overwritten_by_create :
    confirmedStub.entryAt (proposalPrefix ++ "prop1234") = some confirmedEntry ∧
      confirmedEntry.Status = ConfirmStatus ∧
      (createProposal confirmedStub [testProposal, "hash", "SHA512"]).2 = Success none ∧
      (createProposal confirmedStub [testProposal, "hash", "SHA512"]).1.entryAt
          (proposalPrefix ++ "prop1234") =
        some { Proposal := { ProposalID := "prop1234", Handler := "Bob" },
               Status := PendingStatus, Hash := "hash", HashAlgorithm := "SHA512" } ∧
      PendingStatus ≠ ConfirmStatus := by
  decide

set_option maxRecDepth 100000 in
/-- C13, as amended, on the store of the confirmed entry: a confirm with the correct pre-image
and an invalidation leave the entry as it is. -/
theorem confirmed_is_terminal_witness :
    confirmedStub.entryAt (proposalPrefix ++ "prop1234") = some confirmedEntry ∧
      confirmedEntry.Status = ConfirmStatus ∧
      (confirmProposal testRuntime confirmedStub ["prop1234", "test_hash"]).1.entryAt
        (proposalPrefix ++ "prop1234") = some confirmedEntry ∧
      (invalidateProposal confirmedStub ["prop1234"]).1.entryAt
        (proposalPrefix ++ "prop1234") = some confirmedEntry :=
  have h1 : confirmedStub.entryAt (proposalPrefix ++ "prop1234") = some confirmedEntry := by
    decide
  have h2 : confirmedEntry.Status = ConfirmStatus := by decide
  ⟨h1, h2,
    (confirmed_is_terminal testRuntime confirmedStub "prop1234" confirmedEntry h1 h2
      ["prop1234", "test_hash"]).1,
    (confirmed_is_terminal testRuntime confirmedStub "prop1234" confirmedEntry h1 h2
      ["prop1234"]).2.1⟩

set_option maxRecDepth 100000 in
/-- The create over an entry on a store that refuses writes, as text: the store holds an entry
for `prop1234`, the create is valid, and it returns the error of the write and replaces
nothing. -/
theorem createProposal_overwrites_refused :
    (readOnlyStub confirmedStub).entryAt (proposalPrefix ++ "prop1234") = some confirmedEntry ∧
      unmarshalProposal testProposal =
        Except.ok { ProposalID := "prop1234", Handler := "Bob" } ∧
      "SHA512" ∈ validHashingAlgorithms ∧
      (createProposal (readOnlyStub confirmedStub) [testProposal, "hash", "SHA512"]).2 =
        Error "Error writing proposal to state - write refused" ∧
      (createProposal (readOnlyStub confirmedStub) [testProposal, "hash", "SHA512"]).2 ≠
        Success none ∧
      (createProposal (readOnlyStub confirmedStub)
        [testProposal, "hash", "SHA512"]).1.entryAt (proposalPrefix ++ "prop1234") =
        some confirmedEntry := by
  decide

set_option maxRecDepth 100000 in
/-- The create of the tests on the store of the confirmed entry, as text: it replaces the
entry by a `PENDING` one with the hash and algorithm of the call. -/
theorem createProposal_overwrites_witness :
    confirmedStub.entryAt (proposalPrefix ++ "prop1234") = some confirmedEntry ∧
      confirmedStub.AcceptsWrites ∧
      (createProposal confirmedStub [testProposal, "hash", "SHA512"]).1.entryAt
          (proposalPrefix ++ "prop1234") =
        some { Proposal := { ProposalID := "prop1234", Handler := "Bob" },
               Status := PendingStatus, Hash := "hash", HashAlgorithm := "SHA512" } :=
  have h1 : confirmedStub.entryAt (proposalPrefix ++ "prop1234") = some confirmedEntry := by
    decide
  have h2 : confirmedStub.AcceptsWrites := fun _ _ => rfl
  ⟨h1, h2,
    (createProposal_overwrites confirmedStub testProposal "hash" "SHA512"
      { ProposalID := "prop1234", Handler := "Bob" } confirmedEntry h1 (by decide) (by decide)
      (by decide) (by decide) h2).2⟩

set_option maxRecDepth 100000 in
/-- C16 on the store of the confirmed entry: the confirm succeeds again, the store is the same
and the event is handed over. -/
theorem confirmProposal_again_witness :
    confirmedStub.entryAt (proposalPrefix ++ "prop1234") = some confirmedEntry ∧
      (confirmProposal testRuntime confirmedStub ["prop1234", "test_hash"]).2 = Success none ∧
      (confirmProposal testRuntime confirmedStub ["prop1234", "test_hash"]).1.State =
        confirmedStub.State ∧
      (confirmProposal testRuntime confirmedStub ["prop1234", "test_hash"]).1.Events =
        [{ EventName := "PROPOSAL_CONFIRMED",
           Payload := "\x7b\"proposalId\":\"prop1234\",\"preImage\":\"test_hash\"\x7d" }] :=
  have h1 : confirmedStub.entryAt (proposalPrefix ++ "prop1234") = some confirmedEntry := by
    decide
  have h := confirmProposal_again testRuntime confirmedStub "prop1234" "test_hash"
    confirmedEntry h1 (by decide) (by decide) (by decide)
  ⟨h1, h.1, h.2.2.2.1 (by decide), by decide⟩
set_option maxRecDepth 100000 in
/-- C17 fails when ledger A refuses the write: both ledgers hold a `PENDING` entry for
`prop1234` with the same hash and algorithm, the confirm on B succeeds and its event carries the
pre-image `test_hash`, the confirm on A with that pre-image succeeds, and the entry of A is
still the `PENDING` one. -/
theorem relay_ignores_refused_write :
    (readOnlyStub pendingStub).entryAt (proposalPrefix ++ "prop1234") = some pendingEntry ∧
      charlieStub.entryAt (proposalPrefix ++ "prop1234") = some charlieEntry ∧
      pendingEntry.Hash = charlieEntry.Hash ∧
      pendingEntry.HashAlgorithm = charlieEntry.HashAlgorithm ∧
      charlieEntry.HashAlgorithm ∈ validHashingAlgorithms ∧
      (confirmProposal testRuntime charlieStub ["prop1234", "test_hash"]).2 = Success none ∧
      (confirmProposal testRuntime charlieStub ["prop1234", "test_hash"]).1.Events.map
          (fun ev => unmarshalConfirmedEvent ev.Payload) =
        [Except.ok { ProposalID := "prop1234", PreImage := "test_hash" }] ∧
      (confirmProposal testRuntime (readOnlyStub pendingStub)
        ["prop1234", "test_hash"]).2 = Success none ∧
      (confirmProposal testRuntime (readOnlyStub pendingStub)
        ["prop1234", "test_hash"]).1.entryAt (proposalPrefix ++ "prop1234") =
        some pendingEntry ∧
      pendingEntry.Status = PendingStatus ∧ PendingStatus ≠ ConfirmStatus := by
  decide

set_option maxRecDepth 100000 in
/-- C18 as stated fails on the cross-channel test: after the two creates and the two confirms
the record of channel one has handler `Bob` and the record of channel two has handler
`Charlie`, so the two records are not identical. -/
theorem relay_records_differ :
    (confirmProposal testRuntime
        (createProposal emptyStub [testProposal, testHash512, "SHA512"]).1
        ["prop1234", "test_hash"]).1.GetState (proposalPrefix ++ "prop1234") =
        Except.ok (some ("\x7b\"proposal\":\x7b\"proposalId\":\"prop1234\",\"proposalHandler\":\"Bob\"\x7d,"
          ++ "\"status\":\"CONFIRMED\",\"hash\":\"" ++ testHash512
          ++ "\",\"hashAlgorithm\":\"SHA512\"\x7d")) ∧
      (confirmProposal testRuntime
        (createProposal emptyStub [testProposalCharlie, testHash512, "SHA512"]).1
        ["prop1234", "test_hash"]).1.GetState (proposalPrefix ++ "prop1234") =
        Except.ok (some ("\x7b\"proposal\":\x7b\"proposalId\":\"prop1234\",\"proposalHandler\":\"Charlie\"\x7d,"
          ++ "\"status\":\"CONFIRMED\",\"hash\":\"" ++ testHash512
          ++ "\",\"hashAlgorithm\":\"SHA512\"\x7d")) ∧
      (confirmProposal testRuntime
        (createProposal emptyStub [testProposal, testHash512, "SHA512"]).1
        ["prop1234", "test_hash"]).1.GetState (proposalPrefix ++ "prop1234") ≠
      (confirmProposal testRuntime
        (createProposal emptyStub [testProposalCharlie, testHash512, "SHA512"]).1
        ["prop1234", "test_hash"]).1.GetState (proposalPrefix ++ "prop1234") := by
  decide

set_option maxRecDepth 100000 in
/-- C18, as amended, on the cross-channel test. -/
theorem relay_records_witness :
    unmarshalProposal testProposal =
        Except.ok { ProposalID := "prop1234", Handler := "Bob" } ∧
      unmarshalProposal testProposalCharlie =
        Except.ok { ProposalID := "prop1234", Handler := "Charlie" } ∧
      EncodeToString (digestOf testRuntime "SHA512" "test_hash") =
        ToLower testRuntime testHash512 ∧
      (confirmProposal testRuntime
        (createProposal emptyStub [testProposal, testHash512, "SHA512"]).1
        ["prop1234", "test_hash"]).1.entryAt (proposalPrefix ++ "prop1234") =
        some { Proposal := { ProposalID := "prop1234", Handler := "Bob" },
               Status := ConfirmStatus, Hash := testHash512, HashAlgorithm := "SHA512" } :=
  have h1 : unmarshalProposal testProposal =
      Except.ok { ProposalID := "prop1234", Handler := "Bob" } := by decide
  have h2 : unmarshalProposal testProposalCharlie =
      Except.ok { ProposalID := "prop1234", Handler := "Charlie" } := by decide
  have h3 : EncodeToString (digestOf testRuntime "SHA512" "test_hash") =
      ToLower testRuntime testHash512 := by decide
  ⟨h1, h2, h3,
    (relay_records testRuntime emptyStub emptyStub testProposal testProposalCharlie "prop1234"
      testHash512 "SHA512" "test_hash" h1 h2 (by decide) (by decide) h3 (fun _ _ => rfl)
      (fun _ _ => rfl)).2.2.1⟩

set_option maxRecDepth 100000 in
/-- C19 as stated fails for a handler with the character `&`: none of the strings of the entry
needs JSON escaping, the create succeeds, and the bytes stored have the handler as
`B\u0026b`, so they are not the text of the claim with the handler `B&b` in it. -/
theorem persisted_encoding_html_escaped :
    unmarshalProposal testProposalAmp =
        Except.ok { ProposalID := "prop1234", Handler := "B&b" } ∧
      NeedsNoEscape "prop1234" ∧ NeedsNoEscape "B&b" ∧ NeedsNoEscape PendingStatus ∧
      NeedsNoEscape "hash" ∧ NeedsNoEscape "SHA512" ∧
      (createProposal emptyStub [testProposalAmp, "hash", "SHA512"]).2 = Success none ∧
      (createProposal emptyStub [testProposalAmp, "hash", "SHA512"]).1.State
          "_proposal_prop1234" =
        Except.ok (some
          ("\x7b\"proposal\":\x7b\"proposalId\":\"prop1234\",\"proposalHandler\":\"B\\u0026b\"\x7d,"
            ++ "\"status\":\"PENDING\",\"hash\":\"hash\",\"hashAlgorithm\":\"SHA512\"\x7d")) ∧
      entryText
          { Proposal := { ProposalID := "prop1234", Handler := "B&b" }, Status := "PENDING",
            Hash := "hash", HashAlgorithm := "SHA512" } =
        "\x7b\"proposal\":\x7b\"proposalId\":\"prop1234\",\"proposalHandler\":\"B&b\"\x7d,"
          ++ "\"status\":\"PENDING\",\"hash\":\"hash\",\"hashAlgorithm\":\"SHA512\"\x7d" ∧
      (createProposal emptyStub [testProposalAmp, "hash", "SHA512"]).1.State
          "_proposal_prop1234" ≠
        Except.ok (some (entryText
          { Proposal := { ProposalID := "prop1234", Handler := "B&b" }, Status := "PENDING",
            Hash := "hash", HashAlgorithm := "SHA512" })) := by
  decide

set_option maxRecDepth 100000 in
/-- C19, as amended, on the entry of the tests: the bytes are the text the test expects. -/
theorem persisted_encoding_witness :
    WrittenAsIs "prop1234" ∧ WrittenAsIs "Bob" ∧ WrittenAsIs "PENDING" ∧ WrittenAsIs "hash" ∧
      WrittenAsIs "SHA512" ∧
      marshalEntry
        { Proposal := { ProposalID := "prop1234", Handler := "Bob" }, Status := "PENDING",
          Hash := "hash", HashAlgorithm := "SHA512" } =
      "\x7b\"proposal\":\x7b\"proposalId\":\"prop1234\",\"proposalHandler\":\"Bob\"\x7d,"
        ++ "\"status\":\"PENDING\",\"hash\":\"hash\",\"hashAlgorithm\":\"SHA512\"\x7d" :=
  have h1 : WrittenAsIs "prop1234" := by decide
  have h2 : WrittenAsIs "Bob" := by decide
  have h3 : WrittenAsIs "PENDING" := by decide
  have h4 : WrittenAsIs "hash" := by decide
  have h5 : WrittenAsIs "SHA512" := by decide
  ⟨h1, h2, h3, h4, h5,
    (persisted_encoding.1
      { Proposal := { ProposalID := "prop1234", Handler := "Bob" }, Status := "PENDING",
        Hash := "hash", HashAlgorithm := "SHA512" } h1 h2 h3 h4 h5).1.trans (by decide)⟩

/-- C20 on the calls of the two arity tests and on an invalidation without arguments. -/
theorem arity_gate_witness :
    createProposal emptyStub [testProposal, "hash"] =
        (emptyStub,
          Error "Invalid arguments to createProposal, expected proposal, hash, hashingAlg.") ∧
      confirmProposal testRuntime emptyStub ["test_id"] =
        (emptyStub,
          Error "Invalid arguments to confirmProposal, expected proposalId, pre-image.") ∧
      invalidateProposal emptyStub [] =
        (emptyStub, Error "Invalid arguments to invalidateProposal, expected proposalId") :=
  ⟨(arity_gate testRuntime emptyStub [testProposal, "hash"]).1 (by decide),
    (arity_gate testRuntime emptyStub ["test_id"]).2.1 (by decide),
    (arity_gate testRuntime emptyStub []).2.2 (by decide)⟩

/-! ## Stores reached by sequences of invocations -/

theorem wellFormed_empty (stub : Stub) (h : stub.IsEmpty) : stub.WellFormed :=
  fun key => Or.inl (h key)

theorem wellFormed_createProposal (stub : Stub) (args : List String) (h : stub.WellFormed) :
    (createProposal stub args).1.WellFormed := by
  rcases createProposal_cases stub args with
    ⟨h1, _⟩ | ⟨a0, a1, a2, parsed, stub1, _, halg, _, hid, hh, hput, heq⟩
  · rw [h1]; exact h
  · intro key
    rw [heq, PutState_ok _ _ _ _ hput]
    by_cases hk : key = proposalPrefix ++ parsed.ProposalID
    · right
      refine ⟨parsed.ProposalID,
        { Proposal := parsed, Status := PendingStatus, Hash := a1, HashAlgorithm := a2 },
        hk, ?_, rfl, hid, hh, Or.inl rfl, ?_⟩
      · simp [Stub.SetEvent, hk]
      · exact (mem_valid_iff a2).2 ((validAlg_iff a2).1 halg)
    · have : ((({ stub with
          State := fun k =>
            if k = proposalPrefix ++ parsed.ProposalID then
              Except.ok (some (marshalEntry
                { Proposal := parsed, Status := PendingStatus, Hash := a1, HashAlgorithm := a2 }))
            else stub.State k } : Stub).SetEvent (parsed.Handler ++ ProposalCreatedHandlerEvent)
            (marshalCreatedEvent ⟨parsed.ProposalID⟩)).1.SetEvent ProposalCreateTimeoutEvent
            (marshalCreatedEvent ⟨parsed.ProposalID⟩)).1.State key = stub.State key := by
        simp [Stub.SetEvent, hk]
      rw [this]
      exact h key

theorem wellFormed_confirmProposal (rt : Runtime) (stub : Stub) (args : List String)
    (h : stub.WellFormed) : (confirmProposal rt stub args).1.WellFormed := by
  rcases confirmProposal_cases rt stub args with
    ⟨h1, _⟩ | ⟨id, p, bytes, e, sum, _, hb, he, _, _, heq⟩
  · rw [h1]; exact h
  · rw [heq]
    intro key
    show (afterConfirmWrite stub (proposalPrefix ++ id) e).State key = _ ∨ _
    cases hp : stub.putErr (proposalPrefix ++ id) (marshalEntry { e with Status := ConfirmStatus }) with
    | some err =>
      rw [afterConfirmWrite_refused _ _ err _ hp]
      exact h key
    | none =>
      rw [afterConfirmWrite_accepted _ _ _ hp]
      by_cases hk : key = proposalPrefix ++ id
      · right
        rcases h (proposalPrefix ++ id) with h0 | ⟨id1, e1, hkey, hst, hid, hne, hh, _, halg⟩
        · rw [hb] at h0; cases h0
        · have hid1 : id = id1 := proposalPrefix_inj _ _ hkey
          rw [hb] at hst
          injection hst with hst
          injection hst with hst
          subst hst
          rw [unmarshalEntry_marshalEntry] at he
          injection he with he
          subst he
          subst hid1
          refine ⟨id, { e1 with Status := ConfirmStatus }, hk, ?_, hid, hne, hh,
            Or.inr rfl, halg⟩
          simp [Stub.SetEvent, hk]
      · simp only [Stub.SetEvent, hk, if_false]
        exact h key

theorem wellFormed_invalidateProposal (stub : Stub) (args : List String) (h : stub.WellFormed) :
    (invalidateProposal stub args).1.WellFormed := by
  rcases invalidateProposal_cases stub args with
    ⟨h1, _⟩ | ⟨id, bytes, e, stub1, _, _, _, _, hdel, heq⟩
  · rw [h1]; exact h
  · rw [heq]
    intro key
    unfold Stub.DelState at hdel
    split at hdel
    · cases hdel
    · injection hdel with hdel
      subst hdel
      by_cases hk : key = proposalPrefix ++ id
      · left; simp [hk]
      · simp only [hk, if_false]
        exact h key

theorem wellFormed_Invoke (rt : Runtime) (stub : Stub) (function : String) (args : List String)
    (h : stub.WellFormed) : (Invoke rt stub function args).1.WellFormed := by
  unfold Invoke
  split
  · exact wellFormed_createProposal stub args h
  · split
    · exact wellFormed_confirmProposal rt stub args h
    · split
      · exact wellFormed_invalidateProposal stub args h
      · exact h

theorem wellFormed_run (rt : Runtime) (calls : List (String × List String)) (stub : Stub)
    (h : stub.WellFormed) : (run rt stub calls).WellFormed := by
  induction calls generalizing stub with
  | nil => exact h
  | cons call rest ih => exact ih _ (wellFormed_Invoke rt stub call.1 call.2 h)

theorem wellFormed_entryAt (stub : Stub) (key : String) (e : proposalEntry) (h : stub.WellFormed)
    (he : stub.entryAt key = some e) :
    ∃ id, key = proposalPrefix ++ id ∧ stub.State key = Except.ok (some (marshalEntry e)) ∧
      e.Proposal.ProposalID = id ∧ id ≠ "" ∧ e.Proposal.Handler ≠ "" ∧
      (e.Status = PendingStatus ∨ e.Status = ConfirmStatus) ∧
      e.HashAlgorithm ∈ validHashingAlgorithms := by
  obtain ⟨bytes, hb, hu⟩ := (entryAt_eq_some stub key e).1 he
  rcases h key with h0 | ⟨id, e1, hkey, hst, hrest⟩
  · rw [hb] at h0; cases h0
  · rw [hb] at hst
    injection hst with hst
    injection hst with hst
    subst hst
    rw [unmarshalEntry_marshalEntry] at hu
    injection hu with hu
    subst hu
    exact ⟨id, hkey, hb, hrest⟩

theorem Invoke_three (rt : Runtime) (stub : Stub) (args : List String) :
    Invoke rt stub "createProposal" args = createProposal stub args ∧
      Invoke rt stub "confirmProposal" args = confirmProposal rt stub args ∧
      Invoke rt stub "invalidateProposal" args = invalidateProposal stub args := by
  simp [Invoke]

theorem hasherSum_eq_some (rt : Runtime) (alg p : String) (sum : List Nat)
    (h : hasherSum rt alg p = some sum) :
    alg ∈ validHashingAlgorithms ∧ sum = digestOf rt alg p := by
  by_cases halg : alg ∈ validHashingAlgorithms
  · rw [hasherSum_valid rt alg p halg] at h
    injection h with h
    exact ⟨halg, h.symm⟩
  · rw [hasherSum_invalid rt alg p halg] at h
    cases h

theorem confirmProposal_wellFormed_ne (rt : Runtime) (stub : Stub) (args : List String)
    (h : stub.WellFormed) :
    (confirmProposal rt stub args).2 ≠
      Error "The hash algorithm which was recorded in the proposal is not supported." := by
  rcases args with _ | ⟨id, _ | ⟨p, _ | ⟨c, rest⟩⟩⟩
  · simp only [confirmProposal]; decide
  · simp only [confirmProposal]; decide
  · rcases h (proposalPrefix ++ id) with h0 | ⟨id1, e, _, hst, _, _, _, _, halg⟩
    · simp only [confirmProposal, Stub.GetState, h0]; decide
    · rw [confirmProposal_of_entry rt stub id p _ e hst (unmarshalEntry_marshalEntry e) halg]
      split
      · show Error _ ≠ Error _
        decide
      · show Success none ≠ Error _
        decide
  · simp only [confirmProposal]; decide

/-- C23. In every store reached from an empty store by a finite sequence of invocations, with
any function names and any arguments, every entry held has one of the three algorithms
`SHA256`, `SHA384`, `SHA512`, and `confirmProposal` with any arguments does not return the error
"The hash algorithm which was recorded in the proposal is not supported.". -/
theorem unsupported_unreachable (rt : Runtime) (stub : Stub)
    (calls : List (String × List String)) (hempty : stub.IsEmpty) :
    (∀ key e, (run rt stub calls).entryAt key = some e →
        e.HashAlgorithm ∈ validHashingAlgorithms) ∧
      ∀ args, (confirmProposal rt (run rt stub calls) args).2 ≠
        Error "The hash algorithm which was recorded in the proposal is not supported." := by
  have hw := wellFormed_run rt calls stub (wellFormed_empty stub hempty)
  refine ⟨?_, fun args => confirmProposal_wellFormed_ne rt _ args hw⟩
  intro key e he
  obtain ⟨_, _, _, _, _, _, _, halg⟩ := wellFormed_entryAt _ key e hw he
  exact halg

/-- C27. In every store reached from an empty store by a finite sequence of invocations, with
any function names and any arguments, every key that has a value is the prefix `_proposal_`
followed by an id, and the entry held under it has that id as proposal id, a non-empty id, a
non-empty handler and the status `PENDING` or `CONFIRMED`. A `confirmProposal` that succeeds on
such a store was called with an id and a pre-image, the entry held for the id records that same
id, and the one event it hands over is `PROPOSAL_CONFIRMED` with a payload that decodes to the
recorded id and the pre-image. -/
theorem reachable_well_formed (rt : Runtime) (stub : Stub)
    (calls : List (String × List String)) (hempty : stub.IsEmpty) :
    (∀ key bytes, (run rt stub calls).State key = Except.ok (some bytes) →
        ∃ id e, key = proposalPrefix ++ id ∧ (run rt stub calls).entryAt key = some e ∧
          e.Proposal.ProposalID = id ∧ id ≠ "" ∧ e.Proposal.Handler ≠ "" ∧
          (e.Status = "PENDING" ∨ e.Status = "CONFIRMED")) ∧
      ∀ args, (confirmProposal rt (run rt stub calls) args).2 = Success none →
        ∃ id p e, args = [id, p] ∧
          (run rt stub calls).entryAt (proposalPrefix ++ id) = some e ∧
          e.Proposal.ProposalID = id ∧
          (confirmProposal rt (run rt stub calls) args).1.Events =
            (run rt stub calls).Events ++
              [{ EventName := "PROPOSAL_CONFIRMED"
                 Payload := marshalConfirmedEvent { ProposalID := id, PreImage := p } }] ∧
          unmarshalConfirmedEvent (marshalConfirmedEvent { ProposalID := id, PreImage := p }) =
            Except.ok { ProposalID := e.Proposal.ProposalID, PreImage := p } := by
  have hw := wellFormed_run rt calls stub (wellFormed_empty stub hempty)
  refine ⟨?_, ?_⟩
  · intro key bytes hb
    rcases hw key with h0 | ⟨id, e, hkey, hst, hid, hne, hh, hstatus, _⟩
    · rw [hb] at h0; cases h0
    · refine ⟨id, e, hkey, ?_, hid, hne, hh, hstatus⟩
      simp [Stub.entryAt, Stub.GetState, hst, unmarshalEntry_marshalEntry]
  · intro args hok
    rcases confirmProposal_cases rt (run rt stub calls) args with
      ⟨_, herr⟩ | ⟨id, p, bytes, e, sum, hargs, hb, he, _, _, heq⟩
    · rw [hok] at herr
      exact absurd herr (not_isError_Success none)
    · have hentry : (run rt stub calls).entryAt (proposalPrefix ++ id) = some e :=
        (entryAt_eq_some _ _ e).2 ⟨bytes, hb, he⟩
      obtain ⟨id1, hkey, _, hid, _⟩ := wellFormed_entryAt _ _ e hw hentry
      have hid1 : e.Proposal.ProposalID = id := by
        rw [hid]; exact (proposalPrefix_inj _ _ hkey).symm
      refine ⟨id, p, e, hargs, hentry, hid1, ?_, ?_⟩
      · rw [heq]
        show (afterConfirmWrite _ _ e).Events ++ _ = _
        rw [(afterConfirmWrite_frame _ _ e).1]
        rfl
      · rw [unmarshalConfirmedEvent_marshal, hid1]

theorem createProposal_no_confirmed (stub : Stub) (args : List String) (key : String)
    (e1 : proposalEntry) (h : (createProposal stub args).1.entryAt key = some e1)
    (hst : e1.Status = ConfirmStatus) : stub.entryAt key = some e1 := by
  rcases createProposal_other_key stub args key with hs | ⟨a0, a1, a2, parsed, _, _, _, _, hs⟩
  · rw [← entryAt_congr _ stub key hs]
    exact h
  · have he := entryAt_unique _ key _ e1 _ h hs (unmarshalEntry_marshalEntry _)
    rw [← he] at hst
    exact absurd hst (show PendingStatus ≠ ConfirmStatus by decide)

theorem invalidateProposal_no_confirmed (stub : Stub) (args : List String) (key : String)
    (e1 : proposalEntry) (h : (invalidateProposal stub args).1.entryAt key = some e1) :
    stub.entryAt key = some e1 := by
  rcases invalidateProposal_cases stub args with
    ⟨h1, _⟩ | ⟨id, bytes, e, stub1, _, _, _, _, hdel, heq⟩
  · rw [h1] at h; exact h
  · rw [heq] at h
    unfold Stub.DelState at hdel
    split at hdel
    · cases hdel
    · injection hdel with hdel
      subst hdel
      by_cases hk : key = proposalPrefix ++ id
      · simp [Stub.entryAt, Stub.GetState, hk] at h
      · rw [← h]
        apply entryAt_congr
        simp [hk]

theorem confirmProposal_frame (rt : Runtime) (stub : Stub) (args : List String) (key : String) :
    (confirmProposal rt stub args).1.State key = stub.State key ∨
      ∃ id p, args = [id, p] ∧ key = proposalPrefix ++ id := by
  rcases confirmProposal_cases rt stub args with
    ⟨h1, _⟩ | ⟨id, p, bytes, e, sum, hargs, _, _, _, _, heq⟩
  · left; rw [h1]
  · by_cases hk : key = proposalPrefix ++ id
    · exact Or.inr ⟨id, p, hargs, hk⟩
    · left
      rw [heq]
      exact (afterConfirmWrite_frame stub _ e).2.2.2.2 key hk

/-- C26. A `createProposal` or an `invalidateProposal` never produces a `CONFIRMED` entry: an
entry with status `CONFIRMED` held under a key after the call was held there, the same, before
it. When a key holds no entry with status `CONFIRMED` before a `confirmProposal` and holds one
after it, the call was `confirmProposal [id, p]` with the key that of `id`, it succeeded, the
entry held for `id` before the call records one of the three algorithms, the lowercase
hexadecimal digest of `p` under that algorithm equals the recorded hash in lower case, and the
entry held after the call is that entry with status `CONFIRMED`. A `confirmProposal` leaves what
every key other than that of its own id argument reads as it was. -/
theorem confirmed_only_by_preimage (rt : Runtime) (stub : Stub) :
    (∀ args key e1, (createProposal stub args).1.entryAt key = some e1 →
        e1.Status = ConfirmStatus → stub.entryAt key = some e1) ∧
      (∀ args key e1, (invalidateProposal stub args).1.entryAt key = some e1 →
        e1.Status = ConfirmStatus → stub.entryAt key = some e1) ∧
      (∀ args key e1,
        (∀ e, stub.entryAt key = some e → e.Status ≠ ConfirmStatus) →
        (confirmProposal rt stub args).1.entryAt key = some e1 → e1.Status = ConfirmStatus →
        ∃ id p e, args = [id, p] ∧ key = proposalPrefix ++ id ∧
          (confirmProposal rt stub args).2 = Success none ∧
          stub.entryAt key = some e ∧ e.HashAlgorithm ∈ validHashingAlgorithms ∧
          EncodeToString (digestOf rt e.HashAlgorithm p) = ToLower rt e.Hash ∧
          e1 = { e with Status := ConfirmStatus }) ∧
      ∀ args key, (∀ id p, args = [id, p] → key ≠ proposalPrefix ++ id) →
        (confirmProposal rt stub args).1.State key = stub.State key ∧
          (confirmProposal rt stub args).1.entryAt key = stub.entryAt key := by
  refine ⟨fun args key e1 h hst => createProposal_no_confirmed stub args key e1 h hst,
    fun args key e1 h _ => invalidateProposal_no_confirmed stub args key e1 h, ?_, ?_⟩
  · intro args key e1 hbefore hafter hst
    rcases confirmProposal_cases rt stub args with
      ⟨h1, _⟩ | ⟨id, p, bytes, e, sum, hargs, hb, he, hsum, hhex, heq⟩
    · rw [h1] at hafter
      exact absurd hst (hbefore e1 hafter)
    · by_cases hk : key = proposalPrefix ++ id
      · subst hk
        have hentry : stub.entryAt (proposalPrefix ++ id) = some e :=
          (entryAt_eq_some _ _ e).2 ⟨bytes, hb, he⟩
        obtain ⟨halg, hs⟩ := hasherSum_eq_some rt _ p sum hsum
        refine ⟨id, p, e, hargs, rfl, by rw [heq], hentry, halg, by rw [← hs]; exact hhex, ?_⟩
        rw [heq, entryAt_SetEvent] at hafter
        cases hp : stub.putErr (proposalPrefix ++ id)
            (marshalEntry { e with Status := ConfirmStatus }) with
        | some err =>
          rw [afterConfirmWrite_refused _ _ err _ hp] at hafter
          exact absurd hst (hbefore e1 hafter)
        | none =>
          rw [afterConfirmWrite_accepted _ _ _ hp] at hafter
          simp [Stub.entryAt, Stub.GetState, unmarshalEntry_marshalEntry] at hafter
          exact hafter.symm
      · have hs : (confirmProposal rt stub args).1.State key = stub.State key := by
          rw [heq]
          exact (afterConfirmWrite_frame stub _ e).2.2.2.2 key hk
        rw [entryAt_congr _ stub key hs] at hafter
        exact absurd hst (hbefore e1 hafter)
  · intro args key hother
    have hs : (confirmProposal rt stub args).1.State key = stub.State key := by
      rcases confirmProposal_frame rt stub args key with h | ⟨id, p, hargs, hk⟩
      · exact h
      · exact absurd hk (hother id p hargs)
    exact ⟨hs, entryAt_congr _ stub key hs⟩

/-- C24. When the store holds an entry for `id` whose recorded algorithm is none of `SHA256`,
`SHA384`, `SHA512`, then for every pre-image, whatever the recorded hash,
`confirmProposal [id, p]` leaves the stub as it was and returns the error "The hash algorithm
which was recorded in the proposal is not supported.", which is not the error "Invalid Pre-image
supplied.". -/
theorem confirmProposal_unsupported (rt : Runtime) (stub : Stub) (id p : String)
    (e : proposalEntry) (hentry : stub.entryAt (proposalPrefix ++ id) = some e)
    (halg : e.HashAlgorithm ∉ validHashingAlgorithms) :
    confirmProposal rt stub [id, p] =
        (stub, Error "The hash algorithm which was recorded in the proposal is not supported.") ∧
      (confirmProposal rt stub [id, p]).2 ≠ Error "Invalid Pre-image supplied." ∧
      Error "The hash algorithm which was recorded in the proposal is not supported." ≠
        Error "Invalid Pre-image supplied." := by
  obtain ⟨bytes, hb, he⟩ := (entryAt_eq_some stub _ e).1 hentry
  have h : confirmProposal rt stub [id, p] =
      (stub, Error "The hash algorithm which was recorded in the proposal is not supported.") := by
    simp only [confirmProposal, Stub.GetState, hb, he, hasherSum_invalid rt _ p halg]
  refine ⟨h, ?_, by decide⟩
  rw [h]
  show Error _ ≠ Error _
  decide

/-- C25. For a valid `createProposal` call whose write is accepted, when the transport reports
an error for either of the two creation events, the call still returns success and the store
holds, under the key of the id, the `PENDING` entry of the call. -/
theorem createProposal_event_failure (stub : Stub) (a0 a1 a2 : String)
    (parsed : abstractProposal) (hparse : unmarshalProposal a0 = Except.ok parsed)
    (hid : parsed.ProposalID ≠ "") (hh : parsed.Handler ≠ "")
    (halg : a2 ∈ validHashingAlgorithms)
    (hput : stub.putErr (proposalPrefix ++ parsed.ProposalID)
      (marshalEntry
        { Proposal := parsed, Status := PendingStatus, Hash := a1, HashAlgorithm := a2 }) = none)
    (_fails :
      stub.eventErr (parsed.Handler ++ "_PROPOSAL_CREATED")
          (marshalCreatedEvent { ProposalID := parsed.ProposalID }) ≠ none ∨
        stub.eventErr "PROPOSAL_CREATED"
          (marshalCreatedEvent { ProposalID := parsed.ProposalID }) ≠ none) :
    (createProposal stub [a0, a1, a2]).2 = Success none ∧
      (createProposal stub [a0, a1, a2]).1.State (proposalPrefix ++ parsed.ProposalID) =
        Except.ok (some (marshalEntry
          { Proposal := parsed, Status := "PENDING", Hash := a1, HashAlgorithm := a2 })) ∧
      (createProposal stub [a0, a1, a2]).1.entryAt (proposalPrefix ++ parsed.ProposalID) =
        some { Proposal := parsed, Status := "PENDING", Hash := a1, HashAlgorithm := a2 } := by
  have h := createProposal_of_parsed stub a0 a1 a2 parsed hparse hid hh halg
  simp only [Stub.PutState, hput] at h
  rw [h]
  refine ⟨rfl, ?_, ?_⟩
  · simp [Stub.SetEvent, PendingStatus]
  · simp [Stub.entryAt, Stub.GetState, Stub.SetEvent, PendingStatus, unmarshalEntry_marshalEntry]

theorem unmarshalEntry_nil : unmarshalEntry "" = Except.error jsonSyntaxError := by
  decide

/-- C22. When the store holds no entry under the key of `id`, because the key has no value,
because its read fails, or because its value does not decode, `invalidateProposal [id]` returns
an error and leaves the stub as it was, so nothing is deleted. -/
theorem invalidateProposal_no_entry (stub : Stub) (id : String)
    (hentry : stub.entryAt (proposalPrefix ++ id) = none) :
    (invalidateProposal stub [id]).2.isError ∧ (invalidateProposal stub [id]).2 ≠ Success none ∧
      (invalidateProposal stub [id]).1 = stub := by
  have h : (invalidateProposal stub [id]).2.isError ∧ (invalidateProposal stub [id]).1 = stub := by
    cases hs : stub.State (proposalPrefix ++ id) with
    | error err =>
      simp only [invalidateProposal, Stub.GetState, hs]
      exact ⟨isError_Error _, trivial⟩
    | ok value =>
      cases value with
      | none =>
        simp only [invalidateProposal, Stub.GetState, hs, bytesOrNil, unmarshalEntry_nil]
        exact ⟨isError_Error _, trivial⟩
      | some bytes =>
        simp only [Stub.entryAt, Stub.GetState, hs] at hentry
        cases hu : unmarshalEntry bytes with
        | error err =>
          simp only [invalidateProposal, Stub.GetState, hs, bytesOrNil, hu]
          exact ⟨isError_Error _, trivial⟩
        | ok e =>
          rw [hu] at hentry
          cases hentry
  refine ⟨h.1, ?_, h.2⟩
  intro hok
  have := h.1
  rw [hok] at this
  exact not_isError_Success none this

theorem store_errors_reported (rt : Runtime) (stub : Stub) (id p err : String) :
    (stub.State (proposalPrefix ++ id) = Except.error err →
        (confirmProposal rt stub [id, p]).2.isError ∧
          (invalidateProposal stub [id]).2.isError) ∧
      (∀ a0 a1 a2 parsed, unmarshalProposal a0 = Except.ok parsed →
        stub.putErr (proposalPrefix ++ parsed.ProposalID)
          (marshalEntry
            { Proposal := parsed, Status := PendingStatus, Hash := a1, HashAlgorithm := a2 }) =
          some err → (createProposal stub [a0, a1, a2]).2.isError) ∧
      (stub.delErr (proposalPrefix ++ id) = some err →
        (invalidateProposal stub [id]).2.isError) := by
  refine ⟨?_, ?_, ?_⟩
  · intro h
    constructor
    · simp only [confirmProposal, Stub.GetState, h]
      exact isError_Error _
    · simp only [invalidateProposal, Stub.GetState, h]
      exact isError_Error _
  · intro a0 a1 a2 parsed hparse hput
    rcases createProposal_cases stub [a0, a1, a2] with
      ⟨_, h⟩ | ⟨b0, b1, b2, parsed1, stub1, hargs, _, hparse1, _, _, hput1, _⟩
    · exact h
    · injection hargs with h0 hargs
      injection hargs with h1 hargs
      injection hargs with h2 _
      subst h0 h1 h2
      rw [hparse] at hparse1
      injection hparse1 with hp
      subst hp
      simp [Stub.PutState, hput] at hput1
  · intro h
    rcases invalidateProposal_cases stub [id] with
      ⟨_, h1⟩ | ⟨id1, bytes, e, stub1, hargs, _, _, _, hdel, _⟩
    · exact h1
    · injection hargs with h0 _
      subst h0
      simp [Stub.DelState, h] at hdel

/-! ## The statements above on the stores of the tests -/

set_option maxRecDepth 100000 in
/-- C21 fails at the write of `confirmProposal`: the store holds a `PENDING` entry whose hash
matches the pre-image and reports an error for the write of the `CONFIRMED` entry; the call
returns success, not an error, it hands over the `PROPOSAL_CONFIRMED` event, and the entry held
afterwards is not the `CONFIRMED` one. -/
theorem confirmProposal_write_error_dropped :
    (readOnlyStub pendingStub).entryAt (proposalPrefix ++ "prop1234") = some pendingEntry ∧
      (readOnlyStub pendingStub).putErr (proposalPrefix ++ "prop1234")
        (marshalEntry { pendingEntry with Status := ConfirmStatus }) = some "write refused" ∧
      (confirmProposal testRuntime (readOnlyStub pendingStub)
        ["prop1234", "test_hash"]).2 = Success none ∧
      ¬ (confirmProposal testRuntime (readOnlyStub pendingStub)
        ["prop1234", "test_hash"]).2.isError ∧
      (confirmProposal testRuntime (readOnlyStub pendingStub)
        ["prop1234", "test_hash"]).1.Events.map (fun ev => ev.EventName) =
        ["PROPOSAL_CONFIRMED"] ∧
      (confirmProposal testRuntime (readOnlyStub pendingStub)
        ["prop1234", "test_hash"]).1.entryAt (proposalPrefix ++ "prop1234") ≠
        some { pendingEntry with Status := ConfirmStatus } := by
  decide

/-- C22 on three stores: one without a value for `prop1234`, one whose reads fail, and one whose
value for `prop1234` does not decode. -/
theorem invalidateProposal_no_entry_witness :
    (emptyStub.entryAt (proposalPrefix ++ "prop1234") = none ∧
        (invalidateProposal emptyStub ["prop1234"]).2.isError ∧
        (invalidateProposal emptyStub ["prop1234"]).2 ≠ Success none ∧
        (invalidateProposal emptyStub ["prop1234"]).1 = emptyStub) ∧
      ((unreadableStub emptyStub).entryAt (proposalPrefix ++ "prop1234") = none ∧
        (invalidateProposal (unreadableStub emptyStub) ["prop1234"]).2.isError ∧
        (invalidateProposal (unreadableStub emptyStub) ["prop1234"]).2 ≠ Success none ∧
        (invalidateProposal (unreadableStub emptyStub) ["prop1234"]).1 =
          unreadableStub emptyStub) ∧
      (garbledStub.entryAt (proposalPrefix ++ "prop1234") = none ∧
        (invalidateProposal garbledStub ["prop1234"]).2.isError ∧
        (invalidateProposal garbledStub ["prop1234"]).2 ≠ Success none ∧
        (invalidateProposal garbledStub ["prop1234"]).1 = garbledStub) :=
  have h1 : emptyStub.entryAt (proposalPrefix ++ "prop1234") = none := by decide
  have h2 : (unreadableStub emptyStub).entryAt (proposalPrefix ++ "prop1234") = none := by
    decide
  have h3 : garbledStub.entryAt (proposalPrefix ++ "prop1234") = none := by decide
  ⟨⟨h1, invalidateProposal_no_entry emptyStub "prop1234" h1⟩,
    ⟨h2, invalidateProposal_no_entry (unreadableStub emptyStub) "prop1234" h2⟩,
    ⟨h3, invalidateProposal_no_entry garbledStub "prop1234" h3⟩⟩

set_option maxRecDepth 100000 in
/-- C23 on the store reached by the create and the confirm of the tests: the entry it holds for
`prop1234` records `SHA256`, and a further confirm does not return the error of an unsupported
algorithm. -/
theorem unsupported_unreachable_witness :
    emptyStub.IsEmpty ∧
      (run testRuntime emptyStub testCalls).entryAt (proposalPrefix ++ "prop1234") =
        some confirmedEntry ∧
      confirmedEntry.HashAlgorithm ∈ validHashingAlgorithms ∧
      (confirmProposal testRuntime (run testRuntime emptyStub testCalls)
        ["prop1234", "test_hash"]).2 ≠
        Error "The hash algorithm which was recorded in the proposal is not supported." :=
  have h : emptyStub.IsEmpty := fun _ => rfl
  have h1 : (run testRuntime emptyStub testCalls).entryAt (proposalPrefix ++ "prop1234") =
      some confirmedEntry := by decide
  ⟨h, h1,
    (unsupported_unreachable testRuntime emptyStub testCalls h).1 _ confirmedEntry h1,
    (unsupported_unreachable testRuntime emptyStub testCalls h).2 ["prop1234", "test_hash"]⟩

set_option maxRecDepth 100000 in
/-- C24 on the store of an entry that records `MD5`: the confirm with the pre-image of the tests
returns the error of an unsupported algorithm and leaves the stub as it was. -/
theorem confirmProposal_unsupported_witness :
    md5Stub.entryAt (proposalPrefix ++ "prop1234") = some md5Entry ∧
      md5Entry.HashAlgorithm ∉ validHashingAlgorithms ∧
      confirmProposal testRuntime md5Stub ["prop1234", "test_hash"] =
        (md5Stub,
          Error "The hash algorithm which was recorded in the proposal is not supported.") ∧
      (confirmProposal testRuntime md5Stub ["prop1234", "test_hash"]).2 ≠
        Error "Invalid Pre-image supplied." :=
  have h1 : md5Stub.entryAt (proposalPrefix ++ "prop1234") = some md5Entry := by decide
  have h2 : md5Entry.HashAlgorithm ∉ validHashingAlgorithms := by decide
  ⟨h1, h2,
    (confirmProposal_unsupported testRuntime md5Stub "prop1234" "test_hash" md5Entry h1 h2).1,
    (confirmProposal_unsupported testRuntime md5Stub "prop1234" "test_hash" md5Entry h1 h2).2.1⟩

set_option maxRecDepth 100000 in
/-- C25 on a store whose transport reports an error for every event: the create of the tests
returns success and the entry is held. -/
theorem createProposal_event_failure_witness :
    unmarshalProposal testProposal = Except.ok { ProposalID := "prop1234", Handler := "Bob" } ∧
      (muteStub emptyStub).eventErr ("Bob" ++ "_PROPOSAL_CREATED")
        (marshalCreatedEvent { ProposalID := "prop1234" }) = some "event refused" ∧
      (muteStub emptyStub).eventErr "PROPOSAL_CREATED"
        (marshalCreatedEvent { ProposalID := "prop1234" }) = some "event refused" ∧
      (createProposal (muteStub emptyStub) [testProposal, "hash", "SHA512"]).2 = Success none ∧
      (createProposal (muteStub emptyStub) [testProposal, "hash", "SHA512"]).1.entryAt
          (proposalPrefix ++ "prop1234") =
        some { Proposal := { ProposalID := "prop1234", Handler := "Bob" }, Status := "PENDING",
               Hash := "hash", HashAlgorithm := "SHA512" } :=
  have h1 : unmarshalProposal testProposal =
      Except.ok { ProposalID := "prop1234", Handler := "Bob" } := by decide
  have h2 := createProposal_event_failure (muteStub emptyStub) testProposal "hash" "SHA512"
    { ProposalID := "prop1234", Handler := "Bob" } h1 (by decide) (by decide) (by decide) rfl
    (Or.inl (by simp [muteStub]))
  ⟨h1, rfl, rfl, h2.1, h2.2.2⟩

set_option maxRecDepth 100000 in
/-- C26 on the store of the pending entry: the confirm with the pre-image of the tests turns the
entry for `prop1234` into the `CONFIRMED` one, and the digest of the pre-image is the recorded
hash. -/
theorem confirmed_only_by_preimage_witness :
    (∀ e, pendingStub.entryAt (proposalPrefix ++ "prop1234") = some e →
        e.Status ≠ ConfirmStatus) ∧
      (confirmProposal testRuntime pendingStub ["prop1234", "test_hash"]).1.entryAt
        (proposalPrefix ++ "prop1234") = some confirmedEntry ∧
      confirmedEntry.Status = ConfirmStatus ∧
      ∃ id p e, ["prop1234", "test_hash"] = [id, p] ∧
        proposalPrefix ++ "prop1234" = proposalPrefix ++ id ∧
        (confirmProposal testRuntime pendingStub ["prop1234", "test_hash"]).2 = Success none ∧
        pendingStub.entryAt (proposalPrefix ++ "prop1234") = some e ∧
        e.HashAlgorithm ∈ validHashingAlgorithms ∧
        EncodeToString (digestOf testRuntime e.HashAlgorithm p) = ToLower testRuntime e.Hash ∧
        confirmedEntry = { e with Status := ConfirmStatus } :=
  have h0 : pendingStub.entryAt (proposalPrefix ++ "prop1234") = some pendingEntry := by decide
  have h1 : ∀ e, pendingStub.entryAt (proposalPrefix ++ "prop1234") = some e →
      e.Status ≠ ConfirmStatus := by
    intro e he
    rw [h0] at he
    injection he with he
    subst he
    decide
  have h2 : (confirmProposal testRuntime pendingStub ["prop1234", "test_hash"]).1.entryAt
      (proposalPrefix ++ "prop1234") = some confirmedEntry := by decide
  have h3 : confirmedEntry.Status = ConfirmStatus := by decide
  ⟨h1, h2, h3,
    (confirmed_only_by_preimage testRuntime pendingStub).2.2.1 ["prop1234", "test_hash"]
      (proposalPrefix ++ "prop1234") confirmedEntry h1 h2 h3⟩

set_option maxRecDepth 100000 in
/-- C27 on the store reached by the create and the confirm of the tests: the one key with a
value is that of `prop1234`, and the entry held under it records `prop1234`. -/
theorem reachable_well_formed_witness :
    emptyStub.IsEmpty ∧
      (run testRuntime emptyStub testCalls).State "_proposal_prop1234" =
        Except.ok (some (marshalEntry confirmedEntry)) ∧
      (∃ id e, "_proposal_prop1234" = proposalPrefix ++ id ∧
        (run testRuntime emptyStub testCalls).entryAt "_proposal_prop1234" = some e ∧
        e.Proposal.ProposalID = id ∧ id ≠ "" ∧ e.Proposal.Handler ≠ "" ∧
        (e.Status = "PENDING" ∨ e.Status = "CONFIRMED")) ∧
      (confirmProposal testRuntime (run testRuntime emptyStub testCalls)
        ["prop1234", "test_hash"]).2 = Success none ∧
      ∃ id p e, ["prop1234", "test_hash"] = [id, p] ∧
        (run testRuntime emptyStub testCalls).entryAt (proposalPrefix ++ id) = some e ∧
        e.Proposal.ProposalID = id ∧
        (confirmProposal testRuntime (run testRuntime emptyStub testCalls)
            ["prop1234", "test_hash"]).1.Events =
          (run testRuntime emptyStub testCalls).Events ++
            [{ EventName := "PROPOSAL_CONFIRMED"
               Payload := marshalConfirmedEvent { ProposalID := id, PreImage := p } }] ∧
        unmarshalConfirmedEvent (marshalConfirmedEvent { ProposalID := id, PreImage := p }) =
          Except.ok { ProposalID := e.Proposal.ProposalID, PreImage := p } :=
  have h : emptyStub.IsEmpty := fun _ => rfl
  have h1 : (run testRuntime emptyStub testCalls).State "_proposal_prop1234" =
      Except.ok (some (marshalEntry confirmedEntry)) := by decide
  have h2 : (confirmProposal testRuntime (run testRuntime emptyStub testCalls)
      ["prop1234", "test_hash"]).2 = Success none := by decide
  ⟨h, h1,
    (reachable_well_formed testRuntime emptyStub testCalls h).1 _ _ h1, h2,
    (reachable_well_formed testRuntime emptyStub testCalls h).2 _ h2⟩

/-! ## Go strings as bytes: what `encoding/json` keeps of them -/

theorem char_range (c : Char) :
    c.toNat < 0xD800 ∨ (0xDFFF < c.toNat ∧ c.toNat < 0x110000) := by
  have h := c.valid
  simp only [UInt32.isValidChar, Nat.isValidChar] at h
  exact h

theorem decodeRune_encodeRune (c : Char) (tail : List Nat) :
    decodeRune (encodeRune c ++ tail) = (some c, (encodeRune c).length) := by
  have hr := char_range c
  have hc : ∀ k, k = c.toNat → Char.ofNat k = c := by
    intro k hk
    rw [hk]
    exact Char.ofNat_toNat c
  unfold encodeRune
  generalize c.toNat = n at hr hc
  by_cases h1 : n < 0x80
  · simp only [h1, if_true, List.singleton_append, decodeRune, List.length_singleton]
    rw [hc _ rfl]
  · by_cases h2 : n < 0x800
    · have hs : runeSize (0xC0 + n / 0x40) = 2 := by
        unfold runeSize
        rw [if_pos (by omega)]
      have hlo : acceptLo (0xC0 + n / 0x40) = 0x80 := by
        unfold acceptLo
        rw [if_neg (by omega), if_neg (by omega)]
      have hhi : acceptHi (0xC0 + n / 0x40) = 0xBF := by
        unfold acceptHi
        rw [if_neg (by omega), if_neg (by omega)]
      simp only [h1, h2, if_true, if_false, List.cons_append, List.nil_append, decodeRune,
        hs, hlo, hhi, List.length_cons, List.length_nil]
      repeat rw [if_neg (by omega)]
      rw [if_pos (by omega), hc _ (by omega)]
    · have d1 : n / 0x40 / 0x40 = n / 0x1000 := by rw [Nat.div_div_eq_div_mul]
      have d2 : n / 0x1000 / 0x40 = n / 0x40000 := by rw [Nat.div_div_eq_div_mul]
      by_cases h3 : n < 0x10000
      · have hs : runeSize (0xE0 + n / 0x1000) = 3 := by
          unfold runeSize
          rw [if_neg (by omega), if_pos (by omega)]
        have hlo : ¬ (0x80 + n / 0x40 % 0x40 < acceptLo (0xE0 + n / 0x1000) ∨
            acceptHi (0xE0 + n / 0x1000) < 0x80 + n / 0x40 % 0x40) := by
          unfold acceptLo acceptHi
          split_ifs <;> omega
        simp only [h1, h2, h3, if_true, if_false, List.cons_append, List.nil_append, decodeRune,
          hs, hlo, List.length_cons, List.length_nil]
        repeat rw [if_neg (by omega)]
        rw [if_pos (by omega), hc _ (by omega)]
      · have hs : runeSize (0xF0 + n / 0x40000) = 4 := by
          unfold runeSize
          rw [if_neg (by omega), if_neg (by omega)]
        have hlo : ¬ (0x80 + n / 0x1000 % 0x40 < acceptLo (0xF0 + n / 0x40000) ∨
            acceptHi (0xF0 + n / 0x40000) < 0x80 + n / 0x1000 % 0x40) := by
          unfold acceptLo acceptHi
          split_ifs <;> omega
        simp only [h1, h2, h3, if_true, if_false, List.cons_append, List.nil_append, decodeRune,
          hs, hlo, List.length_cons, List.length_nil]
        repeat rw [if_neg (by omega)]
        rw [hc _ (by omega)]

theorem encodeRune_ne_nil (c : Char) : encodeRune c ≠ [] := by
  unfold encodeRune
  split_ifs <;> simp

theorem runesAux_succ (fuel : Nat) (s : List Nat) (h : s ≠ []) :
    runesAux (fuel + 1) s = (decodeRune s).1 :: runesAux fuel (s.drop (decodeRune s).2) := by
  cases s with
  | nil => exact absurd rfl h
  | cons s0 rest => rfl

theorem runesAux_flatMap (cs : List Char) :
    ∀ fuel, (cs.flatMap encodeRune).length ≤ fuel →
      runesAux fuel (cs.flatMap encodeRune) = cs.map some := by
  induction cs with
  | nil =>
    intro fuel _
    cases fuel <;> rfl
  | cons c cs ih =>
    intro fuel hfuel
    rw [List.flatMap_cons] at hfuel ⊢
    have hne : encodeRune c ≠ [] := encodeRune_ne_nil c
    have hpos : 0 < (encodeRune c).length := List.length_pos.2 hne
    rw [List.length_append] at hfuel
    cases fuel with
    | zero => omega
    | succ fuel =>
      rw [runesAux_succ fuel _ (by simp [hne]), decodeRune_encodeRune, List.drop_left,
        ih fuel (by omega)]
      rfl

theorem runes_utf8 (s : String) : runes (utf8 s) = s.data.map some :=
  runesAux_flatMap s.data _ (le_refl _)

theorem coerceUTF8_utf8 (s : String) : coerceUTF8 (utf8 s) = s := by
  unfold coerceUTF8
  rw [runes_utf8, List.map_map]
  have : (fun r : Option Char => r.getD replacementChar) ∘ some = id := by
    funext c
    rfl
  rw [this, List.map_id]

theorem quoteBytes_utf8 (s : String) : quoteBytes (utf8 s) = quote s := by
  unfold quoteBytes quote
  rw [runes_utf8, List.flatMap_map]
  rfl

theorem utf8_append (a b : String) : utf8 (a ++ b) = utf8 a ++ utf8 b := by
  simp [utf8, String.data_append, List.flatMap_append]

theorem utf8_eq_nil (s : String) : utf8 s = [] ↔ s = "" := by
  constructor
  · intro h
    have := congrArg coerceUTF8 h
    rw [coerceUTF8_utf8] at this
    rw [this]
    rfl
  · intro h
    rw [h]
    rfl

theorem utf8_injective (a b : String) (h : utf8 a = utf8 b) : a = b := by
  have := congrArg coerceUTF8 h
  rwa [coerceUTF8_utf8, coerceUTF8_utf8] at this


theorem marshalEntryBytes_ofEntry (e : proposalEntry) :
    marshalEntryBytes (ofEntry e) = utf8 (marshalEntry e) := by
  simp only [marshalEntryBytes, marshalEntryCharsBytes, marshalProposalCharsBytes, ofEntry,
    ofProposal,
    quoteBytes_utf8, marshalEntry, marshalEntryChars,
    marshalProposalChars]

theorem unmarshalEntryBytes_marshalEntryBytes (e : proposalEntry) :
    unmarshalEntryBytes (marshalEntryBytes (ofEntry e)) = Except.ok (ofEntry e) := by
  rw [marshalEntryBytes_ofEntry]
  unfold unmarshalEntryBytes
  rw [coerceUTF8_utf8, unmarshalEntry_marshalEntry]

theorem unmarshalProposalBytes_ok (a0 : List Nat) (parsed : abstractProposalBytes)
    (h : unmarshalProposalBytes a0 = Except.ok parsed) :
    ∃ p, unmarshalProposal (coerceUTF8 a0) = Except.ok p ∧ parsed = ofProposal p := by
  unfold unmarshalProposalBytes at h
  cases hp : unmarshalProposal (coerceUTF8 a0) with
  | error err =>
    rw [hp] at h
    cases h
  | ok p =>
    rw [hp] at h
    injection h with h
    exact ⟨p, rfl, h.symm⟩

theorem mem_validBytes_iff (alg : List Nat) :
    alg ∈ validHashingAlgorithmsBytes ↔
      alg = utf8 "SHA256" ∨ alg = utf8 "SHA384" ∨ alg = utf8 "SHA512" := by
  simp [validHashingAlgorithmsBytes, validHashingAlgorithms]

theorem validAlgBytes_iff (alg : List Nat) :
    validAlgBytes alg = true ↔ alg ∈ validHashingAlgorithmsBytes := by
  rw [mem_validBytes_iff]
  simp only [validAlgBytes, validHashingAlgorithmsBytes, validHashingAlgorithms,
    List.map, List.foldl]
  by_cases h1 : utf8 "SHA256" = alg
  · subst h1; simp
  · by_cases h2 : utf8 "SHA384" = alg
    · subst h2; simp
    · by_cases h3 : utf8 "SHA512" = alg
      · subst h3; simp
      · simp [h1, h2, h3, Ne.symm h1, Ne.symm h2, Ne.symm h3, eq_comm]

theorem mem_validBytes_text (alg : List Nat) (h : alg ∈ validHashingAlgorithmsBytes) :
    ∃ a, a ∈ validHashingAlgorithms ∧ alg = utf8 a := by
  unfold validHashingAlgorithmsBytes at h
  obtain ⟨a, ha, rfl⟩ := List.mem_map.1 h
  exact ⟨a, ha, rfl⟩

/-! ## The create and the confirm on byte strings -/


theorem createProposalBytes_of_parsed (stub : ByteStub) (a0 a1 a2 : List Nat)
    (parsed : abstractProposalBytes)
    (hparse : unmarshalProposalBytes a0 = Except.ok parsed) (hid : parsed.ProposalID ≠ [])
    (hh : parsed.Handler ≠ []) (halg : a2 ∈ validHashingAlgorithmsBytes) :
    createProposalBytes stub [a0, a1, a2] =
      match stub.PutState (proposalPrefixBytes ++ parsed.ProposalID)
          (marshalEntryBytes
            { Proposal := parsed, Status := PendingStatusBytes, Hash := a1,
              HashAlgorithm := a2 }) with
      | Except.error err => (stub, Error ("Error writing proposal to state - " ++ err))
      | Except.ok stub1 =>
        (((stub1.SetEvent (parsed.Handler ++ ProposalCreatedHandlerEventBytes)
              (marshalCreatedEventBytes { ProposalID := parsed.ProposalID })).1.SetEvent
            ProposalCreateTimeoutEventBytes
            (marshalCreatedEventBytes { ProposalID := parsed.ProposalID })).1, Success none) := by
  have hv : validAlgBytes a2 = true := (validAlgBytes_iff a2).2 halg
  simp only [createProposalBytes, hv, hparse, hid, hh, Bool.true_eq_false, if_false]

theorem entry_of_text (a1 a2 : List Nat) (parsed : abstractProposalBytes)
    (p : abstractProposal)
    (hash alg : String) (hp : parsed = ofProposal p) (hhash : a1 = utf8 hash)
    (halg : a2 = utf8 alg) :
    ({ Proposal := parsed, Status := PendingStatusBytes, Hash := a1, HashAlgorithm := a2 } :
        proposalEntryBytes) =
      ofEntry { Proposal := p, Status := PendingStatus, Hash := hash,
                HashAlgorithm := alg } := by
  subst hp hhash halg
  rfl

theorem createProposalBytes_written (stub : ByteStub) (a0 a1 a2 : List Nat)
    (parsed : abstractProposalBytes)
    (hash : String) (hparse : unmarshalProposalBytes a0 = Except.ok parsed)
    (hid : parsed.ProposalID ≠ []) (hh : parsed.Handler ≠ []) (hhash : a1 = utf8 hash)
    (halg : a2 ∈ validHashingAlgorithmsBytes)
    (hput : stub.putErr (proposalPrefixBytes ++ parsed.ProposalID)
      (marshalEntryBytes
        { Proposal := parsed, Status := PendingStatusBytes, Hash := a1,
          HashAlgorithm := a2 }) = none) :
    (createProposalBytes stub [a0, a1, a2]).2 = Success none ∧
      (createProposalBytes stub [a0, a1, a2]).1.State (proposalPrefixBytes ++ parsed.ProposalID) =
        Except.ok (some (marshalEntryBytes
          { Proposal := parsed, Status := PendingStatusBytes, Hash := a1, HashAlgorithm := a2 })) ∧
      (createProposalBytes stub [a0, a1, a2]).1.entryAt (proposalPrefixBytes ++ parsed.ProposalID) =
        some { Proposal := parsed, Status := PendingStatusBytes, Hash := a1, HashAlgorithm := a2 } ∧
      ∀ k, k ≠ proposalPrefixBytes ++ parsed.ProposalID →
        (createProposalBytes stub [a0, a1, a2]).1.State k = stub.State k := by
  obtain ⟨p, _, hp⟩ := unmarshalProposalBytes_ok a0 parsed hparse
  obtain ⟨alg, _, halg2⟩ := mem_validBytes_text a2 halg
  have he := entry_of_text a1 a2 parsed p hash alg hp hhash halg2
  rw [createProposalBytes_of_parsed stub a0 a1 a2 parsed hparse hid hh halg]
  simp only [ByteStub.PutState, hput]
  refine ⟨trivial, ?_, ?_, ?_⟩
  · simp [ByteStub.SetEvent]
  · simp only [ByteStub.entryAt, ByteStub.GetState, ByteStub.SetEvent, if_true]
    rw [he, unmarshalEntryBytes_marshalEntryBytes]
  · intro k hk
    simp [ByteStub.SetEvent, hk]

/-- C4, as amended. After a successful `createProposal` whose payload parses to a proposal with
a non-empty id and a non-empty handler, whose hash is the UTF-8 of a text and whose algorithm is
one of the three, the store maps the key `_proposal_` followed by the id to the entry made of
that proposal, status `PENDING`, the hash bytes exactly as supplied and the algorithm supplied;
every other key of the store is as before. -/
theorem createProposalBytes_round_trip (stub : ByteStub) (a0 a1 a2 : List Nat)
    (parsed : abstractProposalBytes) (hash : String)
    (hparse : unmarshalProposalBytes a0 = Except.ok parsed) (hid : parsed.ProposalID ≠ [])
    (hh : parsed.Handler ≠ []) (hhash : a1 = utf8 hash)
    (halg : a2 ∈ validHashingAlgorithmsBytes)
    (hok : (createProposalBytes stub [a0, a1, a2]).2 = Success none) :
    (createProposalBytes stub [a0, a1, a2]).1.State (proposalPrefixBytes ++ parsed.ProposalID) =
        Except.ok (some (marshalEntryBytes
          { Proposal := parsed, Status := PendingStatusBytes, Hash := a1, HashAlgorithm := a2 })) ∧
      (createProposalBytes stub [a0, a1, a2]).1.entryAt (proposalPrefixBytes ++ parsed.ProposalID) =
        some { Proposal := parsed, Status := PendingStatusBytes, Hash := a1, HashAlgorithm := a2 } ∧
      ∀ k, k ≠ proposalPrefixBytes ++ parsed.ProposalID →
        (createProposalBytes stub [a0, a1, a2]).1.State k = stub.State k := by
  cases hput : stub.putErr (proposalPrefixBytes ++ parsed.ProposalID)
      (marshalEntryBytes
        { Proposal := parsed, Status := PendingStatusBytes, Hash := a1, HashAlgorithm := a2 }) with
  | some err =>
    rw [createProposalBytes_of_parsed stub a0 a1 a2 parsed hparse hid hh halg] at hok
    simp only [ByteStub.PutState, hput] at hok
    exact absurd hok.symm (Success_ne_Error none _)
  | none =>
    exact (createProposalBytes_written stub a0 a1 a2 parsed hash hparse hid hh hhash halg hput).2

/-- C14, as amended. `createProposal` makes no check of what the store holds: on a store that
accepts writes and already holds an entry for the id, whatever its status, hash and algorithm,
a create with a recognised algorithm, a proposal with both fields and a hash that is the UTF-8
of a text succeeds, and the entry stored for the id is then the new one, with status `PENDING`
and the handler, hash and algorithm of the call. -/
theorem createProposalBytes_overwrites (stub : ByteStub) (a0 a1 a2 : List Nat)
    (parsed : abstractProposalBytes) (old : proposalEntryBytes) (hash : String)
    (_hold : stub.entryAt (proposalPrefixBytes ++ parsed.ProposalID) = some old)
    (hparse : unmarshalProposalBytes a0 = Except.ok parsed) (hid : parsed.ProposalID ≠ [])
    (hh : parsed.Handler ≠ []) (hhash : a1 = utf8 hash)
    (halg : a2 ∈ validHashingAlgorithmsBytes)
    (hw : stub.AcceptsWrites) :
    (createProposalBytes stub [a0, a1, a2]).2 = Success none ∧
      (createProposalBytes stub [a0, a1, a2]).1.entryAt (proposalPrefixBytes ++ parsed.ProposalID) =
        some { Proposal := parsed, Status := PendingStatusBytes, Hash := a1,
               HashAlgorithm := a2 } :=
  have h := createProposalBytes_written stub a0 a1 a2 parsed hash hparse hid hh hhash halg (hw _ _)
  ⟨h.1, h.2.2.1⟩


set_option maxRecDepth 100000 in
/-- C4 as stated fails for a hash that is not valid UTF-8: with the one byte `0xff` as hash the
create of the tests succeeds, the record stored has the six characters `\ufffd` as hash, and
the entry read back has as hash the three bytes of U+FFFD, not the byte supplied. -/
theorem createProposalBytes_hash_coerced :
    unmarshalProposalBytes (utf8 testProposal) =
        Except.ok { ProposalID := utf8 "prop1234", Handler := utf8 "Bob" } ∧
      utf8 "SHA256" ∈ validHashingAlgorithmsBytes ∧
      (createProposalBytes emptyByteStub [utf8 testProposal, strayByte, utf8 "SHA256"]).2 =
        Success none ∧
      (createProposalBytes emptyByteStub
          [utf8 testProposal, strayByte, utf8 "SHA256"]).1.State prop1234Key =
        Except.ok (some (utf8
          ("\x7b\"proposal\":\x7b\"proposalId\":\"prop1234\",\"proposalHandler\":\"Bob\"\x7d,"
            ++ "\"status\":\"PENDING\",\"hash\":\"\\ufffd\",\"hashAlgorithm\":\"SHA256\"\x7d"))) ∧
      (createProposalBytes emptyByteStub
          [utf8 testProposal, strayByte, utf8 "SHA256"]).1.entryAt prop1234Key =
        some { Proposal := { ProposalID := utf8 "prop1234", Handler := utf8 "Bob" },
               Status := PendingStatusBytes, Hash := replacementBytes,
               HashAlgorithm := utf8 "SHA256" } ∧
      replacementBytes ≠ strayByte := by
  decide

set_option maxRecDepth 100000 in
/-- C4, as amended, at the create of the tests: the entry stored for `prop1234` has the hash
and the algorithm of the call. -/
theorem createProposalBytes_round_trip_witness :
    unmarshalProposalBytes (utf8 testProposal) =
        Except.ok { ProposalID := utf8 "prop1234", Handler := utf8 "Bob" } ∧
      (createProposalBytes emptyByteStub [utf8 testProposal, utf8 "hash", utf8 "SHA512"]).2 =
        Success none ∧
      (createProposalBytes emptyByteStub
          [utf8 testProposal, utf8 "hash", utf8 "SHA512"]).1.entryAt prop1234Key =
        some { Proposal := { ProposalID := utf8 "prop1234", Handler := utf8 "Bob" },
               Status := PendingStatusBytes, Hash := utf8 "hash",
               HashAlgorithm := utf8 "SHA512" } :=
  have h1 : unmarshalProposalBytes (utf8 testProposal) =
      Except.ok { ProposalID := utf8 "prop1234", Handler := utf8 "Bob" } := by decide
  have h2 : (createProposalBytes emptyByteStub
      [utf8 testProposal, utf8 "hash", utf8 "SHA512"]).2 = Success none := by decide
  ⟨h1, h2, (createProposalBytes_round_trip emptyByteStub (utf8 testProposal) (utf8 "hash")
    (utf8 "SHA512") { ProposalID := utf8 "prop1234", Handler := utf8 "Bob" } "hash" h1
    (by decide) (by decide) rfl (by decide) h2).2.1⟩

set_option maxRecDepth 100000 in
/-- C14 as stated fails in two ways on a store that holds an entry for `prop1234`. When the
store refuses writes the valid create returns the error of the write and the old entry stays.
When the store accepts writes and the hash is the one byte `0xff`, the create succeeds and the
entry that replaces the old one has as hash the three bytes of U+FFFD, not the byte supplied. -/
theorem createProposalBytes_overwrite_fails :
    pendingByteStub.entryAt prop1234Key = some (ofEntry pendingEntry) ∧
      (createProposalBytes (readOnlyByteStub pendingByteStub)
        [utf8 testProposal, utf8 "hash", utf8 "SHA512"]).2 =
        Error "Error writing proposal to state - write refused" ∧
      (createProposalBytes (readOnlyByteStub pendingByteStub)
        [utf8 testProposal, utf8 "hash", utf8 "SHA512"]).1.entryAt prop1234Key =
        some (ofEntry pendingEntry) ∧
      (createProposalBytes pendingByteStub
        [utf8 testProposal, strayByte, utf8 "SHA512"]).2 = Success none ∧
      (createProposalBytes pendingByteStub
        [utf8 testProposal, strayByte, utf8 "SHA512"]).1.entryAt prop1234Key =
        some { Proposal := { ProposalID := utf8 "prop1234", Handler := utf8 "Bob" },
               Status := PendingStatusBytes, Hash := replacementBytes,
               HashAlgorithm := utf8 "SHA512" } ∧
      replacementBytes ≠ strayByte := by
  decide

set_option maxRecDepth 100000 in
/-- C14, as amended, on a store that holds the confirmed entry of `prop1234`: the create of the
tests succeeds and the entry is the new one, with status `PENDING`. -/
theorem createProposalBytes_overwrites_witness :
    confirmedByteStub.entryAt prop1234Key = some (ofEntry confirmedEntry) ∧
      confirmedByteStub.AcceptsWrites ∧
      (createProposalBytes confirmedByteStub
        [utf8 testProposal, utf8 "hash", utf8 "SHA512"]).2 = Success none ∧
      (createProposalBytes confirmedByteStub
        [utf8 testProposal, utf8 "hash", utf8 "SHA512"]).1.entryAt prop1234Key =
        some { Proposal := { ProposalID := utf8 "prop1234", Handler := utf8 "Bob" },
               Status := PendingStatusBytes, Hash := utf8 "hash",
               HashAlgorithm := utf8 "SHA512" } :=
  have h1 : confirmedByteStub.entryAt prop1234Key = some (ofEntry confirmedEntry) := by decide
  have h2 : confirmedByteStub.AcceptsWrites := fun _ _ => rfl
  have h3 : unmarshalProposalBytes (utf8 testProposal) =
      Except.ok { ProposalID := utf8 "prop1234", Handler := utf8 "Bob" } := by decide
  ⟨h1, h2,
    createProposalBytes_overwrites confirmedByteStub (utf8 testProposal) (utf8 "hash")
      (utf8 "SHA512") { ProposalID := utf8 "prop1234", Handler := utf8 "Bob" }
      (ofEntry confirmedEntry) "hash" h1 h3 (by decide) (by decide) rfl (by decide) h2⟩

end HashTimeLock
